import Mathlib

/-!
# GLFW Win32 libc shim (`src/win32_stdlib.c`) and test programs: embedding and verification

The shim replaces a handful of C library functions.  The embedding below follows the
C source statement by statement.  The demo programs under `tests/` are embedded after
the shim, see the section on the demo programs.

* A byte is a `Fin 256`.
* A `const char*` argument of a read-only string function is represented by the bytes
  stored from the pointer onwards (`Buf`).  Reading index `i` is `rd p i`; past the end
  of the list a NUL is read, so every buffer is NUL-terminated.  The C string held by a
  buffer is `cstr p`, the bytes before the first NUL.  Bytes after the first NUL are
  arbitrary and part of the model, so the theorems also show that they are never used.
* `p++` on such a pointer is `List.drop 1`, and a returned pointer `a + k` is the
  offset `k`, with `none` for `NULL`.
-/

namespace GlfwShim

/-! ## Data model -/

/-- One byte of memory. -/
abbrev Byte := Fin 256

/-- The bytes stored from a pointer onwards. -/
abbrev Buf := List Byte

/-- The C expression `p[i]`: the byte at index `i`, a NUL past the end of the buffer. -/
def rd (p : Buf) (i : Nat) : Byte := p.getD i 0

/-- The C string held by a buffer: the bytes before the first NUL. -/
def cstr (p : Buf) : Buf := p.takeWhile (fun c => c ≠ 0)

/-! ## `_glfw_strstr` -/

/-- The inner loop of `_glfw_strstr`, `while (a[i] && a[i] == b[i]) i++;`, started at `i`;
the result is the value of `i` when the loop exits.  The loop runs at most
`a.length - i` times because `a[a.length]` is NUL, which is the fuel it is given. -/
def strstr_while (a b : Buf) : Nat → Nat → Nat
  | 0, i => i
  | fuel + 1, i =>
    if rd a i ≠ 0 ∧ rd a i = rd b i then strstr_while a b fuel (i + 1) else i

/-- The function `_glfw_strstr(a, b)`.  Each round of the `do … while (*a++)` loop runs
the inner loop from `i = 0`, returns `a` when `b[i]` is NUL, and otherwise moves on to
`a + 1` when `*a` is not NUL and leaves the loop (returning `NULL`) when it is.  The
result is the offset of the returned pointer from the argument `a`. -/
def _glfw_strstr : Buf → Buf → Option Nat
  | [], b => if rd b (strstr_while [] b 0 0) = 0 then some 0 else none
  | x :: a, b =>
    if rd b (strstr_while (x :: a) b (a.length + 1) 0) = 0 then some 0
    else if x ≠ 0 then (_glfw_strstr a b).map (fun k => k + 1)
    else none

/-- The string `b` occurs in the string `a` at index `k`: `k` is at most `strlen(a)` and
the characters of `b` are the characters of `a` from index `k` on. -/
def occursAt (a b : Buf) (k : Nat) : Prop :=
  k ≤ (cstr a).length ∧ cstr b <+: (cstr a).drop k

/-- List form of the inner loop of `_glfw_strstr`: the number of leading positions at
which `a` holds a non-NUL byte equal to the byte of `b`. -/
def matchLen : Buf → Buf → Nat
  | [], _ => 0
  | x :: a, b => if x ≠ 0 ∧ x = rd b 0 then 1 + matchLen a (b.drop 1) else 0

/-! ## `_glfw_strncmp` -/

/-- The value of a plain `char` that holds the byte `c`, as the `int` it is promoted to.
Whether plain `char` is signed is fixed by the platform ABI and enters as `signedChar`;
on the Win32 targets this file is written for (MSVC, MinGW) plain `char` is signed, so
the program runs with `signedChar = true` and the bytes 128..255 are the values
-128..-1. -/
def charVal (signedChar : Bool) (c : Byte) : Int :=
  if signedChar = true ∧ 128 ≤ c.val then (c.val : Int) - 256 else (c.val : Int)

/-- The function `_glfw_strncmp(a, b, l)`.  One round of `while (l--)` per recursive
call: `if (*a != *b) return *a - *b; if (!*a) break; a++; b++;`, and `return 0` after
the loop.  The difference of two promoted characters lies in -255..255, so the `int`
subtraction does not overflow. -/
def _glfw_strncmp (signedChar : Bool) : Buf → Buf → Nat → Int
  | _, _, 0 => 0
  | a, b, l + 1 =>
    if charVal signedChar (rd a 0) ≠ charVal signedChar (rd b 0) then
      charVal signedChar (rd a 0) - charVal signedChar (rd b 0)
    else if charVal signedChar (rd a 0) = 0 then 0
    else _glfw_strncmp signedChar (a.drop 1) (b.drop 1) l

/-- The sign of a string comparison that reads characters as numbers through `val`:
the sign of the comparison of the first differing characters among the first `l`, and
`0` when there is none before the end of the strings. -/
def strncmp_sign_by (val : Byte → Int) : Buf → Buf → Nat → Int
  | _, _, 0 => 0
  | a, b, l + 1 =>
    if val (rd a 0) < val (rd b 0) then -1
    else if val (rd b 0) < val (rd a 0) then 1
    else if rd a 0 = 0 then 0
    else strncmp_sign_by val (a.drop 1) (b.drop 1) l

/-- The sign of the standard `strncmp`, which compares characters as `unsigned char`
values 0..255. -/
def std_strncmp_sign (a b : Buf) (l : Nat) : Int :=
  strncmp_sign_by (fun c => (c.val : Int)) a b l

/-! ## Memory, `_glfw_memset` and `_glfw_memcpy` -/

/-- The memory of the process: the byte at address `i` is the `i`-th element.  A pointer
is an address, `NULL` is address 0. -/
abbrev Mem := List Byte

/-- The byte stored at an address. -/
def load (m : Mem) (addr : Nat) : Byte := m.getD addr 0

/-- Memory after the byte `v` is written to an address.  The theorems below only store
inside the memory: their hypotheses put every buffer inside it. -/
def store (m : Mem) (addr : Nat) (v : Byte) : Mem := m.set addr v

/-- The conversion `(char) c` of an `int`: the low 8 bits of `c`. -/
def toChar (c : Int) : Byte := ⟨(c % 256).toNat, by omega⟩

/-- The loop `while (size--) *p++ = (char) c;` of `_glfw_memset`, with the current
value of `size` as the recursion argument and `p` the current pointer. -/
def _glfw_memset_loop : Nat → Nat → Int → Mem → Mem
  | 0, _, _, m => m
  | size + 1, p, c, m => _glfw_memset_loop size (p + 1) c (store m p (toChar c))

/-- The function `_glfw_memset(ptr, c, size)`, as the memory it leaves. -/
def _glfw_memset (m : Mem) (ptr : Nat) (c : Int) (size : Nat) : Mem :=
  _glfw_memset_loop size ptr c m

/-- The outcome of `_glfw_memcpy`: the returned pointer, the memory it leaves and the
addresses it stored to, in program order (one entry per execution of `*dp++ = *sp++`). -/
structure CopyResult where
  ret : Nat
  mem : Mem
  writes : List Nat

/-- The loop `while (size--) *dp++ = *sp++;` of `_glfw_memcpy`, with the current value
of `size` as the recursion argument; `log` collects the addresses stored to. -/
def _glfw_memcpy_loop : Nat → Nat → Nat → Mem → List Nat → Mem × List Nat
  | 0, _, _, m, log => (m, log)
  | size + 1, dp, sp, m, log =>
    _glfw_memcpy_loop size (dp + 1) (sp + 1) (store m dp (load m sp)) (log ++ [dp])

/-- The function `_glfw_memcpy(d, s, size)`. -/
def _glfw_memcpy (m : Mem) (d s size : Nat) : CopyResult :=
  { ret := d
    mem := (_glfw_memcpy_loop size d s m []).1
    writes := (_glfw_memcpy_loop size d s m []).2 }

/-! ## `_glfw_abs` -/

/-- The least value of a 32-bit `int`. -/
def INT_MIN : Int := -2147483648

/-- The greatest value of a 32-bit `int`. -/
def INT_MAX : Int := 2147483647

/-- A mathematical integer reduced to the 32-bit two's complement `int` it wraps to. -/
def wrapInt32 (v : Int) : Int := (v + 2147483648) % 4294967296 - 2147483648

/-- The function `_glfw_abs(x)`; the negation is the 32-bit machine negation. -/
def _glfw_abs (x : Int) : Int :=
  if x < 0 then wrapInt32 (-x) else x

/-! ## The stubs `_glfw_qsort` and `_glfw_pow` -/

/-- The outcome of `_glfw_qsort`: the memory it leaves and the pairs of pointers it
called the comparator with, in program order. -/
structure SortResult where
  mem : Mem
  compCalls : List (Nat × Nat)

/-- The function `_glfw_qsort(ptr, count, size, comp)`, whose body is empty. -/
def _glfw_qsort (m : Mem) (_ptr _count _size : Nat) (_comp : Mem → Nat → Nat → Int) :
    SortResult :=
  { mem := m, compCalls := [] }

/-- The array of `count` elements of `size` bytes at `ptr` is sorted for `comp`: the
comparator does not put an earlier element after a later one. -/
def arraySorted (m : Mem) (ptr count size : Nat) (comp : Mem → Nat → Nat → Int) : Prop :=
  ∀ i, i < count → ∀ j, j < count → i < j → comp m (ptr + i * size) (ptr + j * size) ≤ 0

/-- The bytes of the array of `count` elements of `size` bytes at `ptr`. -/
def arrayBytes (m : Mem) (ptr count size : Nat) : List Byte :=
  (List.range (count * size)).map (fun i => load m (ptr + i))

/-- A comparator for one-byte elements: the difference of the two bytes pointed to. -/
def byteCmp (m : Mem) (p q : Nat) : Int := ((load m p).val : Int) - ((load m q).val : Int)

/-- A C `double`: a finite value (a rational number), an infinity or a NaN. -/
inductive Double where
  | finite (q : ℚ)
  | posInf
  | negInf
  | nan
  deriving DecidableEq

/-- The function `_glfw_pow(x, y)`, whose body is `return 0.0;`. -/
def _glfw_pow (_x _y : Double) : Double := Double.finite 0

/-- The mathematical power of a finite base to a natural exponent, as a `double` value
(used for the bases and exponents whose power is exactly representable). -/
def mathPow (x : ℚ) (n : Nat) : Double := Double.finite (x ^ n)

/-! ## Win32 API functions the shim calls through to

`HeapAlloc`, `lstrlenA`, `lstrcpyA` and `wvsprintfA` belong to the operating system, not
to this repository.  The first three are modelled by their documented contracts, with
the address the heap manager picks as a parameter; `wvsprintfA` is a parameter of
`_glfw_vsnprintf`. -/

/-- A call of a Win32 API function with its arguments.  The heap handle of `HeapAlloc`
is always `GetProcessHeap()` and is left out. -/
inductive Call where
  | HeapAlloc (flags bytes : Nat)
  | lstrlenA (str : Nat)
  | lstrcpyA (d s : Nat)
  deriving DecidableEq

/-- The state of the process: its memory and the Win32 calls made so far, oldest first. -/
structure Proc where
  mem : Mem
  calls : List Call

/-- The Win32 flag `HEAP_ZERO_MEMORY` (0x00000008). -/
def HEAP_ZERO_MEMORY : Nat := 8

/-- Win32 `lstrlenA(str)`: the number of bytes of the string at `str` before its NUL,
and 0 for a `NULL` argument. -/
def lstrlenA (w : Proc) (str : Nat) : Nat × Proc :=
  (if str = 0 then 0 else (cstr (w.mem.drop str)).length,
   { w with calls := w.calls ++ [Call.lstrlenA str] })

/-- Win32 `HeapAlloc(GetProcessHeap(), flags, bytes)`.  The parameter `grant` is the
address of the block the heap manager hands out for this request, 0 when the request
fails.  With `HEAP_ZERO_MEMORY` (bit 3 of `flags`) the block is filled with zeroes. -/
def HeapAlloc (grant : Nat) (w : Proc) (flags bytes : Nat) : Nat × Proc :=
  if grant = 0 then
    (0, { w with calls := w.calls ++ [Call.HeapAlloc flags bytes] })
  else if flags.testBit 3 = true then
    (grant, { mem := _glfw_memset_loop bytes grant 0 w.mem
              calls := w.calls ++ [Call.HeapAlloc flags bytes] })
  else
    (grant, { w with calls := w.calls ++ [Call.HeapAlloc flags bytes] })

/-- Win32 `lstrcpyA(d, s)`: copies the string at `s`, its NUL included, to `d` and
returns `d`.  The function guards its accesses with an exception handler, so a `NULL`
argument makes it return `NULL` and copy nothing. -/
def lstrcpyA (w : Proc) (d s : Nat) : Nat × Proc :=
  if d = 0 ∨ s = 0 then
    (0, { w with calls := w.calls ++ [Call.lstrcpyA d s] })
  else
    (d, { mem := (_glfw_memcpy_loop ((cstr (w.mem.drop s)).length + 1) d s w.mem []).1
          calls := w.calls ++ [Call.lstrcpyA d s] })

/-! ## `_glfw_calloc`, `_glfw_strlen`, `_glfw_strcpy`, `_glfw_strdup` -/

/-- The function `_glfw_calloc(count, size)`; `bits` is the width of `size_t`, in which
`count * size` is computed. -/
def _glfw_calloc (bits grant : Nat) (w : Proc) (count size : Nat) : Nat × Proc :=
  HeapAlloc grant w HEAP_ZERO_MEMORY ((count * size) % 2 ^ bits)

/-- The function `_glfw_strlen(str)`. -/
def _glfw_strlen (w : Proc) (str : Nat) : Nat × Proc :=
  lstrlenA w str

/-- The function `_glfw_strcpy(d, s)`. -/
def _glfw_strcpy (w : Proc) (d s : Nat) : Nat × Proc :=
  lstrcpyA w d s

/-- The function `_glfw_strdup(str)`:
`dup = _glfw_calloc(_glfw_strlen(str) + 1, 1); _glfw_strcpy(dup, str); return dup;`.
The sum `_glfw_strlen(str) + 1` is computed in `size_t`, of width `bits`. -/
def _glfw_strdup (bits grant : Nat) (w : Proc) (str : Nat) : Nat × Proc :=
  let len := _glfw_strlen w str
  let dup := _glfw_calloc bits grant len.2 ((len.1 + 1) % 2 ^ bits) 1
  let cpy := _glfw_strcpy dup.2 dup.1 str
  (dup.1, cpy.2)

/-- A process whose memory holds the string "hi" at address 1 and four bytes of free
heap at address 4; no Win32 call has been made yet. -/
def demoProc : Proc :=
  { mem := [0, 104, 105, 0, 7, 7, 7, 7], calls := [] }

/-! ## `_glfw_vsnprintf` -/

/-- The variable arguments of a formatted-output call. -/
abbrev VaList := List Int

/-- The outcome of a formatted-output call: the returned count and the memory it
leaves. -/
structure PrintResult where
  ret : Int
  mem : Mem
  deriving DecidableEq

/-- The function `_glfw_vsnprintf(str, size, fmt, list)`, whose body is
`return wvsprintfA(str, fmt, list);`.  The Win32 formatter is the parameter
`wvsprintfA`. -/
def _glfw_vsnprintf (wvsprintfA : Mem → Nat → Nat → VaList → PrintResult)
    (m : Mem) (str _size fmt : Nat) (list : VaList) : PrintResult :=
  wvsprintfA m str fmt list

/-- What `wvsprintfA` does for a format string without a conversion specification: it
copies the format and its NUL to `str` and returns the number of characters stored,
not counting the NUL. -/
def wvsprintfA_plain (m : Mem) (str fmt : Nat) (_list : VaList) : PrintResult :=
  { ret := ((cstr (m.drop fmt)).length : Int)
    mem := (_glfw_memcpy_loop ((cstr (m.drop fmt)).length + 1) str fmt m []).1 }

/-! # The demo programs under `tests/`

Each demo is a `main` that initialises GLFW, creates its window(s) and the NanoVG
context, runs a draw loop and exits.  The libraries are external; a run of a demo is
modelled against a *script*: the list of outcomes of the library calls whose result the
program branches on, in the order the program makes these calls.  A run produces the
log of what happened and the way it ended.  Calls whose result the program does not
look at, and the drawing itself, are left out of the log. -/

/-- The argument of `exit`: `EXIT_SUCCESS` or `EXIT_FAILURE`. -/
inductive ExitCode where
  | success
  | failure
  deriving DecidableEq

/-- How a run ends: the process called `exit`, or the script has no outcome left for the
next call (the process is still running), or the behaviour is undefined (a division by
zero). -/
inductive Halt where
  | exit (code : ExitCode)
  | pending
  | fault
  deriving DecidableEq

/-- The outcome of one library call: the result as a truth value (non-zero, non-`NULL`,
or the truth of a comparison made on it), the result as a number where the program uses
one, and the GLFW errors reported through the error callback during the call (for GLFW
calls only). -/
structure Resp where
  ok : Bool
  val : Int
  errors : List Int

/-- The GLFW functions whose result a demo branches on. -/
inductive GlfwFn where
  | init
  | getPrimaryMonitor
  | getMonitors
  | createCursor
  | createWindow (fullscreen : Bool)
  | windowShouldClose (window : Nat)
  | getTime
  deriving DecidableEq

/-- What a run logs. -/
inductive Event where
  | setErrorCallback
  | stderr (error : Int)
  | glfw (f : GlfwFn) (ok : Bool) (errors : List Int)
  | getopt (ch : Int)
  | usage
  | rand (val : Int)
  | nvgCreateGL2 (ok : Bool)
  | frame
  | nvgDeleteGL2
  | destroyWindow
  | destroyCursors
  | terminate
  deriving DecidableEq

/-- A run of a demo: the log, oldest event first, and how the run ended. -/
structure Run where
  log : List Event
  halt : Halt

/-- The function `error_callback(error, description)` that every demo installs:
`fprintf(stderr, "Error: %s\n", description);`. -/
def error_callback (error : Int) : List Event :=
  [Event.stderr error]

/-- A call of a GLFW function after `glfwSetErrorCallback(error_callback)`: GLFW invokes
the callback for each error it reports during the call, then the call returns. -/
def glfwCall (f : GlfwFn) (r : Resp) : List Event :=
  r.errors.flatMap error_callback ++ [Event.glfw f r.ok r.errors]

/-- The draw loop shared by accuracy, cursor, gamma, joysticks and msaa,
`while (!glfwWindowShouldClose(window)) { draw; glfwSwapBuffers; poll or wait for events }`,
followed by the teardown calls of the demo, `glfwTerminate()` and `exit(EXIT_SUCCESS)`. -/
def draw_loop (teardown : List Event) : List Resp → List Event → Run
  | [], log => { log := log, halt := Halt.pending }
  | r :: script, log =>
    if r.ok = true then
      { log := log ++ glfwCall (GlfwFn.windowShouldClose 0) r ++ teardown ++ [Event.terminate]
        halt := Halt.exit ExitCode.success }
    else
      draw_loop teardown script (log ++ glfwCall (GlfwFn.windowShouldClose 0) r ++ [Event.frame])

/-- The tail shared by the single-window demos, from `glfwCreateWindow` on: window
creation (`glfwTerminate(); exit(EXIT_FAILURE);` when it returns `NULL`), `nvgCreateGL2`
(the same when it returns `NULL`), then the draw loop. -/
def window_nvg_loop (fullscreen : Bool) (teardown : List Event) :
    List Resp → List Event → Run
  | [], log => { log := log, halt := Halt.pending }
  | w :: script, log =>
    if w.ok = false then
      { log := log ++ glfwCall (GlfwFn.createWindow fullscreen) w ++ [Event.terminate]
        halt := Halt.exit ExitCode.failure }
    else
      match script with
      | [] =>
        { log := log ++ glfwCall (GlfwFn.createWindow fullscreen) w, halt := Halt.pending }
      | n :: script =>
        if n.ok = false then
          { log := log ++ glfwCall (GlfwFn.createWindow fullscreen) w
              ++ [Event.nvgCreateGL2 false, Event.terminate]
            halt := Halt.exit ExitCode.failure }
        else
          draw_loop teardown script
            (log ++ glfwCall (GlfwFn.createWindow fullscreen) w ++ [Event.nvgCreateGL2 true])

/-- The head shared by the demos: `glfwSetErrorCallback(error_callback)` and
`if (!glfwInit()) exit(EXIT_FAILURE);`, then the rest of `main` given as `rest`. -/
def init_then (rest : List Resp → List Event → Run) : List Resp → List Event → Run
  | [], log => { log := log ++ [Event.setErrorCallback], halt := Halt.pending }
  | i :: script, log =>
    if i.ok = false then
      { log := log ++ [Event.setErrorCallback] ++ glfwCall GlfwFn.init i
        halt := Halt.exit ExitCode.failure }
    else
      rest script (log ++ [Event.setErrorCallback] ++ glfwCall GlfwFn.init i)

namespace Accuracy

/-- The function `main` of `tests/accuracy.c`. -/
def main (script : List Resp) : Run :=
  init_then (window_nvg_loop false []) script []

end Accuracy

namespace Joysticks

/-- The function `main` of `tests/joysticks.c`. -/
def main (script : List Resp) : Run :=
  init_then (window_nvg_loop false []) script []

end Joysticks

namespace Cursor

/-- The number of cursor frames, `CURSOR_FRAME_COUNT`. -/
def CURSOR_FRAME_COUNT : Nat := 60

/-- The loop `for (i = 0; i < CURSOR_FRAME_COUNT; i++)` of `main` that creates the cursor
frames, with the number of frames still to create as the recursion argument; a frame
that cannot be created ends the program with `glfwTerminate(); exit(EXIT_FAILURE);`.
After the loop comes the rest of `main`: window, NanoVG context, draw loop and the
teardown `nvgDeleteGL2`, `glfwDestroyWindow`, `glfwDestroyCursor` for every frame. -/
def create_cursors : Nat → List Resp → List Event → Run
  | 0, script, log =>
    window_nvg_loop false [Event.nvgDeleteGL2, Event.destroyWindow, Event.destroyCursors]
      script log
  | _ + 1, [], log => { log := log, halt := Halt.pending }
  | todo + 1, c :: script, log =>
    if c.ok = false then
      { log := log ++ glfwCall GlfwFn.createCursor c ++ [Event.terminate]
        halt := Halt.exit ExitCode.failure }
    else
      create_cursors todo script (log ++ glfwCall GlfwFn.createCursor c)

/-- The function `main` of `tests/cursor.c`. -/
def main (script : List Resp) : Run :=
  init_then (create_cursors CURSOR_FRAME_COUNT) script []

end Cursor

namespace Gamma

/-- The loop `while ((ch = getopt(argc, argv, "fh")) != -1)` of `main` and what follows
it.  The option `h` (104) prints the usage and exits with `EXIT_SUCCESS`, `f` (102) asks
for the primary monitor, any other option prints the usage and exits with
`EXIT_FAILURE`.  The window is full screen when a monitor was obtained.  The teardown is
`nvgDeleteGL2`, `glfwDestroyWindow`. -/
def options (monitor : Bool) : List Resp → List Event → Run
  | [], log => { log := log, halt := Halt.pending }
  | o :: script, log =>
    if o.val = -1 then
      window_nvg_loop monitor [Event.nvgDeleteGL2, Event.destroyWindow] script
        (log ++ [Event.getopt o.val])
    else if o.val = 104 then
      { log := log ++ [Event.getopt o.val, Event.usage], halt := Halt.exit ExitCode.success }
    else if o.val = 102 then
      match script with
      | [] => { log := log ++ [Event.getopt o.val], halt := Halt.pending }
      | m :: script =>
        options m.ok script (log ++ [Event.getopt o.val] ++ glfwCall GlfwFn.getPrimaryMonitor m)
    else
      { log := log ++ [Event.getopt o.val, Event.usage], halt := Halt.exit ExitCode.failure }

/-- The function `main` of `tests/gamma.c`. -/
def main (script : List Resp) : Run :=
  init_then (options false) script []

end Gamma

namespace Msaa

/-- The loop `while ((ch = getopt(argc, argv, "hs:")) != -1)` at the start of `main` and
what follows it.  The option `h` (104) prints the usage and exits with `EXIT_SUCCESS`,
`s` (115) sets the sample count, any other option prints the usage and exits with
`EXIT_FAILURE`. -/
def options : List Resp → List Event → Run
  | [], log => { log := log, halt := Halt.pending }
  | o :: script, log =>
    if o.val = -1 then
      init_then (window_nvg_loop false []) script (log ++ [Event.getopt o.val])
    else if o.val = 104 then
      { log := log ++ [Event.getopt o.val, Event.usage], halt := Halt.exit ExitCode.success }
    else if o.val = 115 then
      options script (log ++ [Event.getopt o.val])
    else
      { log := log ++ [Event.getopt o.val, Event.usage], halt := Halt.exit ExitCode.failure }

/-- The function `main` of `tests/msaa.c`. -/
def main (script : List Resp) : Run :=
  options script []

end Msaa

namespace Sharing

/-- The loop `while (!glfwWindowShouldClose(windows[0]) && !glfwWindowShouldClose(windows[1]))`
of `main` with its body, followed by `glfwTerminate(); exit(EXIT_SUCCESS);`.  The second
flag is only read when the first one is clear. -/
def loop : List Resp → List Event → Run
  | [], log => { log := log, halt := Halt.pending }
  | a :: script, log =>
    if a.ok = true then
      { log := log ++ glfwCall (GlfwFn.windowShouldClose 0) a ++ [Event.terminate]
        halt := Halt.exit ExitCode.success }
    else
      match script with
      | [] => { log := log ++ glfwCall (GlfwFn.windowShouldClose 0) a, halt := Halt.pending }
      | b :: script =>
        if b.ok = true then
          { log := log ++ glfwCall (GlfwFn.windowShouldClose 0) a
              ++ glfwCall (GlfwFn.windowShouldClose 1) b ++ [Event.terminate]
            halt := Halt.exit ExitCode.success }
        else
          loop script (log ++ glfwCall (GlfwFn.windowShouldClose 0) a
            ++ glfwCall (GlfwFn.windowShouldClose 1) b ++ [Event.frame])

/-- The part of `main` after `glfwInit`: the first window, the NanoVG context, the second
window (each with `glfwTerminate(); exit(EXIT_FAILURE);` on `NULL`), then the loop. -/
def windows : List Resp → List Event → Run
  | [], log => { log := log, halt := Halt.pending }
  | w0 :: script, log =>
    if w0.ok = false then
      { log := log ++ glfwCall (GlfwFn.createWindow false) w0 ++ [Event.terminate]
        halt := Halt.exit ExitCode.failure }
    else
      match script with
      | [] => { log := log ++ glfwCall (GlfwFn.createWindow false) w0, halt := Halt.pending }
      | n :: script =>
        if n.ok = false then
          { log := log ++ glfwCall (GlfwFn.createWindow false) w0
              ++ [Event.nvgCreateGL2 false, Event.terminate]
            halt := Halt.exit ExitCode.failure }
        else
          match script with
          | [] =>
            { log := log ++ glfwCall (GlfwFn.createWindow false) w0 ++ [Event.nvgCreateGL2 true]
              halt := Halt.pending }
          | w1 :: script =>
            if w1.ok = false then
              { log := log ++ glfwCall (GlfwFn.createWindow false) w0
                  ++ [Event.nvgCreateGL2 true]
                  ++ glfwCall (GlfwFn.createWindow false) w1 ++ [Event.terminate]
                halt := Halt.exit ExitCode.failure }
            else
              loop script (log ++ glfwCall (GlfwFn.createWindow false) w0
                ++ [Event.nvgCreateGL2 true] ++ glfwCall (GlfwFn.createWindow false) w1)

/-- The function `main` of `tests/sharing.c`. -/
def main (script : List Resp) : Run :=
  init_then windows script []

end Sharing

namespace Reopen

/-- The points of `main` at which the program waits for the result of a library call. -/
inductive Phase where
  | getMonitors
  | pickMonitor (monitorCount : Int)
  | openWindow (fullscreen : Bool)
  | createNvg
  | timeCheck
  | closeCheck
  deriving DecidableEq

/-- The top of the `for (;;)` body for a value of `count`: with `count % 2 == 0` the
program asks for the monitors, otherwise `monitor` stays `NULL` and the window is opened
next. -/
def loopHead (count : Int) : Phase :=
  if Int.tmod count 2 = 0 then Phase.getMonitors else Phase.openWindow false

/-- The `for (;;)` loop of `main`, one library call per step.
* `getMonitors`: `glfwGetMonitors(&monitorCount)`.
* `pickMonitor`: `monitors[rand() % monitorCount]`, a division by zero without monitors;
  the entry picked is a monitor, so the window is full screen.
* `openWindow`: `open_window(640, 480, monitor)`, with `glfwTerminate(); exit(EXIT_FAILURE);`
  on `NULL`.
* `createNvg`: `nvgCreateGL2(0)`, the same on `NULL`; then `glfwSetTime(0.0)`.
* `timeCheck`: `while (glfwGetTime() < 5.0)`; when true the frame is drawn, when false
  `close_window(window); count++;` and the `for` loop starts over.
* `closeCheck`: `if (glfwWindowShouldClose(window))`, then `close_window(window);
  glfwTerminate(); exit(EXIT_SUCCESS);`. -/
def run : Phase → Int → List Resp → List Event → Run
  | _, _, [], log => { log := log, halt := Halt.pending }
  | Phase.getMonitors, count, r :: script, log =>
    run (Phase.pickMonitor r.val) count script (log ++ glfwCall GlfwFn.getMonitors r)
  | Phase.pickMonitor monitorCount, count, r :: script, log =>
    if monitorCount = 0 then
      { log := log ++ [Event.rand r.val], halt := Halt.fault }
    else
      run (Phase.openWindow true) count script (log ++ [Event.rand r.val])
  | Phase.openWindow fullscreen, count, r :: script, log =>
    if r.ok = false then
      { log := log ++ glfwCall (GlfwFn.createWindow fullscreen) r ++ [Event.terminate]
        halt := Halt.exit ExitCode.failure }
    else
      run Phase.createNvg count script (log ++ glfwCall (GlfwFn.createWindow fullscreen) r)
  | Phase.createNvg, count, r :: script, log =>
    if r.ok = false then
      { log := log ++ [Event.nvgCreateGL2 false, Event.terminate]
        halt := Halt.exit ExitCode.failure }
    else
      run Phase.timeCheck count script (log ++ [Event.nvgCreateGL2 true])
  | Phase.timeCheck, count, r :: script, log =>
    if r.ok = true then
      run Phase.closeCheck count script (log ++ glfwCall GlfwFn.getTime r ++ [Event.frame])
    else
      run (loopHead (wrapInt32 (count + 1))) (wrapInt32 (count + 1)) script
        (log ++ glfwCall GlfwFn.getTime r ++ [Event.destroyWindow])
  | Phase.closeCheck, count, r :: script, log =>
    if r.ok = true then
      { log := log ++ glfwCall (GlfwFn.windowShouldClose 0) r
          ++ [Event.destroyWindow, Event.terminate]
        halt := Halt.exit ExitCode.success }
    else
      run Phase.timeCheck count script (log ++ glfwCall (GlfwFn.windowShouldClose 0) r)

/-- The function `main` of `tests/reopen.c`; `count` starts at 0. -/
def main (script : List Resp) : Run :=
  init_then (run (loopHead 0) 0) script []

end Reopen

/-- The seven demo programs. -/
inductive Demo where
  | accuracy
  | cursor
  | gamma
  | joysticks
  | msaa
  | reopen
  | sharing
  deriving DecidableEq

/-- The run of a demo against a script. -/
def runDemo : Demo → List Resp → Run
  | Demo.accuracy => Accuracy.main
  | Demo.cursor => Cursor.main
  | Demo.gamma => Gamma.main
  | Demo.joysticks => Joysticks.main
  | Demo.msaa => Msaa.main
  | Demo.reopen => Reopen.main
  | Demo.sharing => Sharing.main

/-- An initialisation call that failed: `glfwInit` returned false, or window creation or
`nvgCreateGL2` returned `NULL`. -/
def isInitFailure : Event → Bool
  | Event.glfw GlfwFn.init false _ => true
  | Event.glfw (GlfwFn.createWindow _) false _ => true
  | Event.nvgCreateGL2 false => true
  | _ => false

/-- The events of a log before its first failed initialisation call. -/
def beforeFailure (log : List Event) : List Event :=
  log.takeWhile (fun e => !isInitFailure e)

/-- The events of a log after its first failed initialisation call. -/
def afterFailure (log : List Event) : List Event :=
  (log.dropWhile (fun e => !isInitFailure e)).drop 1

/-- A run in which an initialisation call failed ends with `exit(EXIT_FAILURE)`, and the
failed call is followed by nothing but `glfwTerminate()`: no further frame, no second
attempt. -/
def FailsAtOnce (r : Run) : Prop :=
  r.log.any isInitFailure = true →
    r.halt = Halt.exit ExitCode.failure ∧
    (afterFailure r.log = [] ∨ afterFailure r.log = [Event.terminate])

/-- A run in which an initialisation call failed has drawn no frame before the failed
call. -/
def NoFrameBeforeFailure (r : Run) : Prop :=
  r.log.any isInitFailure = true → Event.frame ∉ beforeFailure r.log

/-- The part of a demo from some point on fails at once, and without an earlier frame
when no frame was drawn before that point. -/
def SafeFrom (f : List Resp → List Event → Run) : Prop :=
  ∀ script log, log.any isInitFailure = false →
    FailsAtOnce (f script log) ∧ (Event.frame ∉ log → NoFrameBeforeFailure (f script log))

/-- A script for reopen: GLFW starts, one monitor, the first window and its NanoVG
context are created, one frame is drawn, the five seconds pass, and the second window
cannot be created. -/
def reopenSecondWindowFails : List Resp :=
  [ { ok := true, val := 0, errors := [] },    -- glfwInit
    { ok := true, val := 1, errors := [] },    -- glfwGetMonitors: one monitor
    { ok := true, val := 7, errors := [] },    -- rand
    { ok := true, val := 0, errors := [] },    -- glfwCreateWindow
    { ok := true, val := 0, errors := [] },    -- nvgCreateGL2
    { ok := true, val := 0, errors := [] },    -- glfwGetTime() < 5.0
    { ok := false, val := 0, errors := [] },   -- glfwWindowShouldClose
    { ok := false, val := 0, errors := [] },   -- glfwGetTime() < 5.0 is false
    { ok := false, val := 0, errors := [65543] } ]  -- glfwCreateWindow fails

/-- An event of the draw loop: a frame, or a read of a should-close flag. -/
def isLoopEvent : Event → Bool
  | Event.frame => true
  | Event.glfw (GlfwFn.windowShouldClose _) _ _ => true
  | _ => false

/-- A teardown call on the way to `exit(EXIT_SUCCESS)`. -/
def isTeardown : Event → Bool
  | Event.nvgDeleteGL2 => true
  | Event.destroyWindow => true
  | Event.destroyCursors => true
  | Event.terminate => true
  | _ => false

/-- The log ends with a read of the should-close flag of a window that returned true,
followed by teardown calls only. -/
def ClosedByFlag (log : List Event) : Prop :=
  ∃ pre w es post, log = pre ++ Event.glfw (GlfwFn.windowShouldClose w) true es :: post ∧
    post.all isTeardown = true

/-- The draw loop has not been entered: no frame was drawn, no should-close flag read. -/
def NeverDrew (log : List Event) : Prop :=
  log.any isLoopEvent = false

/-- A run that ends with `exit(EXIT_SUCCESS)` either never entered the draw loop, or
left it through a should-close flag that was read as true. -/
def ExitsOnlyWhenClosing (r : Run) : Prop :=
  r.halt = Halt.exit ExitCode.success → ClosedByFlag r.log ∨ NeverDrew r.log

/-- The modes of the windows a run asked for, in order: `true` for a window created on a
monitor (full screen), `false` for a window created with no monitor (windowed). -/
def windowModes (log : List Event) : List Bool :=
  log.flatMap (fun e => match e with
    | Event.glfw (GlfwFn.createWindow fullscreen) _ _ => [fullscreen]
    | _ => [])

/-- The window number `n`, counting from 0, is full screen exactly when `n` is even. -/
def Alternates (modes : List Bool) : Prop :=
  ∀ n fs, modes[n]? = some fs → (fs = true ↔ n % 2 = 0)

namespace Reopen

/-- What holds at each point of the `for (;;)` loop of reopen, for the modes of the
windows asked for so far: they alternate, and `count` is the number of the window to be
opened next, or of the window that is open. -/
def Inv (phase : Phase) (count : Int) (modes : List Bool) : Prop :=
  Alternates modes ∧
  match phase with
  | Phase.getMonitors => count = wrapInt32 modes.length ∧ modes.length % 2 = 0
  | Phase.pickMonitor _ => count = wrapInt32 modes.length ∧ modes.length % 2 = 0
  | Phase.openWindow fullscreen =>
    count = wrapInt32 modes.length ∧ (fullscreen = true ↔ modes.length % 2 = 0)
  | Phase.createNvg => 1 ≤ modes.length ∧ count = wrapInt32 (modes.length - 1)
  | Phase.timeCheck => 1 ≤ modes.length ∧ count = wrapInt32 (modes.length - 1)
  | Phase.closeCheck => 1 ≤ modes.length ∧ count = wrapInt32 (modes.length - 1)

end Reopen

/-- A script for accuracy: GLFW starts, the window and the NanoVG context are created,
the should-close flag is clear at the first test of the loop and set at the second. -/
def accuracyCloses : List Resp :=
  [ { ok := true, val := 0, errors := [] },    -- glfwInit
    { ok := true, val := 0, errors := [] },    -- glfwCreateWindow
    { ok := true, val := 0, errors := [] },    -- nvgCreateGL2
    { ok := false, val := 0, errors := [] },   -- glfwWindowShouldClose
    { ok := true, val := 0, errors := [] } ]   -- glfwWindowShouldClose

namespace Joysticks

/-- The C `struct Joystick`.  The heap buffers `axes` and `buttons` are the lists of
their elements, so the length is the capacity and the empty list stands for `NULL` (or
a block of no elements); a float is its bit pattern.  The string `name` is `none` for
`NULL`. -/
structure Joystick where
  present : Bool
  name : Option (List Byte)
  axes : List Nat
  buttons : List Byte
  axis_count : Int
  button_count : Int
  deriving DecidableEq

/-- A `struct Joystick` of zero bytes: the static initial value of every slot, and the
result of `memset(j, 0, sizeof(Joystick))`. -/
def zeroJoystick : Joystick :=
  { present := false, name := none, axes := [], buttons := [], axis_count := 0,
    button_count := 0 }

/-- The globals `joysticks` and `joystick_count`. -/
structure State where
  joysticks : List Joystick
  joystick_count : Int
  deriving DecidableEq

/-- The number of slots, `GLFW_JOYSTICK_LAST - GLFW_JOYSTICK_1 + 1`. -/
def slotCount : Nat := 16

/-- The state at program start: every slot zero, `joystick_count = 0`. -/
def initial : State :=
  { joysticks := List.replicate slotCount zeroJoystick, joystick_count := 0 }

/-- What the libraries answer for one slot during one call of `refresh_joysticks`: the
result of `glfwJoystickPresent`, the name, the axes array and the buttons array (the
reported counts are their lengths), and whether `strdup` and the two `realloc` calls
succeed. -/
structure Report where
  present : Bool
  name : List Byte
  axes : List Nat
  buttons : List Byte
  nameAlloc : Bool
  axesAlloc : Bool
  buttonsAlloc : Bool

/-- The C `realloc(old, n)` for `n` elements: a block of `n` elements that keeps the old
contents up to the smaller of the two sizes (new elements are shown as `fill`), or
`NULL` (`none`) when a request for `n > 0` elements fails. -/
def realloc {α : Type} (ok : Bool) (old : List α) (n : Nat) (fill : α) : Option (List α) :=
  if n = 0 then some []
  else if ok = true then some (old.take n ++ List.replicate (n - old.length) fill)
  else none

/-- The C `memcpy(dst, src, n)` for `n` elements; `none` when `dst` has fewer than `n`
elements (a write outside the block, or through `NULL`). -/
def memcpy {α : Type} (dst src : List α) (n : Nat) : Option (List α) :=
  if n ≤ dst.length then some (src.take n ++ dst.drop n) else none

/-- The body of the `for` loop of `refresh_joysticks` for one slot `j`, with the
library's answer `r` for this slot; the result is the slot and `joystick_count`
afterwards, `none` when a `memcpy` goes wrong. -/
def refresh_slot (r : Report) (j : Joystick) (joystick_count : Int) :
    Option (Joystick × Int) :=
  if r.present = true then
    let name := if r.nameAlloc = true then some r.name else none
    let axis_count : Int := r.axes.length
    let axesBlock :=
      if axis_count ≠ j.axis_count then realloc r.axesAlloc j.axes r.axes.length 0
      else some j.axes
    let button_count : Int := r.buttons.length
    let buttonsBlock :=
      if button_count ≠ j.button_count then realloc r.buttonsAlloc j.buttons r.buttons.length 0
      else some j.buttons
    match axesBlock.bind (fun b => memcpy b r.axes r.axes.length),
          buttonsBlock.bind (fun b => memcpy b r.buttons r.buttons.length) with
    | some axes, some buttons =>
      some ({ present := true
              name := name
              axes := axes
              buttons := buttons
              axis_count := if axis_count ≠ j.axis_count then axis_count else j.axis_count
              button_count :=
                if button_count ≠ j.button_count then button_count else j.button_count },
            if j.present = false then wrapInt32 (joystick_count + 1) else joystick_count)
    | _, _ => none
  else if j.present = true then
    some (zeroJoystick, wrapInt32 (joystick_count - 1))
  else
    some (j, joystick_count)

/-- The `for` loop of `refresh_joysticks` from slot `i` on, over the remaining slots. -/
def refresh_from (env : Nat → Report) : Nat → List Joystick → Int →
    Option (List Joystick × Int)
  | _, [], joystick_count => some ([], joystick_count)
  | i, j :: rest, joystick_count =>
    match refresh_slot (env i) j joystick_count with
    | none => none
    | some (j1, count1) =>
      match refresh_from env (i + 1) rest count1 with
      | none => none
      | some (rest1, count2) => some (j1 :: rest1, count2)

/-- The function `refresh_joysticks()`, with the library's answers per slot. -/
def refresh_joysticks (env : Nat → Report) (s : State) : Option State :=
  match refresh_from env 0 s.joysticks s.joystick_count with
  | none => none
  | some (joysticks, joystick_count) =>
    some { joysticks := joysticks, joystick_count := joystick_count }

/-- The states the demo can be in between two frames: the initial state, and every state
a call of `refresh_joysticks` returns in. -/
inductive Reachable : State → Prop where
  | start : Reachable initial
  | refresh (env : Nat → Report) (s s1 : State) :
      Reachable s → refresh_joysticks env s = some s1 → Reachable s1

/-- The number of slots whose `present` flag is set. -/
def presentCount (joysticks : List Joystick) : Nat :=
  (joysticks.filter (fun j => j.present)).length

/-- The integer divisions `draw_joystick(nvg, j, width, height)` evaluates, in program
order, as pairs of dividend and divisor: `3 * height / 4`, `height / 4`, then
`width / j->axis_count` inside `if (j->axis_count)` and `width / j->button_count` inside
`if (j->button_count)`. -/
def draw_joystick (j : Joystick) (width height : Int) : List (Int × Int) :=
  [(3 * height, 4), (height, 4)]
    ++ (if j.axis_count ≠ 0 then [(width, j.axis_count)] else [])
    ++ (if j.button_count ≠ 0 then [(width, j.button_count)] else [])

/-- The integer divisions `draw_joysticks(window, nvg)` evaluates for a framebuffer of
the given size, in program order: for every slot with `present` set,
`height / joystick_count` for the argument of `draw_joystick`, the divisions of that
call, and `height / joystick_count` for `nvgTranslate`. -/
def draw_joysticks (s : State) (width height : Int) : List (Int × Int) :=
  s.joysticks.flatMap (fun j =>
    if j.present = true then
      [(height, s.joystick_count)]
        ++ draw_joystick j width (Int.tdiv height s.joystick_count)
        ++ [(height, s.joystick_count)]
    else [])

/-- What holds of a slot between two frames: a slot that is not present is all zero, and
the capacities of the two buffers are the two counts. -/
def SlotInv (j : Joystick) : Prop :=
  (j.present = false → j = zeroJoystick) ∧
  (j.axes.length : Int) = j.axis_count ∧ (j.buttons.length : Int) = j.button_count

/-- What `refresh_joysticks` establishes for a slot from the library's answer. -/
def SlotMatches (r : Report) (j : Joystick) : Prop :=
  j.present = r.present ∧
  (r.present = true →
    j.axis_count = r.axes.length ∧ j.button_count = r.buttons.length ∧
    j.axes = r.axes ∧ j.buttons = r.buttons) ∧
  (r.present = false → j = zeroJoystick)

/-- What holds of the state between two frames. -/
def StateInv (s : State) : Prop :=
  s.joysticks.length = slotCount ∧ (∀ j ∈ s.joysticks, SlotInv j) ∧
  s.joystick_count = presentCount s.joysticks

/-- Library answers for a call of `refresh_joysticks`: a joystick with two axes and three
buttons in slot 0, nothing in the other slots, every allocation succeeds. -/
def oneJoystick (i : Nat) : Report :=
  if i = 0 then
    { present := true, name := [80, 97, 100], axes := [1065353216, 0], buttons := [1, 0, 0],
      nameAlloc := true, axesAlloc := true, buttonsAlloc := true }
  else
    { present := false, name := [], axes := [], buttons := [],
      nameAlloc := true, axesAlloc := true, buttonsAlloc := true }

/-- The state after the call of `refresh_joysticks` with the answers `oneJoystick` in the
initial state. -/
def afterOneJoystick : State :=
  { joysticks :=
      { present := true, name := some [80, 97, 100], axes := [1065353216, 0],
        buttons := [1, 0, 0], axis_count := 2, button_count := 3 }
        :: List.replicate 15 zeroJoystick
    joystick_count := 1 }

end Joysticks

/-! ## Key callbacks -/

/-- The keys the demos tell apart, for the key codes `GLFW_KEY_SPACE`, `GLFW_KEY_ESCAPE`,
`GLFW_KEY_A`, `GLFW_KEY_D`, `GLFW_KEY_H`, `GLFW_KEY_N`, `GLFW_KEY_Q`, `GLFW_KEY_W`,
`GLFW_KEY_KP_ADD`, `GLFW_KEY_KP_SUBTRACT` (pairwise distinct integers); `other` is any
other key code. -/
inductive Key where
  | space
  | escape
  | a
  | d
  | h
  | n
  | q
  | w
  | kpAdd
  | kpSubtract
  | other
  deriving DecidableEq

/-- The action of a key event: `GLFW_RELEASE`, `GLFW_PRESS` or `GLFW_REPEAT`. -/
inductive Action where
  | release
  | press
  | held
  deriving DecidableEq

namespace Accuracy

/-- The global `swap_interval` of `tests/accuracy.c`, the arguments of the calls of
`glfwSwapInterval` made so far, and the intervals shown in the window titles set so
far. -/
structure State where
  swap_interval : Int
  swapIntervalCalls : List Int
  titles : List Int
  deriving DecidableEq

/-- The state at program start: `static int swap_interval = 1;`. -/
def initial : State :=
  { swap_interval := 1, swapIntervalCalls := [], titles := [] }

/-- The function `set_swap_interval(window, interval)`: it stores the interval, passes
the stored value to `glfwSwapInterval` and sets the window title that shows it. -/
def set_swap_interval (s : State) (interval : Int) : State :=
  { swap_interval := interval
    swapIntervalCalls := s.swapIntervalCalls ++ [interval]
    titles := s.titles ++ [interval] }

/-- The function `key_callback(window, key, scancode, action, mods)`:
`if (key == GLFW_KEY_SPACE && action == GLFW_PRESS) set_swap_interval(window, 1 - swap_interval);`. -/
def key_callback (s : State) (key : Key) (action : Action) : State :=
  if key = Key.space ∧ action = Action.press then
    set_swap_interval s (wrapInt32 (1 - s.swap_interval))
  else s

/-- The state after a sequence of key events, from the initial state. -/
def afterKeys (events : List (Key × Action)) : State :=
  events.foldl (fun s e => key_callback s e.1 e.2) initial

end Accuracy

namespace Cursor

/-- The cursor input mode of the window: `GLFW_CURSOR_NORMAL`, `GLFW_CURSOR_HIDDEN` or
`GLFW_CURSOR_DISABLED`. -/
inductive CursorMode where
  | normal
  | hidden
  | disabled
  deriving DecidableEq

/-- The globals `animate_cursor`, `swap_interval` and `wait_events` of `tests/cursor.c`,
the two pieces of window state the key callback reads or writes (the cursor input mode
and the should-close flag), the lines printed to standard output, the arguments of the
calls of `glfwSwapInterval`, and the number of calls `glfwSetCursor(window, NULL)`. -/
structure State where
  animate_cursor : Bool
  swap_interval : Int
  wait_events : Bool
  cursorMode : CursorMode
  shouldClose : Bool
  stdout : List String
  swapIntervalCalls : List Int
  cursorResets : Nat
  deriving DecidableEq

/-- The state when the key callback is installed. -/
def initial : State :=
  { animate_cursor := false, swap_interval := 1, wait_events := false,
    cursorMode := CursorMode.normal, shouldClose := false, stdout := [],
    swapIntervalCalls := [], cursorResets := 0 }

/-- The statements under `case GLFW_KEY_N:`, which the `GLFW_KEY_ESCAPE` case falls
through to: `glfwSetInputMode(window, GLFW_CURSOR, GLFW_CURSOR_NORMAL);` and the
message. -/
def caseN (s : State) : State :=
  { s with cursorMode := CursorMode.normal, stdout := s.stdout ++ ["(( cursor is normal ))\n"] }

/-- The function `key_callback(window, key, scancode, action, mods)` of
`tests/cursor.c`. -/
def key_callback (s : State) (key : Key) (action : Action) : State :=
  if action ≠ Action.press then s
  else
    match key with
    | Key.a =>
      if (!s.animate_cursor) = false then
        { s with animate_cursor := !s.animate_cursor, cursorResets := s.cursorResets + 1 }
      else
        { s with animate_cursor := !s.animate_cursor }
    | Key.escape =>
      if s.cursorMode ≠ CursorMode.disabled then { s with shouldClose := true }
      else caseN s
    | Key.n => caseN s
    | Key.d =>
      { s with cursorMode := CursorMode.disabled
               stdout := s.stdout ++ ["(( cursor is disabled ))\n"] }
    | Key.h =>
      { s with cursorMode := CursorMode.hidden
               stdout := s.stdout ++ ["(( cursor is hidden ))\n"] }
    | Key.space =>
      { s with swap_interval := wrapInt32 (1 - s.swap_interval)
               stdout := s.stdout ++
                 ["(( swap interval: " ++ toString (wrapInt32 (1 - s.swap_interval)) ++ " ))\n"]
               swapIntervalCalls := s.swapIntervalCalls ++ [wrapInt32 (1 - s.swap_interval)] }
    | Key.w =>
      { s with wait_events := !s.wait_events
               stdout := s.stdout ++
                 ["(( " ++ (if (!s.wait_events) = true then "poll" else "wait")
                   ++ "ing for events ))\n"] }
    | _ => s

/-- The state after a sequence of key events, from the initial state. -/
def afterKeys (events : List (Key × Action)) : State :=
  events.foldl (fun s e => key_callback s e.1 e.2) initial

/-- The two ways the main loop gets its events. -/
inductive EventCall where
  | glfwWaitEvents
  | glfwPollEvents
  deriving DecidableEq

/-- The statement `if (wait_events) glfwWaitEvents(); else glfwPollEvents();` of the main
loop. -/
def event_call (s : State) : EventCall :=
  if s.wait_events = true then EventCall.glfwWaitEvents else EventCall.glfwPollEvents

end Cursor

/-- A value of the C type `float` (`GLfloat`), an IEEE 754 binary32 number.  Every finite
binary32 number is an integer multiple of 2^-149, the smallest positive one, and
`finite k` stands for the number k · 2^-149.  The two zeros are one value here: no
operation of the gamma demo tells them apart. -/
inductive GLfloat where
  | finite (units : Int)
  | posInf
  | negInf
  | nan
  deriving DecidableEq

namespace GLfloat

/-- The number of low binary digits of `m` that do not fit in the 24-bit significand of
binary32: `m` is halved until it is below 2^24 (`fuel` bounds the number of halvings and
`excessBits m m` never runs out of it). -/
def excessBits : Nat → Nat → Nat
  | 0, _ => 0
  | fuel + 1, m => if m < 2 ^ 24 then 0 else excessBits fuel (m / 2) + 1

/-- Rounding of a magnitude (in units of 2^-149) to 24 significant binary digits, to
nearest, ties to the even significand: the rounding mode of binary32 arithmetic. -/
def roundMagnitude (m : Nat) : Nat :=
  if 2 * (m % 2 ^ excessBits m m) < 2 ^ excessBits m m then
    m / 2 ^ excessBits m m * 2 ^ excessBits m m
  else if 2 * (m % 2 ^ excessBits m m) = 2 ^ excessBits m m
      ∧ m / 2 ^ excessBits m m % 2 = 0 then
    m / 2 ^ excessBits m m * 2 ^ excessBits m m
  else (m / 2 ^ excessBits m m + 1) * 2 ^ excessBits m m

/-- The largest finite binary32 number, (2^24 - 1) · 2^104, in units of 2^-149. -/
def maxUnits : Nat := (2 ^ 24 - 1) * 2 ^ 253

/-- The binary32 number that an exact result `k · 2^-149` rounds to: the nearest finite
number, or an infinity when that is beyond the largest finite number. -/
def round (k : Int) : GLfloat :=
  if maxUnits < roundMagnitude k.natAbs then (if 0 ≤ k then posInf else negInf)
  else if 0 ≤ k then finite (roundMagnitude k.natAbs)
  else finite (-(roundMagnitude k.natAbs : Int))

/-- The operator `+` on `float`: the exact sum, rounded. -/
def add : GLfloat → GLfloat → GLfloat
  | finite a, finite b => round (a + b)
  | finite _, posInf => posInf
  | finite _, negInf => negInf
  | posInf, finite _ => posInf
  | posInf, posInf => posInf
  | negInf, finite _ => negInf
  | negInf, negInf => negInf
  | _, _ => nan

/-- The operator `-` on `float`: the exact difference, rounded. -/
def sub : GLfloat → GLfloat → GLfloat
  | finite a, finite b => round (a - b)
  | finite _, posInf => negInf
  | finite _, negInf => posInf
  | posInf, finite _ => posInf
  | posInf, negInf => posInf
  | negInf, finite _ => negInf
  | negInf, posInf => negInf
  | _, _ => nan

/-- The operator `>` on `float`; a comparison with a NaN is false. -/
def gt : GLfloat → GLfloat → Bool
  | finite a, finite b => decide (b < a)
  | finite _, negInf => true
  | posInf, finite _ => true
  | posInf, negInf => true
  | _, _ => false

/-- The constant `0.f`. -/
def zero : GLfloat := finite 0

/-- The constant `1.0f` (also written `1.f`): 2^149 units of 2^-149. -/
def one : GLfloat := finite (2 ^ 149)

/-- The constant `0.1f`: the binary32 number nearest to 1/10, 13421773 · 2^-27. -/
def tenth : GLfloat := finite (13421773 * 2 ^ 122)

/-- A finite value greater than 0 and at most 2^21 (2^170 units of 2^-149). -/
def inRange : GLfloat → Prop
  | finite k => 0 < k ∧ k ≤ 2 ^ 170
  | _ => False

/-- The number a finite value stands for. -/
def toRat : GLfloat → Option ℚ
  | finite k => some ((k : ℚ) / 2 ^ 149)
  | _ => none

end GLfloat

namespace Gamma

/-- The constant `STEP_SIZE` (`0.1f`). -/
def STEP_SIZE : GLfloat := GLfloat.tenth

/-- The global `gamma_value` of `tests/gamma.c`, the should-close flag of the window, the
values printed by `printf("Gamma: %f\n", ...)` and the values passed to `glfwSetGamma`,
oldest first. -/
structure State where
  gamma_value : GLfloat
  shouldClose : Bool
  printed : List GLfloat
  setGammaCalls : List GLfloat
  deriving DecidableEq

/-- The state at program start: `static GLfloat gamma_value = 1.0f;`. -/
def initial : State :=
  { gamma_value := GLfloat.one, shouldClose := false, printed := [], setGammaCalls := [] }

/-- The function `set_gamma(window, value)`: it stores the value in `gamma_value`, prints
it and passes the stored value to `glfwSetGamma` (for the monitor of the window, or the
primary monitor). -/
def set_gamma (s : State) (value : GLfloat) : State :=
  { s with gamma_value := value
           printed := s.printed ++ [value]
           setGammaCalls := s.setGammaCalls ++ [value] }

/-- The function `key_callback(window, key, scancode, action, mods)` of `tests/gamma.c`:
nothing unless the action is PRESS; ESCAPE sets the should-close flag; keypad `+` and Q
call `set_gamma(window, gamma_value + STEP_SIZE)`; keypad `-` and W call
`set_gamma(window, gamma_value - STEP_SIZE)` inside `if (gamma_value - STEP_SIZE > 0.f)`.
The sum and the difference are those of two `float` operands, each rounded to binary32
(the arithmetic of `float` operands where `FLT_EVAL_METHOD` is 0), and the comparison is
with the `float` constant `0.f`. -/
def key_callback (s : State) (key : Key) (action : Action) : State :=
  if action ≠ Action.press then s
  else
    match key with
    | Key.escape => { s with shouldClose := true }
    | Key.kpAdd => set_gamma s (GLfloat.add s.gamma_value STEP_SIZE)
    | Key.q => set_gamma s (GLfloat.add s.gamma_value STEP_SIZE)
    | Key.kpSubtract =>
      if GLfloat.gt (GLfloat.sub s.gamma_value STEP_SIZE) GLfloat.zero = true then
        set_gamma s (GLfloat.sub s.gamma_value STEP_SIZE)
      else s
    | Key.w =>
      if GLfloat.gt (GLfloat.sub s.gamma_value STEP_SIZE) GLfloat.zero = true then
        set_gamma s (GLfloat.sub s.gamma_value STEP_SIZE)
      else s
    | _ => s

/-- The state when the key callback is installed: `main` has called
`set_gamma(window, 1.f)`. -/
def started : State :=
  set_gamma initial GLfloat.one

/-- The state after a sequence of key events. -/
def afterKeys (events : List (Key × Action)) : State :=
  events.foldl (fun s e => key_callback s e.1 e.2) started

/-- A key event that increases gamma: a press of keypad `+` or of Q. -/
def isIncrease (key : Key) (action : Action) : Prop :=
  action = Action.press ∧ (key = Key.kpAdd ∨ key = Key.q)

/-- A key event that decreases gamma: a press of keypad `-` or of W. -/
def isDecrease (key : Key) (action : Action) : Prop :=
  action = Action.press ∧ (key = Key.kpSubtract ∨ key = Key.w)

end Gamma

namespace Cursor

/-- The local state of `create_cursor_frame`: the index `i`, the pixel buffer
`unsigned char buffer[64 * 64 * 4]`, and the indices written so far, in program order. -/
structure Frame where
  i : Nat
  buffer : Mem
  writes : List Nat

/-- The statement `buffer[i++] = v;`. -/
def put (s : Frame) (v : Byte) : Frame :=
  { i := s.i + 1, buffer := store s.buffer s.i v, writes := s.writes ++ [s.i] }

/-- The body of the inner loop of `create_cursor_frame`: three times `buffer[i++] = 255;`
and then `buffer[i++] = a`, where `a` is the alpha byte
`(unsigned char) (255 * star(x, y, t))` of the pixel. -/
def pixel (s : Frame) (a : Byte) : Frame :=
  put (put (put (put s 255) 255) 255) a

/-- The two loops of `create_cursor_frame` for an image of the given `width` and
`height`: `for (y = 0; y < image.width; y++) for (x = 0; x < image.height; x++)`, the
row loop bounded by the width and the column loop by the height as in the source.  The
floating-point function `star` enters through `alpha x y`, the alpha byte of the pixel
for the frame time `t`. -/
def frame_loops (alpha : Nat → Nat → Byte) (width height : Nat) (s : Frame) : Frame :=
  (List.range width).foldl
    (fun s y => (List.range height).foldl (fun s x => pixel s (alpha x y)) s) s

/-- The size of the pixel buffer, `64 * 64 * 4`. -/
def bufferSize : Nat := 64 * 64 * 4

/-- The function `create_cursor_frame(t)` up to the call of `glfwCreateCursor`: `i = 0`,
the image is `{ 64, 64, buffer }`, and `buffer0` is the content of the uninitialised
buffer. -/
def create_cursor_frame (alpha : Nat → Nat → Byte) (buffer0 : Mem) : Frame :=
  frame_loops alpha 64 64 { i := 0, buffer := buffer0, writes := [] }

/-- The byte `create_cursor_frame` leaves at index `k` for rows of `height` pixels: 255
for the red, green and blue components, the alpha byte of the pixel at index 4p + 3. -/
def frameByte (alpha : Nat → Nat → Byte) (height : Nat) (k : Nat) : Byte :=
  if k % 4 = 3 then alpha ((k / 4) % height) ((k / 4) / height) else 255

/-- What holds after `p` pixels have been written. -/
def FrameInv (alpha : Nat → Nat → Byte) (height : Nat) (buffer0 : Mem) (p : Nat)
    (s : Frame) : Prop :=
  s.i = 4 * p ∧ s.writes = List.range (4 * p) ∧ s.buffer.length = buffer0.length ∧
  (∀ k, k < 4 * p → load s.buffer k = frameByte alpha height k) ∧
  (∀ k, 4 * p ≤ k → load s.buffer k = load buffer0 k)

end Cursor

/-! # Theorems -/

/-! ## Lemmas on buffers and strings -/

theorem rd_nil (i : Nat) : rd [] i = 0 := by
  simp [rd]

theorem rd_cons_zero (x : Byte) (p : Buf) : rd (x :: p) 0 = x := by
  simp [rd]

theorem rd_cons_succ (x : Byte) (p : Buf) (i : Nat) : rd (x :: p) (i + 1) = rd p i := by
  simp [rd]

theorem rd_drop (p : Buf) (i j : Nat) : rd (p.drop i) j = rd p (i + j) := by
  simp [rd, List.getD_eq_getElem?_getD, List.getElem?_drop]

theorem cstr_nil : cstr [] = [] := rfl

theorem cstr_cons_zero (p : Buf) : cstr ((0 : Byte) :: p) = [] := by
  simp [cstr, List.takeWhile]

theorem cstr_cons_ne (x : Byte) (p : Buf) (h : x ≠ 0) : cstr (x :: p) = x :: cstr p := by
  simp [cstr, List.takeWhile, h]

theorem cstr_eq_nil_iff (p : Buf) : cstr p = [] ↔ rd p 0 = 0 := by
  cases p with
  | nil => simp [cstr_nil, rd_nil]
  | cons x t =>
    by_cases h : x = 0
    · subst h; simp [cstr_cons_zero, rd_cons_zero]
    · simp [cstr_cons_ne x t h, rd_cons_zero, h]

theorem strstr_while_eq (a b : Buf) :
    ∀ (fuel i : Nat), a.length ≤ i + fuel →
      strstr_while a b fuel i = i + matchLen (a.drop i) (b.drop i) := by
  intro fuel
  induction fuel with
  | zero =>
    intro i h
    have h0 : a.drop i = [] := List.drop_eq_nil_of_le (by omega)
    simp [strstr_while, h0, matchLen]
  | succ n ih =>
    intro i h
    have hra : rd a i = rd (a.drop i) 0 := by rw [rd_drop]; rfl
    have hrb : rd b i = rd (b.drop i) 0 := by rw [rd_drop]; rfl
    have hda : (a.drop i).drop 1 = a.drop (i + 1) := by rw [List.drop_drop]
    have hdb : (b.drop i).drop 1 = b.drop (i + 1) := by rw [List.drop_drop]
    rw [strstr_while, hra, hrb]
    cases hA : a.drop i with
    | nil => simp [rd_nil, matchLen]
    | cons x t =>
      rw [hA] at hda
      simp only [List.drop_succ_cons, List.drop_zero] at hda
      rw [rd_cons_zero, matchLen, hdb]
      by_cases hc : x ≠ 0 ∧ x = rd (b.drop i) 0
      · rw [if_pos hc, if_pos hc, ih (i + 1) (by omega), ← hda]
        omega
      · rw [if_neg hc, if_neg hc]
        rfl

/-- Postcondition of the inner loop: `b[i]` is NUL on exit exactly when the string `b` is
a prefix of the string `a`. -/
theorem rd_matchLen_eq_zero_iff : ∀ (a b : Buf),
    rd b (matchLen a b) = 0 ↔ cstr b <+: cstr a := by
  intro a
  induction a with
  | nil =>
    intro b
    simp [matchLen, cstr_nil, cstr_eq_nil_iff]
  | cons x a ih =>
    intro b
    cases b with
    | nil => simp [matchLen, rd_nil, cstr_nil]
    | cons y b =>
      rw [matchLen, rd_cons_zero]
      by_cases hc : x ≠ 0 ∧ x = y
      · obtain ⟨hx, hxy⟩ := hc
        subst hxy
        have h1 : (1 + matchLen a (List.drop 1 (x :: b))) = matchLen a b + 1 := by
          simp [Nat.add_comm]
        rw [if_pos ⟨hx, rfl⟩, h1, rd_cons_succ, ih b, cstr_cons_ne x a hx, cstr_cons_ne x b hx]
        simp [List.cons_prefix_cons]
      · rw [if_neg hc, rd_cons_zero]
        by_cases hy : y = 0
        · subst hy
          simp [cstr_cons_zero]
        · rw [cstr_cons_ne y b hy]
          by_cases hx : x = 0
          · subst hx
            simp [cstr_cons_zero, hy]
          · rw [cstr_cons_ne x a hx]
            have hne : ¬ y = x := fun h => hc ⟨hx, h.symm⟩
            simp [List.cons_prefix_cons, hy, hne]

theorem strstr_test_iff (a b : Buf) :
    rd b (strstr_while a b a.length 0) = 0 ↔ cstr b <+: cstr a := by
  rw [strstr_while_eq a b a.length 0 (by omega)]
  simp only [List.drop_zero, Nat.zero_add]
  exact rd_matchLen_eq_zero_iff a b

theorem occursAt_nil (b : Buf) (k : Nat) : occursAt [] b k ↔ k = 0 ∧ cstr b <+: cstr [] := by
  unfold occursAt
  rw [cstr_nil]
  constructor
  · rintro ⟨hk, hp⟩
    have hk0 : k = 0 := by simpa using hk
    subst hk0
    exact ⟨rfl, by simpa using hp⟩
  · rintro ⟨hk, hp⟩
    subst hk
    exact ⟨by simp, by simpa using hp⟩

theorem occursAt_zero (a b : Buf) : occursAt a b 0 ↔ cstr b <+: cstr a := by
  simp [occursAt]

theorem occursAt_cons_zero (a b : Buf) (k : Nat) :
    occursAt ((0 : Byte) :: a) b k ↔ k = 0 ∧ cstr b <+: cstr ((0 : Byte) :: a) := by
  unfold occursAt
  rw [cstr_cons_zero]
  constructor
  · rintro ⟨hk, hp⟩
    have hk0 : k = 0 := by simpa using hk
    subst hk0
    exact ⟨rfl, by simpa using hp⟩
  · rintro ⟨hk, hp⟩
    subst hk
    exact ⟨by simp, by simpa using hp⟩

theorem occursAt_cons_succ (x : Byte) (a b : Buf) (hx : x ≠ 0) (k : Nat) :
    occursAt (x :: a) b (k + 1) ↔ occursAt a b k := by
  unfold occursAt
  rw [cstr_cons_ne x a hx]
  simp

/-- Characterisation of the value of `_glfw_strstr`: it is the first occurrence. -/
theorem strstr_some_iff : ∀ (a b : Buf) (k : Nat),
    _glfw_strstr a b = some k ↔ (occursAt a b k ∧ ∀ j, j < k → ¬ occursAt a b j) := by
  intro a
  induction a with
  | nil =>
    intro b k
    have ht := strstr_test_iff [] b
    simp only [List.length_nil] at ht
    rw [_glfw_strstr]
    by_cases hp : cstr b <+: cstr []
    · rw [if_pos (ht.mpr hp)]
      constructor
      · intro h
        have hk : k = 0 := by simpa using h.symm
        subst hk
        exact ⟨(occursAt_zero [] b).mpr hp, fun j hj => absurd hj (Nat.not_lt_zero j)⟩
      · rintro ⟨ho, _⟩
        rw [((occursAt_nil b k).mp ho).1]
    · rw [if_neg (fun h => hp (ht.mp h))]
      constructor
      · intro h
        cases h
      · rintro ⟨ho, _⟩
        exact absurd ((occursAt_nil b k).mp ho).2 hp
  | cons x a ih =>
    intro b k
    have ht := strstr_test_iff (x :: a) b
    simp only [List.length_cons] at ht
    rw [_glfw_strstr]
    by_cases hp : cstr b <+: cstr (x :: a)
    · rw [if_pos (ht.mpr hp)]
      have h0 : occursAt (x :: a) b 0 := (occursAt_zero (x :: a) b).mpr hp
      constructor
      · intro h
        have hk : k = 0 := by simpa using h.symm
        subst hk
        exact ⟨h0, fun j hj => absurd hj (Nat.not_lt_zero j)⟩
      · rintro ⟨_, hmin⟩
        cases k with
        | zero => rfl
        | succ n => exact absurd h0 (hmin 0 (Nat.succ_pos n))
    · rw [if_neg (fun h => hp (ht.mp h))]
      have h0 : ¬ occursAt (x :: a) b 0 := fun h => hp ((occursAt_zero (x :: a) b).mp h)
      by_cases hx : x = 0
      · subst hx
        rw [if_neg (by simp)]
        constructor
        · intro h
          cases h
        · rintro ⟨ho, _⟩
          exact absurd ((occursAt_cons_zero a b k).mp ho).2 hp
      · rw [if_pos hx]
        cases k with
        | zero =>
          constructor
          · intro h
            cases hs : _glfw_strstr a b with
            | none => rw [hs] at h; cases h
            | some v => rw [hs] at h; simp at h
          · rintro ⟨ho, _⟩
            exact absurd ho h0
        | succ n =>
          have hstep : Option.map (fun k => k + 1) (_glfw_strstr a b) = some (n + 1)
              ↔ _glfw_strstr a b = some n := by
            cases hs : _glfw_strstr a b with
            | none => simp
            | some v => simp
          rw [hstep, ih b n, occursAt_cons_succ x a b hx n]
          constructor
          · rintro ⟨ho, hmin⟩
            refine ⟨ho, fun j hj => ?_⟩
            cases j with
            | zero => exact h0
            | succ i =>
              rw [occursAt_cons_succ x a b hx i]
              exact hmin i (by omega)
          · rintro ⟨ho, hmin⟩
            refine ⟨ho, fun j hj => ?_⟩
            have := hmin (j + 1) (by omega)
            rwa [occursAt_cons_succ x a b hx j] at this

theorem occursAt_iff_substring (a b : Buf) : (∃ k, occursAt a b k) ↔ cstr b <:+: cstr a := by
  constructor
  · rintro ⟨k, _, hp⟩
    exact (hp.isInfix).trans (List.drop_suffix k (cstr a)).isInfix
  · rintro ⟨s, t, h⟩
    refine ⟨s.length, ?_, ?_⟩
    · rw [← h]; simp
    · rw [← h]
      simp [List.append_assoc]

theorem strstr_none_iff (a b : Buf) :
    _glfw_strstr a b = none ↔ ∀ k, ¬ occursAt a b k := by
  constructor
  · intro h k hk
    have hex : ∃ n, occursAt a b n := ⟨k, hk⟩
    classical
    have hmin := (strstr_some_iff a b (Nat.find hex)).mpr
      ⟨Nat.find_spec hex, fun j hj => Nat.find_min hex hj⟩
    rw [h] at hmin
    cases hmin
  · intro h
    cases hs : _glfw_strstr a b with
    | none => rfl
    | some k => exact absurd ((strstr_some_iff a b k).mp hs).1 (h k)

/-- C1: `_glfw_strstr(a, b)` returns `a + k` for the smallest index `k` with
`0 ≤ k ≤ strlen(a)` at which the string `b` occurs in the string `a` as a contiguous
substring, it returns `NULL` exactly when `b` does not occur in `a`, and an empty `b`
yields `a` itself, also when `a` is empty. -/
theorem C1_strstr_first_occurrence (a b : Buf) :
    (∀ k, _glfw_strstr a b = some k ↔ (occursAt a b k ∧ ∀ j, j < k → ¬ occursAt a b j)) ∧
    (_glfw_strstr a b = none ↔ ¬ (cstr b <:+: cstr a)) ∧
    (cstr b = [] → _glfw_strstr a b = some 0) ∧
    (cstr b = [] → _glfw_strstr [] b = some 0) := by
  have hempty : ∀ (p : Buf), cstr b = [] → _glfw_strstr p b = some 0 := by
    intro p hb
    refine (strstr_some_iff p b 0).mpr ⟨?_, fun j hj => absurd hj (Nat.not_lt_zero j)⟩
    rw [occursAt_zero, hb]
    exact List.nil_prefix
  refine ⟨strstr_some_iff a b, ?_, hempty a, hempty []⟩
  rw [strstr_none_iff, ← occursAt_iff_substring]
  exact not_exists.symm

/-! ## `_glfw_strncmp` -/

theorem cstr_unfold (p : Buf) :
    cstr p = if rd p 0 = 0 then [] else rd p 0 :: cstr (p.drop 1) := by
  cases p with
  | nil => simp [cstr_nil, rd_nil]
  | cons x t =>
    by_cases h : x = 0
    · subst h; simp [cstr_cons_zero, rd_cons_zero]
    · simp [cstr_cons_ne x t h, rd_cons_zero, h]

theorem rd_drop_one (p : Buf) (j : Nat) : rd (p.drop 1) j = rd p (j + 1) := by
  rw [rd_drop, Nat.add_comm]

theorem charVal_inj (sc : Bool) (x y : Byte) : charVal sc x = charVal sc y ↔ x = y := by
  constructor
  · intro h
    apply Fin.ext
    have hx := x.isLt
    have hy := y.isLt
    unfold charVal at h
    split_ifs at h <;> omega
  · intro h
    rw [h]

theorem charVal_eq_zero (sc : Bool) (x : Byte) : charVal sc x = 0 ↔ x = 0 := by
  have h := charVal_inj sc x 0
  have h0 : charVal sc 0 = 0 := by
    cases sc <;> decide
  rw [h0] at h
  exact h

/-- The two outcomes of `_glfw_strncmp`: either the strings agree on their first `l`
characters and the result is `0`, or there is a first differing index `k < l` and the
result is the difference of the characters there. -/
theorem strncmp_cases (sc : Bool) : ∀ (l : Nat) (a b : Buf),
    ((cstr a).take l = (cstr b).take l ∧ _glfw_strncmp sc a b l = 0) ∨
    ((cstr a).take l ≠ (cstr b).take l ∧
      ∃ k, k < l ∧ (∀ j, j < k → rd a j = rd b j ∧ rd a j ≠ 0) ∧ rd a k ≠ rd b k ∧
        _glfw_strncmp sc a b l = charVal sc (rd a k) - charVal sc (rd b k)) := by
  intro l
  induction l with
  | zero =>
    intro a b
    left
    simp [_glfw_strncmp]
  | succ n ih =>
    intro a b
    have hval : _glfw_strncmp sc a b (n + 1) =
        if rd a 0 = rd b 0 then
          (if rd a 0 = 0 then 0 else _glfw_strncmp sc (a.drop 1) (b.drop 1) n)
        else charVal sc (rd a 0) - charVal sc (rd b 0) := by
      rw [_glfw_strncmp]
      simp only [ne_eq, charVal_inj, charVal_eq_zero, ite_not]
    rw [hval, cstr_unfold a, cstr_unfold b]
    by_cases hxy : rd a 0 = rd b 0
    · rw [if_pos hxy]
      by_cases hx : rd a 0 = 0
      · left
        rw [if_pos hx, if_pos hx, if_pos (hxy ▸ hx)]
        exact ⟨rfl, rfl⟩
      · have hy : ¬ rd b 0 = 0 := hxy ▸ hx
        rw [if_neg hx, if_neg hx, if_neg hy, ← hxy]
        simp only [List.take_succ_cons, List.cons.injEq, true_and, ne_eq]
        rcases ih (a.drop 1) (b.drop 1) with ⟨h1, h2⟩ | ⟨h1, k, hk, hpre, hd, hres⟩
        · left
          exact ⟨h1, h2⟩
        · right
          refine ⟨h1, k + 1, by omega, ?_, ?_, ?_⟩
          · intro j hj
            cases j with
            | zero => exact ⟨hxy, hx⟩
            | succ i =>
              have := hpre i (by omega)
              rwa [rd_drop_one, rd_drop_one] at this
          · rwa [rd_drop_one, rd_drop_one] at hd
          · rwa [rd_drop_one, rd_drop_one] at hres
    · right
      rw [if_neg hxy]
      refine ⟨?_, 0, by omega, ?_, hxy, rfl⟩
      · by_cases hx : rd a 0 = 0
        · have hy : ¬ rd b 0 = 0 := fun h => hxy (hx.trans h.symm)
          rw [if_pos hx, if_neg hy]
          simp
        · rw [if_neg hx]
          by_cases hy : rd b 0 = 0
          · rw [if_pos hy]
            simp
          · rw [if_neg hy]
            simp [hxy]
      · intro j hj
        exact absurd hj (Nat.not_lt_zero j)

/-- C2: `_glfw_strncmp(a, b, l)` returns 0 if and only if the strings `a` and `b`, each
truncated to at most its first `l` characters, are equal (so `l = 0` always gives 0 and
the bytes after a shared NUL play no part); otherwise it returns the non-zero difference
`a[k] - b[k]` at the first index `k < l` where the strings differ. -/
theorem C2_strncmp_zero_iff_truncated_equal (signedChar : Bool) (a b : Buf) (l : Nat) :
    (_glfw_strncmp signedChar a b l = 0 ↔ (cstr a).take l = (cstr b).take l) ∧
    _glfw_strncmp signedChar a b 0 = 0 ∧
    ((cstr a).take l ≠ (cstr b).take l →
      ∃ k, k < l ∧ (∀ j, j < k → rd a j = rd b j ∧ rd a j ≠ 0) ∧ rd a k ≠ rd b k ∧
        _glfw_strncmp signedChar a b l
          = charVal signedChar (rd a k) - charVal signedChar (rd b k) ∧
        _glfw_strncmp signedChar a b l ≠ 0) := by
  have hnz : ∀ k, rd a k ≠ rd b k →
      charVal signedChar (rd a k) - charVal signedChar (rd b k) ≠ 0 := by
    intro k hk h
    exact hk ((charVal_inj signedChar _ _).mp (by omega))
  refine ⟨?_, rfl, ?_⟩
  · rcases strncmp_cases signedChar l a b with ⟨h1, h2⟩ | ⟨h1, k, _, _, hd, hres⟩
    · exact ⟨fun _ => h1, fun _ => h2⟩
    · constructor
      · intro h
        rw [hres] at h
        exact absurd h (hnz k hd)
      · intro h
        exact absurd h h1
  · intro hne
    rcases strncmp_cases signedChar l a b with ⟨h1, _⟩ | ⟨_, k, hk, hpre, hd, hres⟩
    · exact absurd h1 hne
    · exact ⟨k, hk, hpre, hd, hres, by rw [hres]; exact hnz k hd⟩

theorem strncmp_succ (sc : Bool) (a b : Buf) (n : Nat) :
    _glfw_strncmp sc a b (n + 1) =
      if rd a 0 = rd b 0 then
        (if rd a 0 = 0 then 0 else _glfw_strncmp sc (a.drop 1) (b.drop 1) n)
      else charVal sc (rd a 0) - charVal sc (rd b 0) := by
  rw [_glfw_strncmp]
  simp only [ne_eq, charVal_inj, charVal_eq_zero, ite_not]

/-- The sign of `_glfw_strncmp` is the sign of the comparison of the first differing
characters read as plain `char` values. -/
theorem strncmp_sign_eq (sc : Bool) : ∀ (l : Nat) (a b : Buf),
    Int.sign (_glfw_strncmp sc a b l) = strncmp_sign_by (charVal sc) a b l := by
  intro l
  induction l with
  | zero =>
    intro a b
    simp [_glfw_strncmp, strncmp_sign_by]
  | succ n ih =>
    intro a b
    rw [strncmp_succ, strncmp_sign_by]
    by_cases hxy : rd a 0 = rd b 0
    · rw [if_pos hxy, hxy, if_neg (lt_irrefl _), if_neg (lt_irrefl _), ← hxy]
      by_cases hx : rd a 0 = 0
      · rw [if_pos hx, if_pos hx]
        rfl
      · rw [if_neg hx, if_neg hx]
        exact ih _ _
    · rw [if_neg hxy]
      have hne : charVal sc (rd a 0) ≠ charVal sc (rd b 0) :=
        fun h => hxy ((charVal_inj sc _ _).mp h)
      by_cases hlt : charVal sc (rd a 0) < charVal sc (rd b 0)
      · rw [if_pos hlt]
        exact Int.sign_eq_neg_one_of_neg (by omega)
      · have hgt : charVal sc (rd b 0) < charVal sc (rd a 0) := by omega
        rw [if_neg hlt, if_pos hgt]
        exact Int.sign_eq_one_of_pos (by omega)

theorem strncmp_sign_by_congr (v w : Byte → Int) : ∀ (l : Nat) (a b : Buf),
    (∀ i, i < l → v (rd a i) = w (rd a i) ∧ v (rd b i) = w (rd b i)) →
    strncmp_sign_by v a b l = strncmp_sign_by w a b l := by
  intro l
  induction l with
  | zero =>
    intro a b _
    rfl
  | succ n ih =>
    intro a b h
    have h0 := h 0 (by omega)
    have hrec : strncmp_sign_by v (a.drop 1) (b.drop 1) n
        = strncmp_sign_by w (a.drop 1) (b.drop 1) n := by
      apply ih
      intro i hi
      rw [rd_drop_one, rd_drop_one]
      exact h (i + 1) (by omega)
    rw [strncmp_sign_by, strncmp_sign_by, h0.1, h0.2, hrec]

theorem charVal_of_lt (sc : Bool) (c : Byte) (h : c.val < 128) :
    charVal sc c = (c.val : Int) := by
  unfold charVal
  rw [if_neg]
  omega

theorem cstr_take_succ (p : Buf) (n : Nat) (h : rd p 0 ≠ 0) :
    (cstr p).take (n + 1) = rd p 0 :: (cstr (p.drop 1)).take n := by
  rw [cstr_unfold p, if_neg h]
  rfl

/-- The byte a comparison step reads is the NUL or a character of the string, so a bound
on the characters of the string gives its plain `char` value. -/
theorem charVal_head_of_chars (sc : Bool) (p : Buf) (n : Nat)
    (h : ∀ c ∈ (cstr p).take (n + 1), c.val < 128) :
    charVal sc (rd p 0) = ((rd p 0).val : Int) := by
  by_cases h0 : rd p 0 = 0
  · rw [h0]
    simp [charVal]
  · apply charVal_of_lt
    apply h
    rw [cstr_take_succ p n h0]
    exact List.mem_cons_self _ _

/-- With every character among the first `l` of both strings below 128, the plain
`char` order and the `unsigned char` order of the two strings agree; the bytes that
follow a terminating NUL are not constrained. -/
theorem strncmp_sign_by_chars (sc : Bool) : ∀ (l : Nat) (a b : Buf),
    (∀ c ∈ (cstr a).take l, c.val < 128) → (∀ c ∈ (cstr b).take l, c.val < 128) →
    strncmp_sign_by (charVal sc) a b l = std_strncmp_sign a b l := by
  intro l
  induction l with
  | zero =>
    intro a b _ _
    rfl
  | succ n ih =>
    intro a b ha hb
    have ha0 := charVal_head_of_chars sc a n ha
    have hb0 := charVal_head_of_chars sc b n hb
    unfold std_strncmp_sign
    rw [strncmp_sign_by, strncmp_sign_by, ha0, hb0]
    by_cases h1 : ((rd a 0).val : Int) < ((rd b 0).val : Int)
    · rw [if_pos h1, if_pos h1]
    · rw [if_neg h1, if_neg h1]
      by_cases h2 : ((rd b 0).val : Int) < ((rd a 0).val : Int)
      · rw [if_pos h2, if_pos h2]
      · rw [if_neg h2, if_neg h2]
        by_cases h3 : rd a 0 = 0
        · rw [if_pos h3, if_pos h3]
        · rw [if_neg h3, if_neg h3]
          have hab : rd b 0 = rd a 0 := by
            apply Fin.ext
            omega
          have h4 : rd b 0 ≠ 0 := by
            rw [hab]
            exact h3
          apply ih
          · intro c hc
            apply ha
            rw [cstr_take_succ a n h3]
            exact List.mem_cons_of_mem _ hc
          · intro c hc
            apply hb
            rw [cstr_take_succ b n h4]
            exact List.mem_cons_of_mem _ hc

/-- C3, the claim as stated fails: with the signed plain `char` of the Win32 ABI the
strings "\x80" and "\x01" compare as -129 (less), while the standard `strncmp`, which
compares `unsigned char` values, orders 128 after 1. -/
theorem C3_strncmp_high_bit_counterexample :
    _glfw_strncmp true [128] [1] 1 = -129 ∧ std_strncmp_sign [128] [1] 1 = 1 ∧
    Int.sign (_glfw_strncmp true [128] [1] 1) ≠ std_strncmp_sign [128] [1] 1 := by
  decide

/-- C3, amended: the sign of `_glfw_strncmp(a, b, l)` is the sign of the comparison of
the first differing characters read as plain `char` values (-128..127 on Win32, where
plain `char` is signed); it is the sign the standard `strncmp` gives when plain `char`
is unsigned, and also when every character among the first `l` of the two strings is
below 128, whatever bytes follow the terminating NUL in the buffers. -/
theorem C3_strncmp_sign_is_plain_char_order (signedChar : Bool) (a b : Buf) (l : Nat) :
    Int.sign (_glfw_strncmp signedChar a b l) = strncmp_sign_by (charVal signedChar) a b l ∧
    (signedChar = false →
      Int.sign (_glfw_strncmp signedChar a b l) = std_strncmp_sign a b l) ∧
    ((∀ c ∈ (cstr a).take l, c.val < 128) → (∀ c ∈ (cstr b).take l, c.val < 128) →
      Int.sign (_glfw_strncmp signedChar a b l) = std_strncmp_sign a b l) := by
  refine ⟨strncmp_sign_eq signedChar l a b, ?_, ?_⟩
  · intro hs
    subst hs
    rw [strncmp_sign_eq]
    exact strncmp_sign_by_congr _ _ l a b (fun i _ => ⟨by simp [charVal], by simp [charVal]⟩)
  · intro ha hb
    rw [strncmp_sign_eq]
    exact strncmp_sign_by_chars signedChar l a b ha hb

/-! ## Memory, `_glfw_memset` and `_glfw_memcpy` -/

theorem length_store (m : Mem) (a : Nat) (v : Byte) : (store m a v).length = m.length := by
  simp [store]

theorem load_store (m : Mem) (a b : Nat) (v : Byte) :
    load (store m a v) b = if a = b ∧ a < m.length then v else load m b := by
  unfold load store
  simp only [List.getD_eq_getElem?_getD, List.getElem?_set]
  by_cases hab : a = b
  · subst hab
    by_cases hlt : a < m.length
    · simp [hlt]
    · simp [hlt, List.getElem?_eq_none (Nat.le_of_not_lt hlt)]
  · simp [hab]

theorem toChar_val (c : Int) : ((toChar c).val : Int) = c % 256 := by
  simp only [toChar]
  omega

theorem length_memset_loop (c : Int) : ∀ (n p : Nat) (m : Mem),
    (_glfw_memset_loop n p c m).length = m.length := by
  intro n
  induction n with
  | zero => intro p m; rfl
  | succ k ih =>
    intro p m
    rw [_glfw_memset_loop, ih, length_store]

theorem load_memset_loop (c : Int) : ∀ (n p : Nat) (m : Mem) (a : Nat),
    load (_glfw_memset_loop n p c m) a =
      if p ≤ a ∧ a < p + n ∧ a < m.length then toChar c else load m a := by
  intro n
  induction n with
  | zero =>
    intro p m a
    rw [_glfw_memset_loop, if_neg (by omega)]
  | succ k ih =>
    intro p m a
    rw [_glfw_memset_loop, ih, length_store, load_store]
    by_cases h1 : p + 1 ≤ a ∧ a < p + 1 + k ∧ a < m.length
    · rw [if_pos h1, if_pos (by omega)]
    · rw [if_neg h1]
      by_cases h2 : p = a ∧ p < m.length
      · rw [if_pos h2, if_pos (by omega)]
      · rw [if_neg h2, if_neg (by omega)]

theorem memcpy_loop_writes : ∀ (n dp sp : Nat) (m : Mem) (log : List Nat),
    (_glfw_memcpy_loop n dp sp m log).2 = log ++ (List.range n).map (fun i => dp + i) := by
  intro n
  induction n with
  | zero => intro dp sp m log; simp [_glfw_memcpy_loop]
  | succ k ih =>
    intro dp sp m log
    rw [_glfw_memcpy_loop, ih, List.range_succ_eq_map]
    simp [List.append_assoc, Function.comp_def, Nat.add_assoc, Nat.add_comm 1]

theorem length_memcpy_loop : ∀ (n dp sp : Nat) (m : Mem) (log : List Nat),
    (_glfw_memcpy_loop n dp sp m log).1.length = m.length := by
  intro n
  induction n with
  | zero => intro dp sp m log; rfl
  | succ k ih =>
    intro dp sp m log
    rw [_glfw_memcpy_loop, ih, length_store]

theorem load_memcpy_loop : ∀ (n dp sp : Nat) (m : Mem) (log : List Nat) (a : Nat),
    dp + n ≤ m.length → (dp + n ≤ sp ∨ sp + n ≤ dp) →
    load (_glfw_memcpy_loop n dp sp m log).1 a =
      if dp ≤ a ∧ a < dp + n then load m (sp + (a - dp)) else load m a := by
  intro n
  induction n with
  | zero =>
    intro dp sp m log a _ _
    rw [_glfw_memcpy_loop, if_neg (by omega)]
  | succ k ih =>
    intro dp sp m log a hd hno
    rw [_glfw_memcpy_loop, ih _ _ _ _ _ (by rw [length_store]; omega) (by omega)]
    by_cases h1 : dp + 1 ≤ a ∧ a < dp + 1 + k
    · rw [if_pos h1, if_pos (by omega), load_store, if_neg (by omega)]
      congr 1
      omega
    · rw [if_neg h1, load_store]
      by_cases h2 : dp = a
      · subst h2
        rw [if_pos ⟨rfl, by omega⟩, if_pos (by omega)]
        simp
      · rw [if_neg (by omega), if_neg (by omega)]

/-- C4: for non-overlapping buffers `d` and `s` of at least `n` bytes, `_glfw_memcpy(d, s, n)`
(a total function, so the call terminates) performs exactly `n` byte copies, to the
addresses `d, d+1, …, d+n-1` in this order, leaves `d[i] = s[i]` for every `i < n`,
leaves every byte outside `d[0..n)`, so every byte of `d` at index `n` or above and
every byte of `s`, unchanged, and returns `d`; with `n = 0` nothing is written. -/
theorem C4_memcpy_copies_bytes (m : Mem) (d s n : Nat)
    (hd : d + n ≤ m.length) (hs : s + n ≤ m.length) (hno : d + n ≤ s ∨ s + n ≤ d) :
    (_glfw_memcpy m d s n).ret = d ∧
    (_glfw_memcpy m d s n).writes = (List.range n).map (fun i => d + i) ∧
    (_glfw_memcpy m d s n).writes.length = n ∧
    (∀ i, i < n → load (_glfw_memcpy m d s n).mem (d + i) = load m (s + i)) ∧
    (∀ a, ¬ (d ≤ a ∧ a < d + n) → load (_glfw_memcpy m d s n).mem a = load m a) ∧
    (∀ i, i < n → load (_glfw_memcpy m d s n).mem (s + i) = load m (s + i)) ∧
    (_glfw_memcpy m d s n).mem.length = m.length ∧
    (_glfw_memcpy m d s 0).mem = m ∧ (_glfw_memcpy m d s 0).writes = [] := by
  have hw : (_glfw_memcpy m d s n).writes = (List.range n).map (fun i => d + i) := by
    unfold _glfw_memcpy
    simp only [memcpy_loop_writes, List.nil_append]
  have hl : ∀ a, load (_glfw_memcpy m d s n).mem a =
      if d ≤ a ∧ a < d + n then load m (s + (a - d)) else load m a := by
    intro a
    unfold _glfw_memcpy
    exact load_memcpy_loop n d s m [] a hd hno
  have _ := hs
  refine ⟨rfl, hw, ?_, ?_, ?_, ?_, ?_, rfl, rfl⟩
  · rw [hw]; simp
  · intro i hi
    rw [hl, if_pos (by omega)]
    congr 1
    omega
  · intro a ha
    rw [hl, if_neg ha]
  · intro i hi
    rw [hl, if_neg (by omega)]
  · unfold _glfw_memcpy
    exact length_memcpy_loop n d s m []

/-- C4 at a concrete input: a 6-byte memory, `_glfw_memcpy(3, 0, 2)`. -/
theorem C4_memcpy_copies_bytes_witness :
    (_glfw_memcpy [1, 2, 3, 4, 5, 6] 3 0 2).ret = 3 ∧
    (_glfw_memcpy [1, 2, 3, 4, 5, 6] 3 0 2).writes = (List.range 2).map (fun i => 3 + i) ∧
    (_glfw_memcpy [1, 2, 3, 4, 5, 6] 3 0 2).writes.length = 2 ∧
    (∀ i, i < 2 →
      load (_glfw_memcpy [1, 2, 3, 4, 5, 6] 3 0 2).mem (3 + i) = load [1, 2, 3, 4, 5, 6] (0 + i)) ∧
    (∀ a, ¬ (3 ≤ a ∧ a < 3 + 2) →
      load (_glfw_memcpy [1, 2, 3, 4, 5, 6] 3 0 2).mem a = load [1, 2, 3, 4, 5, 6] a) ∧
    (∀ i, i < 2 →
      load (_glfw_memcpy [1, 2, 3, 4, 5, 6] 3 0 2).mem (0 + i) = load [1, 2, 3, 4, 5, 6] (0 + i)) ∧
    (_glfw_memcpy [1, 2, 3, 4, 5, 6] 3 0 2).mem.length = ([1, 2, 3, 4, 5, 6] : Mem).length ∧
    (_glfw_memcpy [1, 2, 3, 4, 5, 6] 3 0 0).mem = [1, 2, 3, 4, 5, 6] ∧
    (_glfw_memcpy [1, 2, 3, 4, 5, 6] 3 0 0).writes = [] :=
  C4_memcpy_copies_bytes [1, 2, 3, 4, 5, 6] 3 0 2 (by decide) (by decide) (by decide)

/-- C5: for a buffer of at least `size` bytes at `ptr`, `_glfw_memset(ptr, c, size)` sets
each of the first `size` bytes to `c` truncated to 8 bits (`c mod 256`) and leaves every
other byte of memory, so every byte at index `size` or above, unchanged; with
`size = 0` the memory is unchanged. -/
theorem C5_memset_fills_buffer (m : Mem) (ptr : Nat) (c : Int) (size : Nat)
    (hbuf : ptr + size ≤ m.length) :
    (∀ i, i < size → ((load (_glfw_memset m ptr c size) (ptr + i)).val : Int) = c % 256) ∧
    (∀ a, ¬ (ptr ≤ a ∧ a < ptr + size) → load (_glfw_memset m ptr c size) a = load m a) ∧
    (_glfw_memset m ptr c size).length = m.length ∧
    _glfw_memset m ptr c 0 = m := by
  refine ⟨?_, ?_, length_memset_loop c size ptr m, rfl⟩
  · intro i hi
    unfold _glfw_memset
    rw [load_memset_loop, if_pos (by omega), toChar_val]
  · intro a ha
    unfold _glfw_memset
    rw [load_memset_loop, if_neg (by omega)]

/-- C5 at a concrete input: a 5-byte memory, `_glfw_memset(1, -1, 3)`. -/
theorem C5_memset_fills_buffer_witness :
    1 + 3 ≤ ([1, 2, 3, 4, 5] : Mem).length ∧
    ((∀ i, i < 3 → ((load (_glfw_memset [1, 2, 3, 4, 5] 1 (-1) 3) (1 + i)).val : Int)
        = (-1) % 256) ∧
    (∀ a, ¬ (1 ≤ a ∧ a < 1 + 3) →
        load (_glfw_memset [1, 2, 3, 4, 5] 1 (-1) 3) a = load [1, 2, 3, 4, 5] a) ∧
    (_glfw_memset [1, 2, 3, 4, 5] 1 (-1) 3).length = ([1, 2, 3, 4, 5] : Mem).length ∧
    _glfw_memset [1, 2, 3, 4, 5] 1 (-1) 0 = [1, 2, 3, 4, 5]) :=
  ⟨by decide, C5_memset_fills_buffer [1, 2, 3, 4, 5] 1 (-1) 3 (by decide)⟩

/-! ## `_glfw_abs` -/

/-- C6: for every 32-bit `int` `x` other than `INT_MIN`, `_glfw_abs(x)` is the
mathematical absolute value of `x`, so it is non-negative and `_glfw_abs(-x)` equals
`_glfw_abs(x)` (the negation `-x` does not wrap); for `INT_MIN` the negation wraps modulo 2^32 and the result is
`INT_MIN`, which is negative. -/
theorem C6_abs_except_int_min (x : Int) (hlo : INT_MIN ≤ x) (hhi : x ≤ INT_MAX) :
    (x ≠ INT_MIN →
      _glfw_abs x = |x| ∧ 0 ≤ _glfw_abs x ∧ wrapInt32 (-x) = -x ∧
      _glfw_abs (-x) = _glfw_abs x) ∧
    _glfw_abs INT_MIN = INT_MIN ∧ _glfw_abs INT_MIN < 0 ∧
    wrapInt32 (-INT_MIN) = INT_MIN := by
  refine ⟨?_, by decide, by decide, by decide⟩
  intro hne
  unfold INT_MIN at hlo hne
  unfold INT_MAX at hhi
  unfold _glfw_abs wrapInt32
  rcases abs_cases x with ⟨h1, h2⟩ | ⟨h1, h2⟩
  · rw [h1]
    refine ⟨?_, ?_, ?_, ?_⟩ <;> (try split_ifs) <;> omega
  · rw [h1]
    refine ⟨?_, ?_, ?_, ?_⟩ <;> (try split_ifs) <;> omega

/-- C6 at a concrete input, `x = -5`. -/
theorem C6_abs_except_int_min_witness :
    INT_MIN ≤ -5 ∧ (-5 : Int) ≤ INT_MAX ∧
    ((-5 : Int) ≠ INT_MIN →
      _glfw_abs (-5) = |(-5 : Int)| ∧ 0 ≤ _glfw_abs (-5) ∧ wrapInt32 (-(-5)) = -(-5) ∧
      _glfw_abs (-(-5)) = _glfw_abs (-5)) ∧
    _glfw_abs INT_MIN = INT_MIN ∧ _glfw_abs INT_MIN < 0 ∧
    wrapInt32 (-INT_MIN) = INT_MIN :=
  ⟨by decide, by decide, C6_abs_except_int_min (-5) (by decide) (by decide)⟩

/-! ## The stubs `_glfw_qsort` and `_glfw_pow` -/

/-- C7: `_glfw_qsort` is a stub: for every array, element count, element size and
comparator it returns without a call of the comparator and leaves every byte of memory,
so every byte of the array, unchanged; the array is sorted afterwards exactly when it
was sorted before, and the unsorted two-element array `[2, 1]` stays unsorted. -/
theorem C7_qsort_is_stub (m : Mem) (ptr count size : Nat) (comp : Mem → Nat → Nat → Int) :
    (_glfw_qsort m ptr count size comp).compCalls = [] ∧
    (_glfw_qsort m ptr count size comp).mem = m ∧
    arrayBytes (_glfw_qsort m ptr count size comp).mem ptr count size
      = arrayBytes m ptr count size ∧
    (arraySorted (_glfw_qsort m ptr count size comp).mem ptr count size comp
      ↔ arraySorted m ptr count size comp) ∧
    ¬ arraySorted (_glfw_qsort [2, 1] 0 2 1 byteCmp).mem 0 2 1 byteCmp := by
  refine ⟨rfl, rfl, rfl, Iff.rfl, ?_⟩
  intro h
  have h01 := h 0 (by decide) 1 (by decide) (by decide)
  revert h01
  decide

/-- C8: `_glfw_pow` is a stub: for every pair of arguments it returns the constant 0.0,
the same for any two pairs of arguments, so it differs from the mathematical power,
for instance at `x = 1`, `y = 1`, where the power is 1. -/
theorem C8_pow_is_stub (x y : Double) :
    _glfw_pow x y = Double.finite 0 ∧
    (∀ x2 y2 : Double, _glfw_pow x2 y2 = _glfw_pow x y) ∧
    mathPow 1 1 = Double.finite 1 ∧
    _glfw_pow (Double.finite 1) (Double.finite 1) ≠ mathPow 1 1 := by
  refine ⟨rfl, fun _ _ => rfl, by decide, by decide⟩

/-! ## `_glfw_strdup` -/

theorem rd_mem_drop (m : Mem) (p i : Nat) : rd (m.drop p) i = load m (p + i) := by
  rw [rd_drop]
  rfl

theorem cstr_congr : ∀ (a b : Buf),
    (∀ i, i ≤ (cstr a).length → rd b i = rd a i) → cstr b = cstr a := by
  intro a
  induction a with
  | nil =>
    intro b h
    have h0 := h 0 (Nat.zero_le _)
    rw [rd_nil] at h0
    rw [cstr_nil, cstr_eq_nil_iff]
    exact h0
  | cons x t ih =>
    intro b h
    have h0 := h 0 (Nat.zero_le _)
    rw [rd_cons_zero] at h0
    by_cases hx : x = 0
    · subst hx
      rw [cstr_cons_zero, cstr_eq_nil_iff]
      exact h0
    · rw [cstr_cons_ne x t hx] at h ⊢
      rw [cstr_unfold b, h0, if_neg hx]
      congr 1
      apply ih
      intro i hi
      have := h (i + 1) (by simp only [List.length_cons]; omega)
      rwa [rd_cons_succ, ← rd_drop_one] at this

theorem rd_cstr_length (a : Buf) : rd a (cstr a).length = 0 := by
  induction a with
  | nil => simp [cstr_nil, rd_nil]
  | cons x t ih =>
    by_cases hx : x = 0
    · subst hx
      simp [cstr_cons_zero, rd_cons_zero]
    · rw [cstr_cons_ne x t hx, List.length_cons, rd_cons_succ]
      exact ih

theorem strdup_null (bits : Nat) (w : Proc) (str : Nat) (hstr : str ≠ 0)
    (hsz : (cstr (w.mem.drop str)).length + 1 < 2 ^ bits) :
    _glfw_strdup bits 0 w str =
      (0, { mem := w.mem
            calls := w.calls ++ [Call.lstrlenA str,
              Call.HeapAlloc HEAP_ZERO_MEMORY ((cstr (w.mem.drop str)).length + 1),
              Call.lstrcpyA 0 str] }) := by
  simp [_glfw_strdup, _glfw_strlen, _glfw_calloc, _glfw_strcpy, lstrlenA, HeapAlloc, lstrcpyA,
    hstr, Nat.mod_eq_of_lt hsz]

theorem strdup_block (bits grant : Nat) (w : Proc) (str : Nat) (hstr : str ≠ 0)
    (hg : grant ≠ 0) (hsz : (cstr (w.mem.drop str)).length + 1 < 2 ^ bits) :
    _glfw_strdup bits grant w str =
      (grant,
        { mem := (_glfw_memcpy_loop
            ((cstr ((_glfw_memset_loop ((cstr (w.mem.drop str)).length + 1) grant 0
                w.mem).drop str)).length + 1)
            grant str
            (_glfw_memset_loop ((cstr (w.mem.drop str)).length + 1) grant 0 w.mem) []).1
          calls := w.calls ++ [Call.lstrlenA str,
            Call.HeapAlloc HEAP_ZERO_MEMORY ((cstr (w.mem.drop str)).length + 1),
            Call.lstrcpyA grant str] }) := by
  have hbit : HEAP_ZERO_MEMORY.testBit 3 = true := by decide
  simp [_glfw_strdup, _glfw_strlen, _glfw_calloc, _glfw_strcpy, lstrlenA, HeapAlloc, lstrcpyA,
    hstr, hg, hbit, Nat.mod_eq_of_lt hsz]

/-- C9: for a NUL-terminated string at `str`, when the allocation succeeds with a block
that lies inside memory and apart from the string, `_glfw_strdup(str)` requests exactly
`strlen(str) + 1` bytes with `HEAP_ZERO_MEMORY` and returns the block, which then holds
the characters of the string followed by a NUL (same string, same `strlen`), every byte
outside the block, so the string at `str`, being unchanged; when the allocation fails
there is no check: `lstrcpyA` is called with the `NULL` pointer as destination, and
`NULL` is returned. -/
theorem C9_strdup_copies_string (bits grant : Nat) (w : Proc) (str : Nat)
    (hstr : str ≠ 0)
    (hterm : str + (cstr (w.mem.drop str)).length < w.mem.length)
    (hspace : w.mem.length ≤ 2 ^ bits)
    (hg : grant ≠ 0)
    (hblk : grant + ((cstr (w.mem.drop str)).length + 1) ≤ w.mem.length)
    (hfresh : grant + ((cstr (w.mem.drop str)).length + 1) ≤ str ∨
      str + ((cstr (w.mem.drop str)).length + 1) ≤ grant) :
    ((_glfw_strdup bits grant w str).2.calls = w.calls ++ [Call.lstrlenA str,
        Call.HeapAlloc HEAP_ZERO_MEMORY ((cstr (w.mem.drop str)).length + 1),
        Call.lstrcpyA grant str] ∧
      (_glfw_strdup bits grant w str).1 = grant ∧
      cstr ((_glfw_strdup bits grant w str).2.mem.drop (_glfw_strdup bits grant w str).1)
        = cstr (w.mem.drop str) ∧
      (_glfw_strlen (_glfw_strdup bits grant w str).2 (_glfw_strdup bits grant w str).1).1
        = (_glfw_strlen w str).1 ∧
      load (_glfw_strdup bits grant w str).2.mem (grant + (cstr (w.mem.drop str)).length) = 0 ∧
      (∀ a, ¬ (grant ≤ a ∧ a < grant + ((cstr (w.mem.drop str)).length + 1)) →
        load (_glfw_strdup bits grant w str).2.mem a = load w.mem a) ∧
      cstr ((_glfw_strdup bits grant w str).2.mem.drop str) = cstr (w.mem.drop str) ∧
      (_glfw_strdup bits grant w str).2.mem.length = w.mem.length) ∧
    ((_glfw_strdup bits 0 w str).1 = 0 ∧
      (_glfw_strdup bits 0 w str).2.calls = w.calls ++ [Call.lstrlenA str,
        Call.HeapAlloc HEAP_ZERO_MEMORY ((cstr (w.mem.drop str)).length + 1),
        Call.lstrcpyA 0 str] ∧
      (_glfw_strdup bits 0 w str).2.mem = w.mem) := by
  have hsz : (cstr (w.mem.drop str)).length + 1 < 2 ^ bits := by omega
  refine ⟨?_, ?_⟩
  · rw [strdup_block bits grant w str hstr hg hsz]
    generalize hn : (cstr (w.mem.drop str)).length = n at *
    -- memory after the allocation
    have hm1 : ∀ a, load (_glfw_memset_loop (n + 1) grant 0 w.mem) a =
        if grant ≤ a ∧ a < grant + (n + 1) then 0 else load w.mem a := by
      intro a
      rw [load_memset_loop]
      by_cases hin : grant ≤ a ∧ a < grant + (n + 1)
      · rw [if_pos (by omega), if_pos hin]
        rfl
      · rw [if_neg (by omega), if_neg hin]
    -- the string at `str` is untouched by the allocation
    have hc1 : cstr ((_glfw_memset_loop (n + 1) grant 0 w.mem).drop str)
        = cstr (w.mem.drop str) := by
      apply cstr_congr
      intro i hi
      rw [rd_mem_drop, rd_mem_drop, hm1, if_neg (by omega)]
    rw [hc1, hn]
    -- memory after the copy
    have hm2 : ∀ a, load (_glfw_memcpy_loop (n + 1) grant str
          (_glfw_memset_loop (n + 1) grant 0 w.mem) []).1 a =
        if grant ≤ a ∧ a < grant + (n + 1) then load w.mem (str + (a - grant))
        else load w.mem a := by
      intro a
      rw [load_memcpy_loop (n + 1) grant str _ [] a
        (by rw [length_memset_loop]; exact hblk) hfresh]
      by_cases hin : grant ≤ a ∧ a < grant + (n + 1)
      · rw [if_pos hin, if_pos hin, hm1, if_neg (by omega)]
      · rw [if_neg hin, if_neg hin, hm1, if_neg hin]
    have hc2 : cstr ((_glfw_memcpy_loop (n + 1) grant str
          (_glfw_memset_loop (n + 1) grant 0 w.mem) []).1.drop grant)
        = cstr (w.mem.drop str) := by
      apply cstr_congr
      intro i hi
      rw [rd_mem_drop, rd_mem_drop, hm2, if_pos (by omega)]
      congr 1
      omega
    refine ⟨rfl, rfl, hc2, ?_, ?_, ?_, ?_, ?_⟩
    · simp only [_glfw_strlen, lstrlenA, if_neg hg, if_neg hstr]
      rw [hc2]
    · rw [hm2, if_pos (by omega)]
      have h0 := rd_cstr_length (w.mem.drop str)
      rw [hn, rd_mem_drop] at h0
      rw [← h0]
      congr 1
      omega
    · intro a ha
      rw [hm2, if_neg ha]
    · apply cstr_congr
      intro i hi
      rw [rd_mem_drop, rd_mem_drop, hm2, if_neg (by omega)]
    · rw [length_memcpy_loop, length_memset_loop]
  · rw [strdup_null bits w str hstr hsz]
    exact ⟨rfl, rfl, rfl⟩

/-- C9 at a concrete input: the string "hi" at address 1, the heap block at address 4. -/
theorem C9_strdup_copies_string_witness :
    (1 ≠ 0 ∧ 1 + (cstr (demoProc.mem.drop 1)).length < demoProc.mem.length ∧
      demoProc.mem.length ≤ 2 ^ 32 ∧ 4 ≠ 0 ∧
      4 + ((cstr (demoProc.mem.drop 1)).length + 1) ≤ demoProc.mem.length ∧
      (4 + ((cstr (demoProc.mem.drop 1)).length + 1) ≤ 1 ∨
        1 + ((cstr (demoProc.mem.drop 1)).length + 1) ≤ 4)) ∧
    (((_glfw_strdup 32 4 demoProc 1).2.calls = demoProc.calls ++ [Call.lstrlenA 1,
        Call.HeapAlloc HEAP_ZERO_MEMORY ((cstr (demoProc.mem.drop 1)).length + 1),
        Call.lstrcpyA 4 1] ∧
      (_glfw_strdup 32 4 demoProc 1).1 = 4 ∧
      cstr ((_glfw_strdup 32 4 demoProc 1).2.mem.drop (_glfw_strdup 32 4 demoProc 1).1)
        = cstr (demoProc.mem.drop 1) ∧
      (_glfw_strlen (_glfw_strdup 32 4 demoProc 1).2 (_glfw_strdup 32 4 demoProc 1).1).1
        = (_glfw_strlen demoProc 1).1 ∧
      load (_glfw_strdup 32 4 demoProc 1).2.mem (4 + (cstr (demoProc.mem.drop 1)).length) = 0 ∧
      (∀ a, ¬ (4 ≤ a ∧ a < 4 + ((cstr (demoProc.mem.drop 1)).length + 1)) →
        load (_glfw_strdup 32 4 demoProc 1).2.mem a = load demoProc.mem a) ∧
      cstr ((_glfw_strdup 32 4 demoProc 1).2.mem.drop 1) = cstr (demoProc.mem.drop 1) ∧
      (_glfw_strdup 32 4 demoProc 1).2.mem.length = demoProc.mem.length) ∧
    ((_glfw_strdup 32 0 demoProc 1).1 = 0 ∧
      (_glfw_strdup 32 0 demoProc 1).2.calls = demoProc.calls ++ [Call.lstrlenA 1,
        Call.HeapAlloc HEAP_ZERO_MEMORY ((cstr (demoProc.mem.drop 1)).length + 1),
        Call.lstrcpyA 0 1] ∧
      (_glfw_strdup 32 0 demoProc 1).2.mem = demoProc.mem)) :=
  ⟨by decide, C9_strdup_copies_string 32 4 demoProc 1 (by decide) (by decide) (by decide)
    (by decide) (by decide) (by decide)⟩

/-! ## `_glfw_vsnprintf` -/

/-- C10: `_glfw_vsnprintf` performs no bounds checking: for every formatter behind
`wvsprintfA`, every destination, format and argument list and any two values of the
size parameter, the bytes written and the returned count are identical, namely those of
`wvsprintfA(str, fmt, list)`; the number of bytes written can exceed `size`: with the
format "hi" and `size = 1` three bytes are stored and 2 is returned. -/
theorem C10_vsnprintf_ignores_size (wvsprintfA : Mem → Nat → Nat → VaList → PrintResult)
    (m : Mem) (str fmt : Nat) (list : VaList) (size1 size2 : Nat) :
    _glfw_vsnprintf wvsprintfA m str size1 fmt list
      = _glfw_vsnprintf wvsprintfA m str size2 fmt list ∧
    _glfw_vsnprintf wvsprintfA m str size1 fmt list = wvsprintfA m str fmt list ∧
    (_glfw_vsnprintf wvsprintfA_plain [0, 9, 9, 9, 104, 105, 0] 1 1 4 []).ret = 2 ∧
    (_glfw_vsnprintf wvsprintfA_plain [0, 9, 9, 9, 104, 105, 0] 1 1 4 []).mem
      = [0, 104, 105, 0, 104, 105, 0] := by
  refine ⟨rfl, rfl, by decide, by decide⟩

/-! # The demo programs: failure paths (C11, C12) -/

theorem any_failure_errors (es : List Int) :
    (es.flatMap error_callback).any isInitFailure = false := by
  induction es with
  | nil => rfl
  | cons c t ih =>
    simp only [List.flatMap_cons, List.any_append, ih, error_callback, List.any_cons,
      List.any_nil, isInitFailure, Bool.or_false]

theorem frame_not_mem_errors (es : List Int) : Event.frame ∉ es.flatMap error_callback := by
  simp [error_callback]

theorem split_at_failure (pre post : List Event) (e : Event)
    (hq : pre.any isInitFailure = false) (he : isInitFailure e = true) :
    beforeFailure (pre ++ e :: post) = pre ∧ afterFailure (pre ++ e :: post) = post := by
  induction pre with
  | nil => simp [beforeFailure, afterFailure, List.takeWhile, List.dropWhile, he]
  | cons x t ih =>
    simp only [List.any_cons, Bool.or_eq_false_iff] at hq
    have h := ih hq.2
    simp only [beforeFailure, afterFailure] at h ⊢
    simp [List.takeWhile, List.dropWhile, hq.1, h.1, h.2]

/-- A run that ends with a failed initialisation call (after a log without one),
optionally followed by `glfwTerminate()`, and with `exit(EXIT_FAILURE)`. -/
theorem failsAtOnce_of_shape (pre post : List Event) (e : Event)
    (hq : pre.any isInitFailure = false) (he : isInitFailure e = true)
    (hpost : post = [] ∨ post = [Event.terminate]) :
    FailsAtOnce { log := pre ++ e :: post, halt := Halt.exit ExitCode.failure } := by
  intro _
  refine ⟨rfl, ?_⟩
  simp only [(split_at_failure pre post e hq he).2]
  exact hpost

theorem noFrame_of_shape (pre post : List Event) (e : Event) (h : Halt)
    (hq : pre.any isInitFailure = false) (he : isInitFailure e = true)
    (hf : Event.frame ∉ pre) :
    NoFrameBeforeFailure { log := pre ++ e :: post, halt := h } := by
  intro _
  simp only [(split_at_failure pre post e hq he).1]
  exact hf

theorem failsAtOnce_of_quiet (log : List Event) (h : Halt)
    (hq : log.any isInitFailure = false) : FailsAtOnce { log := log, halt := h } := by
  intro hany
  simp only [hq] at hany
  cases hany

theorem noFrame_of_quiet (log : List Event) (h : Halt)
    (hq : log.any isInitFailure = false) : NoFrameBeforeFailure { log := log, halt := h } := by
  intro hany
  simp only [hq] at hany
  cases hany

theorem quiet_append (a b : List Event) (ha : a.any isInitFailure = false)
    (hb : b.any isInitFailure = false) : (a ++ b).any isInitFailure = false := by
  rw [List.any_append, ha, hb]
  rfl

theorem frame_not_mem_append (a b : List Event) (ha : Event.frame ∉ a)
    (hb : Event.frame ∉ b) : Event.frame ∉ a ++ b :=
  fun h => (List.mem_append.mp h).elim ha hb

theorem any_failure_glfwCall (f : GlfwFn) (r : Resp) :
    (glfwCall f r).any isInitFailure = isInitFailure (Event.glfw f r.ok r.errors) := by
  simp only [glfwCall, List.any_append, any_failure_errors, List.any_cons, List.any_nil,
    Bool.false_or, Bool.or_false]

/-- A GLFW call that is no initialisation call, or that succeeded, is no failure. -/
theorem quiet_glfwCall (f : GlfwFn) (r : Resp)
    (h : isInitFailure (Event.glfw f r.ok r.errors) = false) :
    (glfwCall f r).any isInitFailure = false := by
  rw [any_failure_glfwCall, h]

theorem frame_not_mem_glfwCall (f : GlfwFn) (r : Resp) : Event.frame ∉ glfwCall f r := by
  simp [glfwCall, error_callback]

theorem quiet_createWindow (fullscreen : Bool) (r : Resp) (h : ¬ r.ok = false) :
    (glfwCall (GlfwFn.createWindow fullscreen) r).any isInitFailure = false := by
  apply quiet_glfwCall
  simp only [Bool.not_eq_false] at h
  rw [h]
  rfl

theorem failing_createWindow (fullscreen : Bool) (r : Resp) (h : r.ok = false) :
    isInitFailure (Event.glfw (GlfwFn.createWindow fullscreen) r.ok r.errors) = true := by
  rw [h]
  rfl

theorem quiet_shouldClose (w : Nat) (r : Resp) :
    (glfwCall (GlfwFn.windowShouldClose w) r).any isInitFailure = false := by
  apply quiet_glfwCall
  cases r.ok <;> rfl

theorem draw_loop_quiet (teardown : List Event) (ht : teardown.any isInitFailure = false) :
    ∀ (script : List Resp) (log : List Event), log.any isInitFailure = false →
      (draw_loop teardown script log).log.any isInitFailure = false := by
  intro script
  induction script with
  | nil => intro log h; simpa [draw_loop] using h
  | cons r s ih =>
    intro log h
    rw [draw_loop]
    by_cases hr : r.ok = true
    · rw [if_pos hr]
      exact quiet_append _ _ (quiet_append _ _ (quiet_append _ _ h (quiet_shouldClose 0 r)) ht)
        rfl
    · rw [if_neg hr]
      apply ih
      exact quiet_append _ _ (quiet_append _ _ h (quiet_shouldClose 0 r)) rfl

theorem safeFrom_draw_loop (teardown : List Event)
    (ht : teardown.any isInitFailure = false) : SafeFrom (draw_loop teardown) := by
  intro script log h
  have hq := draw_loop_quiet teardown ht script log h
  exact ⟨failsAtOnce_of_quiet _ _ hq, fun _ => noFrame_of_quiet _ _ hq⟩

theorem shape_glfwCall (log post : List Event) (f : GlfwFn) (r : Resp) :
    log ++ glfwCall f r ++ post
      = (log ++ r.errors.flatMap error_callback) ++ Event.glfw f r.ok r.errors :: post := by
  simp [glfwCall, List.append_assoc]

/-- A failed GLFW initialisation call after a quiet log, followed by `glfwTerminate()` or
by nothing, with `exit(EXIT_FAILURE)`. -/
theorem safe_failed_glfwCall (log post : List Event) (f : GlfwFn) (r : Resp)
    (h : log.any isInitFailure = false)
    (he : isInitFailure (Event.glfw f r.ok r.errors) = true)
    (hpost : post = [] ∨ post = [Event.terminate]) :
    FailsAtOnce { log := log ++ glfwCall f r ++ post, halt := Halt.exit ExitCode.failure } ∧
    (Event.frame ∉ log → NoFrameBeforeFailure
      { log := log ++ glfwCall f r ++ post, halt := Halt.exit ExitCode.failure }) := by
  rw [shape_glfwCall]
  have hq := quiet_append _ _ h (any_failure_errors r.errors)
  exact ⟨failsAtOnce_of_shape _ _ _ hq he hpost,
    fun hf => noFrame_of_shape _ _ _ _ hq he
      (frame_not_mem_append _ _ hf (frame_not_mem_errors r.errors))⟩

/-- A failed `nvgCreateGL2` after a quiet log, followed by `glfwTerminate()`. -/
theorem safe_failed_nvg (log : List Event) (h : log.any isInitFailure = false) :
    FailsAtOnce { log := log ++ [Event.nvgCreateGL2 false, Event.terminate]
                  halt := Halt.exit ExitCode.failure } ∧
    (Event.frame ∉ log → NoFrameBeforeFailure
      { log := log ++ [Event.nvgCreateGL2 false, Event.terminate]
        halt := Halt.exit ExitCode.failure }) :=
  ⟨failsAtOnce_of_shape _ _ _ h rfl (Or.inr rfl),
    fun hf => noFrame_of_shape _ _ _ _ h rfl hf⟩

theorem safe_quiet (P : Prop) (log : List Event) (hl : Halt)
    (h : log.any isInitFailure = false) :
    FailsAtOnce { log := log, halt := hl } ∧
    (P → NoFrameBeforeFailure { log := log, halt := hl }) :=
  ⟨failsAtOnce_of_quiet _ _ h, fun _ => noFrame_of_quiet _ _ h⟩

theorem safeFrom_window_nvg_loop (fullscreen : Bool) (teardown : List Event)
    (ht : teardown.any isInitFailure = false) :
    SafeFrom (window_nvg_loop fullscreen teardown) := by
  intro script log h
  rcases script with _ | ⟨w, _ | ⟨n, script⟩⟩
  · exact safe_quiet _ _ _ h
  · rw [window_nvg_loop]
    by_cases hw : w.ok = false
    · rw [if_pos hw]
      exact safe_failed_glfwCall _ _ _ _ h (failing_createWindow _ _ hw) (Or.inr rfl)
    · rw [if_neg hw]
      exact safe_quiet _ _ _ (quiet_append _ _ h (quiet_createWindow _ _ hw))
  · rw [window_nvg_loop]
    by_cases hw : w.ok = false
    · rw [if_pos hw]
      exact safe_failed_glfwCall _ _ _ _ h (failing_createWindow _ _ hw) (Or.inr rfl)
    · rw [if_neg hw]
      have hq := quiet_append _ _ h (quiet_createWindow fullscreen _ hw)
      by_cases hn : n.ok = false
      · simp only [hn, if_true]
        have := safe_failed_nvg _ hq
        exact ⟨this.1, fun hf => this.2
          (frame_not_mem_append _ _ hf (frame_not_mem_glfwCall _ _))⟩
      · simp only [hn, if_false]
        have := safeFrom_draw_loop teardown ht script _
          (quiet_append _ [Event.nvgCreateGL2 true] hq rfl)
        exact ⟨this.1, fun hf => this.2 (frame_not_mem_append _ _
          (frame_not_mem_append _ _ hf (frame_not_mem_glfwCall _ _)) (by simp))⟩

theorem quiet_init (r : Resp) (h : ¬ r.ok = false) :
    (glfwCall GlfwFn.init r).any isInitFailure = false := by
  apply quiet_glfwCall
  simp only [Bool.not_eq_false] at h
  rw [h]
  rfl

theorem failing_init (r : Resp) (h : r.ok = false) :
    isInitFailure (Event.glfw GlfwFn.init r.ok r.errors) = true := by
  rw [h]
  rfl

theorem safeFrom_init_then (rest : List Resp → List Event → Run) (hrest : SafeFrom rest) :
    SafeFrom (init_then rest) := by
  intro script log h
  have hs : (log ++ [Event.setErrorCallback]).any isInitFailure = false :=
    quiet_append _ [Event.setErrorCallback] h rfl
  have hfs : Event.frame ∉ log → Event.frame ∉ log ++ [Event.setErrorCallback] :=
    fun hf => frame_not_mem_append _ _ hf (by simp)
  rcases script with _ | ⟨i, script⟩
  · exact safe_quiet _ _ _ hs
  · rw [init_then]
    by_cases hi : i.ok = false
    · rw [if_pos hi]
      have := safe_failed_glfwCall _ [] _ _ hs (failing_init _ hi) (Or.inl rfl)
      rw [List.append_nil] at this
      exact ⟨this.1, fun hf => this.2 (hfs hf)⟩
    · rw [if_neg hi]
      have := hrest script _ (quiet_append _ _ hs (quiet_init _ hi))
      exact ⟨this.1, fun hf => this.2
        (frame_not_mem_append _ _ (hfs hf) (frame_not_mem_glfwCall _ _))⟩

theorem quiet_other_glfwCall (f : GlfwFn) (r : Resp) (h1 : f ≠ GlfwFn.init)
    (h2 : ∀ fs, f ≠ GlfwFn.createWindow fs) :
    (glfwCall f r).any isInitFailure = false := by
  apply quiet_glfwCall
  cases f with
  | init => exact absurd rfl h1
  | createWindow fs => exact absurd rfl (h2 fs)
  | getPrimaryMonitor => cases r.ok <;> rfl
  | getMonitors => cases r.ok <;> rfl
  | createCursor => cases r.ok <;> rfl
  | windowShouldClose w => cases r.ok <;> rfl
  | getTime => cases r.ok <;> rfl

theorem safeFrom_create_cursors : ∀ (todo : Nat), SafeFrom (Cursor.create_cursors todo) := by
  intro todo
  induction todo with
  | zero =>
    intro script log h
    rw [Cursor.create_cursors]
    exact safeFrom_window_nvg_loop false
      [Event.nvgDeleteGL2, Event.destroyWindow, Event.destroyCursors] rfl script log h
  | succ k ih =>
    intro script log h
    have hc : ∀ c : Resp, (glfwCall GlfwFn.createCursor c).any isInitFailure = false :=
      fun c => quiet_other_glfwCall _ c (by simp) (by simp)
    rcases script with _ | ⟨c, script⟩
    · exact safe_quiet _ _ _ h
    · rw [Cursor.create_cursors]
      by_cases hok : c.ok = false
      · rw [if_pos hok]
        exact safe_quiet _ _ _ (quiet_append _ [Event.terminate]
          (quiet_append _ _ h (hc c)) rfl)
      · rw [if_neg hok]
        have := ih script _ (quiet_append _ _ h (hc c))
        exact ⟨this.1, fun hf => this.2
          (frame_not_mem_append _ _ hf (frame_not_mem_glfwCall _ _))⟩

theorem safeFrom_gamma_options : ∀ (k : Nat) (script : List Resp) (monitor : Bool)
    (log : List Event), script.length ≤ k → log.any isInitFailure = false →
    FailsAtOnce (Gamma.options monitor script log) ∧
    (Event.frame ∉ log → NoFrameBeforeFailure (Gamma.options monitor script log)) := by
  intro k
  induction k with
  | zero =>
    intro script monitor log hk h
    have : script = [] := List.length_eq_zero.mp (Nat.le_zero.mp hk)
    subst this
    exact safe_quiet _ _ _ h
  | succ k ih =>
    intro script monitor log hk h
    rcases script with _ | ⟨o, script⟩
    · exact safe_quiet _ _ _ h
    · rw [Gamma.options.eq_def]
      dsimp only
      have hg : (log ++ [Event.getopt o.val]).any isInitFailure = false :=
        quiet_append _ [Event.getopt o.val] h rfl
      have hfg : Event.frame ∉ log → Event.frame ∉ log ++ [Event.getopt o.val] :=
        fun hf => frame_not_mem_append _ _ hf (by simp)
      by_cases h1 : o.val = -1
      · rw [if_pos h1]
        have := safeFrom_window_nvg_loop monitor [Event.nvgDeleteGL2, Event.destroyWindow]
          rfl script _ hg
        exact ⟨this.1, fun hf => this.2 (hfg hf)⟩
      · rw [if_neg h1]
        by_cases h2 : o.val = 104
        · rw [if_pos h2]
          exact safe_quiet _ _ _ (quiet_append _ [Event.getopt o.val, Event.usage] h rfl)
        · rw [if_neg h2]
          by_cases h3 : o.val = 102
          · rw [if_pos h3]
            rcases script with _ | ⟨m, script⟩
            · exact safe_quiet _ _ _ hg
            · have hm := quiet_append _ _ hg
                (quiet_other_glfwCall GlfwFn.getPrimaryMonitor m (by simp) (by simp))
              have := ih script m.ok _ (by simp only [List.length_cons] at hk; omega) hm
              exact ⟨this.1, fun hf => this.2
                (frame_not_mem_append _ _ (hfg hf) (frame_not_mem_glfwCall _ _))⟩
          · rw [if_neg h3]
            exact safe_quiet _ _ _ (quiet_append _ [Event.getopt o.val, Event.usage] h rfl)

theorem safeFrom_msaa_options : SafeFrom Msaa.options := by
  intro script
  induction script with
  | nil =>
    intro log h
    exact safe_quiet _ _ _ h
  | cons o script ih =>
    intro log h
    rw [Msaa.options]
    have hg : (log ++ [Event.getopt o.val]).any isInitFailure = false :=
      quiet_append _ [Event.getopt o.val] h rfl
    have hfg : Event.frame ∉ log → Event.frame ∉ log ++ [Event.getopt o.val] :=
      fun hf => frame_not_mem_append _ _ hf (by simp)
    by_cases h1 : o.val = -1
    · rw [if_pos h1]
      have := safeFrom_init_then _ (safeFrom_window_nvg_loop false [] rfl) script _ hg
      exact ⟨this.1, fun hf => this.2 (hfg hf)⟩
    · rw [if_neg h1]
      by_cases h2 : o.val = 104
      · rw [if_pos h2]
        exact safe_quiet _ _ _ (quiet_append _ [Event.getopt o.val, Event.usage] h rfl)
      · rw [if_neg h2]
        by_cases h3 : o.val = 115
        · rw [if_pos h3]
          have := ih _ hg
          exact ⟨this.1, fun hf => this.2 (hfg hf)⟩
        · rw [if_neg h3]
          exact safe_quiet _ _ _ (quiet_append _ [Event.getopt o.val, Event.usage] h rfl)

theorem sharing_loop_quiet : ∀ (k : Nat) (script : List Resp) (log : List Event),
    script.length ≤ k → log.any isInitFailure = false →
    (Sharing.loop script log).log.any isInitFailure = false := by
  intro k
  induction k with
  | zero =>
    intro script log hk h
    have : script = [] := List.length_eq_zero.mp (Nat.le_zero.mp hk)
    subst this
    exact h
  | succ k ih =>
    intro script log hk h
    rcases script with _ | ⟨a, _ | ⟨b, script⟩⟩
    · exact h
    · rw [Sharing.loop]
      by_cases ha : a.ok = true
      · rw [if_pos ha]
        exact quiet_append _ [Event.terminate] (quiet_append _ _ h (quiet_shouldClose 0 a)) rfl
      · rw [if_neg ha]
        exact quiet_append _ _ h (quiet_shouldClose 0 a)
    · rw [Sharing.loop]
      have hab := quiet_append _ _ (quiet_append _ _ h (quiet_shouldClose 0 a))
        (quiet_shouldClose 1 b)
      by_cases ha : a.ok = true
      · rw [if_pos ha]
        exact quiet_append _ [Event.terminate] (quiet_append _ _ h (quiet_shouldClose 0 a)) rfl
      · rw [if_neg ha]
        by_cases hb : b.ok = true
        · simp only [hb, if_true]
          exact quiet_append _ [Event.terminate] hab rfl
        · simp only [hb, if_false]
          apply ih
          · simp only [List.length_cons] at hk; omega
          · exact quiet_append _ [Event.frame] hab rfl

theorem safeFrom_sharing_windows : SafeFrom Sharing.windows := by
  intro script log h
  rcases script with _ | ⟨w0, script⟩
  · exact safe_quiet _ _ _ h
  rw [Sharing.windows.eq_def]
  dsimp only
  by_cases h0 : w0.ok = false
  · rw [if_pos h0]
    exact safe_failed_glfwCall _ _ _ _ h (failing_createWindow _ _ h0) (Or.inr rfl)
  rw [if_neg h0]
  have hq0 := quiet_append _ _ h (quiet_createWindow false _ h0)
  have hf0 : Event.frame ∉ log →
      Event.frame ∉ log ++ glfwCall (GlfwFn.createWindow false) w0 :=
    fun hf => frame_not_mem_append _ _ hf (frame_not_mem_glfwCall _ _)
  rcases script with _ | ⟨n, script⟩
  · exact safe_quiet _ _ _ hq0
  by_cases hn : n.ok = false
  · simp only [hn, if_true]
    have := safe_failed_nvg _ hq0
    exact ⟨this.1, fun hf => this.2 (hf0 hf)⟩
  simp only [hn, if_false]
  have hq1 := quiet_append _ [Event.nvgCreateGL2 true] hq0 rfl
  have hf1 : Event.frame ∉ log →
      Event.frame ∉ log ++ glfwCall (GlfwFn.createWindow false) w0
        ++ [Event.nvgCreateGL2 true] :=
    fun hf => frame_not_mem_append _ _ (hf0 hf) (by simp)
  rcases script with _ | ⟨w1, script⟩
  · exact safe_quiet _ _ _ hq1
  by_cases h1 : w1.ok = false
  · simp only [h1, if_true]
    have := safe_failed_glfwCall _ [Event.terminate] (GlfwFn.createWindow false) w1 hq1
      (failing_createWindow _ _ h1) (Or.inr rfl)
    exact ⟨this.1, fun hf => this.2 (hf1 hf)⟩
  simp only [h1, if_false]
  exact safe_quiet _ _ _ (sharing_loop_quiet _ script _ (Nat.le_refl _)
    (quiet_append _ _ hq1 (quiet_createWindow false _ h1)))

theorem failsAtOnce_reopen_run : ∀ (script : List Resp) (phase : Reopen.Phase) (count : Int)
    (log : List Event), log.any isInitFailure = false →
    FailsAtOnce (Reopen.run phase count script log) := by
  intro script
  induction script with
  | nil =>
    intro phase count log h
    cases phase <;> exact failsAtOnce_of_quiet _ _ h
  | cons r script ih =>
    intro phase count log h
    cases phase with
    | getMonitors =>
      rw [Reopen.run]
      exact ih _ _ _ (quiet_append _ _ h
        (quiet_other_glfwCall GlfwFn.getMonitors r (by simp) (by simp)))
    | pickMonitor monitorCount =>
      rw [Reopen.run]
      have hq := quiet_append _ [Event.rand r.val] h rfl
      by_cases hm : monitorCount = 0
      · rw [if_pos hm]
        exact failsAtOnce_of_quiet _ _ hq
      · rw [if_neg hm]
        exact ih _ _ _ hq
    | openWindow fullscreen =>
      rw [Reopen.run]
      by_cases hr : r.ok = false
      · rw [if_pos hr]
        exact (safe_failed_glfwCall _ _ _ _ h (failing_createWindow _ _ hr) (Or.inr rfl)).1
      · rw [if_neg hr]
        exact ih _ _ _ (quiet_append _ _ h (quiet_createWindow _ _ hr))
    | createNvg =>
      rw [Reopen.run]
      by_cases hr : r.ok = false
      · rw [if_pos hr]
        exact (safe_failed_nvg _ h).1
      · rw [if_neg hr]
        exact ih _ _ _ (quiet_append _ [Event.nvgCreateGL2 true] h rfl)
    | timeCheck =>
      rw [Reopen.run]
      have hq := quiet_append _ _ h
        (quiet_other_glfwCall GlfwFn.getTime r (by simp) (by simp))
      by_cases hr : r.ok = true
      · rw [if_pos hr]
        exact ih _ _ _ (quiet_append _ [Event.frame] hq rfl)
      · rw [if_neg hr]
        exact ih _ _ _ (quiet_append _ [Event.destroyWindow] hq rfl)
    | closeCheck =>
      rw [Reopen.run]
      have hq := quiet_append _ _ h (quiet_shouldClose 0 r)
      by_cases hr : r.ok = true
      · rw [if_pos hr]
        exact failsAtOnce_of_quiet _ _
          (quiet_append _ [Event.destroyWindow, Event.terminate] hq rfl)
      · rw [if_neg hr]
        exact ih _ _ _ hq

theorem failsAtOnce_reopen_main (script : List Resp) : FailsAtOnce (Reopen.main script) := by
  unfold Reopen.main
  rcases script with _ | ⟨i, script⟩
  · exact failsAtOnce_of_quiet _ _ rfl
  · rw [init_then]
    have hs : ([] ++ [Event.setErrorCallback]).any isInitFailure = false := rfl
    by_cases hi : i.ok = false
    · rw [if_pos hi]
      have := safe_failed_glfwCall _ [] _ _ hs (failing_init _ hi) (Or.inl rfl)
      rw [List.append_nil] at this
      exact this.1
    · rw [if_neg hi]
      exact failsAtOnce_reopen_run _ _ _ _ (quiet_append _ _ hs (quiet_init _ hi))

/-- C11, the claim as stated fails for reopen: GLFW starts, the first window is opened
and a frame is drawn, the five seconds pass, and the creation of the second window
fails.  The program exits with `EXIT_FAILURE` after an iteration of its draw loop. -/
theorem C11_reopen_fails_after_drawing :
    (runDemo Demo.reopen reopenSecondWindowFails).halt = Halt.exit ExitCode.failure ∧
    (runDemo Demo.reopen reopenSecondWindowFails).log.any isInitFailure = true ∧
    Event.frame ∈ beforeFailure (runDemo Demo.reopen reopenSecondWindowFails).log ∧
    ¬ NoFrameBeforeFailure (runDemo Demo.reopen reopenSecondWindowFails) := by
  unfold NoFrameBeforeFailure
  decide

/-- C11, amended: in every demo, for every outcome of the library calls, if `glfwInit`
returns false or window creation or `nvgCreateGL2` returns `NULL`, the program ends with
`exit(EXIT_FAILURE)`, the failed call being followed by nothing but `glfwTerminate()`
(no further iteration of the draw loop, no second attempt); in every demo other than
reopen no iteration of the draw loop was executed before the failed call either. -/
theorem C11_init_failure_exits_at_once (d : Demo) (script : List Resp) :
    FailsAtOnce (runDemo d script) ∧
    (d ≠ Demo.reopen → NoFrameBeforeFailure (runDemo d script)) := by
  have hnil : ([] : List Event).any isInitFailure = false := rfl
  have hfnil : Event.frame ∉ ([] : List Event) := by simp
  cases d with
  | accuracy =>
    have := safeFrom_init_then _ (safeFrom_window_nvg_loop false [] rfl) script [] hnil
    exact ⟨this.1, fun _ => this.2 hfnil⟩
  | cursor =>
    have := safeFrom_init_then _ (safeFrom_create_cursors Cursor.CURSOR_FRAME_COUNT)
      script [] hnil
    exact ⟨this.1, fun _ => this.2 hfnil⟩
  | gamma =>
    have := safeFrom_init_then (Gamma.options false)
      (fun s l hl => safeFrom_gamma_options s.length s false l (Nat.le_refl _) hl)
      script [] hnil
    exact ⟨this.1, fun _ => this.2 hfnil⟩
  | joysticks =>
    have := safeFrom_init_then _ (safeFrom_window_nvg_loop false [] rfl) script [] hnil
    exact ⟨this.1, fun _ => this.2 hfnil⟩
  | msaa =>
    have := safeFrom_msaa_options script [] hnil
    exact ⟨this.1, fun _ => this.2 hfnil⟩
  | reopen =>
    exact ⟨failsAtOnce_reopen_main script, fun h => absurd rfl h⟩
  | sharing =>
    have := safeFrom_init_then _ safeFrom_sharing_windows script [] hnil
    exact ⟨this.1, fun _ => this.2 hfnil⟩

/-! ## What is written to standard error (C12) -/

theorem exits_of_not_success (log : List Event) (h : Halt)
    (hne : h ≠ Halt.exit ExitCode.success) :
    ExitsOnlyWhenClosing { log := log, halt := h } :=
  fun hs => absurd hs hne

theorem exits_of_check (log post : List Event) (w : Nat) (r : Resp) (hr : r.ok = true)
    (hpost : post.all isTeardown = true) :
    ExitsOnlyWhenClosing
      { log := log ++ glfwCall (GlfwFn.windowShouldClose w) r ++ post
        halt := Halt.exit ExitCode.success } := by
  intro _
  left
  refine ⟨log ++ r.errors.flatMap error_callback, w, r.errors, post, ?_, hpost⟩
  rw [shape_glfwCall, hr]

theorem exits_draw_loop (teardown : List Event) (ht : teardown.all isTeardown = true) :
    ∀ (script : List Resp) (log : List Event),
      ExitsOnlyWhenClosing (draw_loop teardown script log) := by
  intro script
  induction script with
  | nil => intro log; exact exits_of_not_success _ _ (by simp)
  | cons r s ih =>
    intro log
    rw [draw_loop]
    by_cases hr : r.ok = true
    · rw [if_pos hr, List.append_assoc]
      exact exits_of_check log (teardown ++ [Event.terminate]) 0 r hr
        (by rw [List.all_append, ht]; rfl)
    · rw [if_neg hr]
      exact ih _

theorem exits_window_nvg_loop (fullscreen : Bool) (teardown : List Event)
    (ht : teardown.all isTeardown = true) (script : List Resp) (log : List Event) :
    ExitsOnlyWhenClosing (window_nvg_loop fullscreen teardown script log) := by
  rcases script with _ | ⟨w, _ | ⟨n, script⟩⟩
  · exact exits_of_not_success _ _ (by simp)
  · rw [window_nvg_loop]
    by_cases hw : w.ok = false
    · rw [if_pos hw]
      exact exits_of_not_success _ _ (by simp)
    · rw [if_neg hw]
      exact exits_of_not_success _ _ (by simp)
  · rw [window_nvg_loop]
    by_cases hw : w.ok = false
    · rw [if_pos hw]
      exact exits_of_not_success _ _ (by simp)
    · rw [if_neg hw]
      by_cases hn : n.ok = false
      · simp only [hn, if_true]
        exact exits_of_not_success _ _ (by simp)
      · simp only [hn, if_false]
        exact exits_draw_loop teardown ht script _

theorem neverDrew_append (a b : List Event) (ha : NeverDrew a) (hb : NeverDrew b) :
    NeverDrew (a ++ b) := by
  unfold NeverDrew at *
  rw [List.any_append, ha, hb]
  rfl

theorem neverDrew_errors (es : List Int) : NeverDrew (es.flatMap error_callback) := by
  unfold NeverDrew
  induction es with
  | nil => rfl
  | cons c t ih =>
    simp only [List.flatMap_cons, List.any_append, ih, error_callback, List.any_cons,
      List.any_nil, isLoopEvent, Bool.or_false]

theorem neverDrew_glfwCall (f : GlfwFn) (r : Resp) (hf : ∀ w, f ≠ GlfwFn.windowShouldClose w) :
    NeverDrew (glfwCall f r) := by
  unfold glfwCall
  apply neverDrew_append _ _ (neverDrew_errors _)
  unfold NeverDrew
  cases f with
  | windowShouldClose w => exact absurd rfl (hf w)
  | init => rfl
  | getPrimaryMonitor => rfl
  | getMonitors => rfl
  | createCursor => rfl
  | createWindow fs => rfl
  | getTime => rfl

theorem exits_init_then (rest : List Resp → List Event → Run)
    (hrest : ∀ script log, NeverDrew log → ExitsOnlyWhenClosing (rest script log))
    (script : List Resp) (log : List Event) (h : NeverDrew log) :
    ExitsOnlyWhenClosing (init_then rest script log) := by
  rcases script with _ | ⟨i, script⟩
  · exact exits_of_not_success _ _ (by simp)
  · rw [init_then]
    by_cases hi : i.ok = false
    · rw [if_pos hi]
      exact exits_of_not_success _ _ (by simp)
    · rw [if_neg hi]
      exact hrest _ _ (neverDrew_append _ _
        (neverDrew_append _ [Event.setErrorCallback] h rfl)
        (neverDrew_glfwCall _ _ (by simp)))

theorem exits_create_cursors : ∀ (todo : Nat) (script : List Resp) (log : List Event),
    ExitsOnlyWhenClosing (Cursor.create_cursors todo script log) := by
  intro todo
  induction todo with
  | zero =>
    intro script log
    rw [Cursor.create_cursors]
    exact exits_window_nvg_loop false
      [Event.nvgDeleteGL2, Event.destroyWindow, Event.destroyCursors] rfl script log
  | succ k ih =>
    intro script log
    rcases script with _ | ⟨c, script⟩
    · exact exits_of_not_success _ _ (by simp)
    · rw [Cursor.create_cursors]
      by_cases hok : c.ok = false
      · rw [if_pos hok]
        exact exits_of_not_success _ _ (by simp)
      · rw [if_neg hok]
        exact ih _ _

theorem exits_of_neverDrew (log : List Event) (h : Halt) (hn : NeverDrew log) :
    ExitsOnlyWhenClosing { log := log, halt := h } :=
  fun _ => Or.inr hn

theorem exits_gamma_options : ∀ (k : Nat) (script : List Resp) (monitor : Bool)
    (log : List Event), script.length ≤ k → NeverDrew log →
    ExitsOnlyWhenClosing (Gamma.options monitor script log) := by
  intro k
  induction k with
  | zero =>
    intro script monitor log hk h
    have : script = [] := List.length_eq_zero.mp (Nat.le_zero.mp hk)
    subst this
    exact exits_of_not_success _ _ (by simp [Gamma.options])
  | succ k ih =>
    intro script monitor log hk h
    rcases script with _ | ⟨o, script⟩
    · exact exits_of_not_success _ _ (by simp [Gamma.options])
    · rw [Gamma.options.eq_def]
      dsimp only
      by_cases h1 : o.val = -1
      · rw [if_pos h1]
        exact exits_window_nvg_loop monitor [Event.nvgDeleteGL2, Event.destroyWindow]
          rfl script _
      · rw [if_neg h1]
        by_cases h2 : o.val = 104
        · rw [if_pos h2]
          exact exits_of_neverDrew _ _
            (neverDrew_append _ [Event.getopt o.val, Event.usage] h rfl)
        · rw [if_neg h2]
          by_cases h3 : o.val = 102
          · rw [if_pos h3]
            rcases script with _ | ⟨m, script⟩
            · exact exits_of_not_success _ _ (by simp)
            · exact ih script m.ok _ (by simp only [List.length_cons] at hk; omega)
                (neverDrew_append _ _ (neverDrew_append _ [Event.getopt o.val] h rfl)
                  (neverDrew_glfwCall _ _ (by simp)))
          · rw [if_neg h3]
            exact exits_of_not_success _ _ (by simp)

theorem exits_msaa_options : ∀ (script : List Resp) (log : List Event), NeverDrew log →
    ExitsOnlyWhenClosing (Msaa.options script log) := by
  intro script
  induction script with
  | nil => intro log _; exact exits_of_not_success _ _ (by simp [Msaa.options])
  | cons o script ih =>
    intro log h
    rw [Msaa.options]
    have hg : NeverDrew (log ++ [Event.getopt o.val]) :=
      neverDrew_append _ [Event.getopt o.val] h rfl
    by_cases h1 : o.val = -1
    · rw [if_pos h1]
      exact exits_init_then _ (fun s l _ => exits_window_nvg_loop false [] rfl s l) script _ hg
    · rw [if_neg h1]
      by_cases h2 : o.val = 104
      · rw [if_pos h2]
        exact exits_of_neverDrew _ _
          (neverDrew_append _ [Event.getopt o.val, Event.usage] h rfl)
      · rw [if_neg h2]
        by_cases h3 : o.val = 115
        · rw [if_pos h3]
          exact ih _ hg
        · rw [if_neg h3]
          exact exits_of_not_success _ _ (by simp)

theorem exits_sharing_loop : ∀ (k : Nat) (script : List Resp) (log : List Event),
    script.length ≤ k → ExitsOnlyWhenClosing (Sharing.loop script log) := by
  intro k
  induction k with
  | zero =>
    intro script log hk
    have : script = [] := List.length_eq_zero.mp (Nat.le_zero.mp hk)
    subst this
    exact exits_of_not_success _ _ (by simp [Sharing.loop])
  | succ k ih =>
    intro script log hk
    rcases script with _ | ⟨a, _ | ⟨b, script⟩⟩
    · exact exits_of_not_success _ _ (by simp [Sharing.loop])
    · rw [Sharing.loop]
      by_cases hok : a.ok = true
      · rw [if_pos hok]
        exact exits_of_check log [Event.terminate] 0 a hok rfl
      · rw [if_neg hok]
        exact exits_of_not_success _ _ (by simp)
    · rw [Sharing.loop]
      by_cases hok : a.ok = true
      · rw [if_pos hok]
        exact exits_of_check log [Event.terminate] 0 a hok rfl
      · rw [if_neg hok]
        by_cases hbk : b.ok = true
        · simp only [hbk, if_true]
          exact exits_of_check _ [Event.terminate] 1 b hbk rfl
        · simp only [hbk, if_false]
          exact ih _ _ (by simp only [List.length_cons] at hk; omega)

theorem exits_sharing_windows (script : List Resp) (log : List Event) :
    ExitsOnlyWhenClosing (Sharing.windows script log) := by
  rcases script with _ | ⟨w0, script⟩
  · exact exits_of_not_success _ _ (by simp [Sharing.windows])
  rw [Sharing.windows.eq_def]
  dsimp only
  by_cases hw0 : w0.ok = false
  · rw [if_pos hw0]
    exact exits_of_not_success _ _ (by simp)
  rw [if_neg hw0]
  rcases script with _ | ⟨n, script⟩
  · exact exits_of_not_success _ _ (by simp)
  by_cases hn : n.ok = false
  · simp only [hn, if_true]
    exact exits_of_not_success _ _ (by simp)
  simp only [hn, if_false]
  rcases script with _ | ⟨w1, script⟩
  · exact exits_of_not_success _ _ (by simp)
  by_cases hw1 : w1.ok = false
  · simp only [hw1, if_true]
    exact exits_of_not_success _ _ (by simp)
  simp only [hw1, if_false]
  exact exits_sharing_loop _ script _ (Nat.le_refl _)

theorem exits_reopen_run : ∀ (script : List Resp) (phase : Reopen.Phase) (count : Int)
    (log : List Event), ExitsOnlyWhenClosing (Reopen.run phase count script log) := by
  intro script
  induction script with
  | nil =>
    intro phase count log
    cases phase <;> exact exits_of_not_success _ _ (by simp [Reopen.run])
  | cons r script ih =>
    intro phase count log
    cases phase with
    | getMonitors =>
      rw [Reopen.run]
      exact ih _ _ _
    | pickMonitor monitorCount =>
      rw [Reopen.run]
      by_cases hm : monitorCount = 0
      · rw [if_pos hm]
        exact exits_of_not_success _ _ (by simp)
      · rw [if_neg hm]
        exact ih _ _ _
    | openWindow fullscreen =>
      rw [Reopen.run]
      by_cases hr : r.ok = false
      · rw [if_pos hr]
        exact exits_of_not_success _ _ (by simp)
      · rw [if_neg hr]
        exact ih _ _ _
    | createNvg =>
      rw [Reopen.run]
      by_cases hr : r.ok = false
      · rw [if_pos hr]
        exact exits_of_not_success _ _ (by simp)
      · rw [if_neg hr]
        exact ih _ _ _
    | timeCheck =>
      rw [Reopen.run]
      by_cases hr : r.ok = true
      · rw [if_pos hr]
        exact ih _ _ _
      · rw [if_neg hr]
        exact ih _ _ _
    | closeCheck =>
      rw [Reopen.run]
      by_cases hr : r.ok = true
      · rw [if_pos hr]
        exact exits_of_check log [Event.destroyWindow, Event.terminate] 0 r hr rfl
      · rw [if_neg hr]
        exact ih _ _ _

/-- C13: a demo never reaches its success exit from inside its draw loop while the
should-close flag is clear.  Every run that ends with `exit(EXIT_SUCCESS)` either never
entered the draw loop (the usage exit of gamma and msaa), or ends with a read of the
should-close flag of one of its windows that returned true, followed by teardown calls
only: accuracy, cursor, gamma, joysticks and msaa leave the loop on the flag of their
window, sharing on the flag of one of its two windows, and reopen exits successfully
only from the branch that read the flag as true (a run of the timer alone re-opens the
window and goes on).  Such runs exist: accuracy with the flag clear at the first test
and set at the second draws one frame and exits with `EXIT_SUCCESS`. -/
theorem C13_success_exit_only_when_closing (d : Demo) (script : List Resp) :
    ExitsOnlyWhenClosing (runDemo d script) ∧
    ((runDemo Demo.accuracy accuracyCloses).halt = Halt.exit ExitCode.success ∧
      Event.frame ∈ (runDemo Demo.accuracy accuracyCloses).log) := by
  refine ⟨?_, by decide⟩
  have h0 : NeverDrew [] := rfl
  cases d with
  | accuracy =>
    exact exits_init_then _ (fun s l _ => exits_window_nvg_loop false [] rfl s l) script [] h0
  | cursor =>
    exact exits_init_then _ (fun s l _ => exits_create_cursors _ s l) script [] h0
  | gamma =>
    exact exits_init_then (Gamma.options false)
      (fun s l hl => exits_gamma_options s.length s false l (Nat.le_refl _) hl) script [] h0
  | joysticks =>
    exact exits_init_then _ (fun s l _ => exits_window_nvg_loop false [] rfl s l) script [] h0
  | msaa => exact exits_msaa_options script [] h0
  | reopen =>
    exact exits_init_then _ (fun s l _ => exits_reopen_run s _ _ l) script [] h0
  | sharing =>
    exact exits_init_then _ (fun s l _ => exits_sharing_windows s l) script [] h0

/-! ## The windows of reopen (C14) -/

theorem windowModes_append (a b : List Event) :
    windowModes (a ++ b) = windowModes a ++ windowModes b := by
  simp [windowModes]

theorem windowModes_errors (es : List Int) : windowModes (es.flatMap error_callback) = [] := by
  induction es with
  | nil => rfl
  | cons c t ih =>
    rw [List.flatMap_cons, windowModes_append, ih]
    rfl

theorem windowModes_createWindow (log : List Event) (fs : Bool) (r : Resp) :
    windowModes (log ++ glfwCall (GlfwFn.createWindow fs) r) = windowModes log ++ [fs] := by
  rw [windowModes_append, glfwCall, windowModes_append, windowModes_errors]
  rfl

theorem windowModes_other (log : List Event) (f : GlfwFn) (r : Resp)
    (hf : ∀ fs, f ≠ GlfwFn.createWindow fs) :
    windowModes (log ++ glfwCall f r) = windowModes log := by
  rw [windowModes_append, glfwCall, windowModes_append, windowModes_errors]
  cases f with
  | createWindow fs => exact absurd rfl (hf fs)
  | init => simp [windowModes]
  | getPrimaryMonitor => simp [windowModes]
  | getMonitors => simp [windowModes]
  | createCursor => simp [windowModes]
  | windowShouldClose w => simp [windowModes]
  | getTime => simp [windowModes]

theorem alternates_snoc (modes : List Bool) (fs : Bool) (h : Alternates modes)
    (hfs : fs = true ↔ modes.length % 2 = 0) : Alternates (modes ++ [fs]) := by
  intro n b hn
  by_cases hlt : n < modes.length
  · rw [List.getElem?_append_left hlt] at hn
    exact h n b hn
  · have hge : modes.length ≤ n := Nat.le_of_not_lt hlt
    rw [List.getElem?_append_right hge] at hn
    have hn0 : n - modes.length = 0 := by
      by_contra hne
      have : 1 ≤ n - modes.length := Nat.one_le_iff_ne_zero.mpr hne
      rw [List.getElem?_eq_none (by simpa using this)] at hn
      cases hn
    rw [hn0] at hn
    simp only [List.getElem?_cons_zero, Option.some.injEq] at hn
    have hnm : n = modes.length := by omega
    rw [← hn, hnm]
    exact hfs

theorem loopHead_even (count : Int) (h : count % 2 = 0) :
    Reopen.loopHead count = Reopen.Phase.getMonitors := by
  unfold Reopen.loopHead
  rw [if_pos]
  exact Int.tmod_eq_zero_of_dvd (Int.dvd_of_emod_eq_zero h)

theorem loopHead_odd (count : Int) (h : count % 2 ≠ 0) :
    Reopen.loopHead count = Reopen.Phase.openWindow false := by
  unfold Reopen.loopHead
  rw [if_neg]
  intro ht
  exact h (Int.emod_eq_zero_of_dvd (Int.dvd_of_tmod_eq_zero ht))

theorem inv_loopHead (count : Int) (modes : List Bool) (hA : Alternates modes)
    (hc : count = wrapInt32 (modes.length - 1)) :
    Reopen.Inv (Reopen.loopHead (wrapInt32 (count + 1))) (wrapInt32 (count + 1)) modes := by
  have hw : wrapInt32 (count + 1) = wrapInt32 modes.length := by
    rw [hc]
    unfold wrapInt32
    omega
  have hpar : wrapInt32 (modes.length : Int) % 2 = (modes.length : Int) % 2 := by
    unfold wrapInt32
    omega
  rw [hw]
  by_cases he : modes.length % 2 = 0
  · rw [loopHead_even _ (by rw [hpar]; omega)]
    exact ⟨hA, rfl, he⟩
  · rw [loopHead_odd _ (by rw [hpar]; omega)]
    refine ⟨hA, rfl, ?_⟩
    constructor
    · intro hf
      cases hf
    · intro h
      exact absurd h he

/-- The windows asked for by the `for (;;)` loop of reopen alternate. -/
theorem alternates_reopen_run : ∀ (script : List Resp) (phase : Reopen.Phase) (count : Int)
    (log : List Event), Reopen.Inv phase count (windowModes log) →
    Alternates (windowModes (Reopen.run phase count script log).log) := by
  intro script
  induction script with
  | nil =>
    intro phase count log h
    cases phase <;> exact h.1
  | cons r script ih =>
    intro phase count log h
    cases phase with
    | getMonitors =>
      rw [Reopen.run]
      apply ih
      rw [windowModes_other _ _ _ (by simp)]
      exact h
    | pickMonitor monitorCount =>
      rw [Reopen.run]
      have hm : windowModes (log ++ [Event.rand r.val]) = windowModes log := by
        rw [windowModes_append]
        simp [windowModes]
      by_cases hz : monitorCount = 0
      · rw [if_pos hz]
        simp only [hm]
        exact h.1
      · rw [if_neg hz]
        apply ih
        rw [hm]
        exact ⟨h.1, h.2.1, ⟨fun _ => h.2.2, fun _ => rfl⟩⟩
    | openWindow fullscreen =>
      rw [Reopen.run]
      have hA := alternates_snoc _ fullscreen h.1 h.2.2
      by_cases hr : r.ok = false
      · rw [if_pos hr]
        simp only [windowModes_append] at hA ⊢
        rw [← windowModes_append, windowModes_createWindow]
        simpa [windowModes] using hA
      · rw [if_neg hr]
        apply ih
        rw [windowModes_createWindow]
        refine ⟨hA, by simp, ?_⟩
        have := h.2.1
        simp only [List.length_append, List.length_singleton, Nat.cast_add, Nat.cast_one]
        rw [this]
        congr 1
        omega
    | createNvg =>
      rw [Reopen.run]
      have hm : ∀ b, windowModes (log ++ [Event.nvgCreateGL2 b]) = windowModes log := by
        intro b
        rw [windowModes_append]
        simp [windowModes]
      by_cases hr : r.ok = false
      · rw [if_pos hr]
        have : windowModes (log ++ [Event.nvgCreateGL2 false, Event.terminate])
            = windowModes log := by
          rw [windowModes_append]
          simp [windowModes]
        simp only [this]
        exact h.1
      · rw [if_neg hr]
        apply ih
        rw [hm]
        exact h
    | timeCheck =>
      rw [Reopen.run]
      have hm1 : windowModes (log ++ glfwCall GlfwFn.getTime r ++ [Event.frame])
          = windowModes log := by
        rw [windowModes_append, windowModes_other _ _ _ (by simp)]
        simp [windowModes]
      have hm2 : windowModes (log ++ glfwCall GlfwFn.getTime r ++ [Event.destroyWindow])
          = windowModes log := by
        rw [windowModes_append, windowModes_other _ _ _ (by simp)]
        simp [windowModes]
      by_cases hr : r.ok = true
      · rw [if_pos hr]
        apply ih
        rw [hm1]
        exact h
      · rw [if_neg hr]
        apply ih
        rw [hm2]
        exact inv_loopHead count _ h.1 h.2.2
    | closeCheck =>
      rw [Reopen.run]
      by_cases hr : r.ok = true
      · rw [if_pos hr]
        have : windowModes (log ++ glfwCall (GlfwFn.windowShouldClose 0) r
            ++ [Event.destroyWindow, Event.terminate]) = windowModes log := by
          rw [windowModes_append, windowModes_other _ _ _ (by simp)]
          simp [windowModes]
        simp only [this]
        exact h.1
      · rw [if_neg hr]
        apply ih
        rw [windowModes_other _ _ _ (by simp)]
        exact h

/-- C14: reopen alternates between full screen and windowed mode.  For every `n`, the
window number `n` it asks for (counting from 0) is created on a monitor exactly when `n`
is even and with no monitor exactly when `n` is odd; so the first window is full screen
and two windows opened one after the other differ in mode. -/
theorem C14_reopen_alternates_modes (script : List Resp) :
    Alternates (windowModes (Reopen.main script).log) ∧
    (∀ fs, (windowModes (Reopen.main script).log)[0]? = some fs → fs = true) ∧
    (∀ n a b, (windowModes (Reopen.main script).log)[n]? = some a →
      (windowModes (Reopen.main script).log)[n + 1]? = some b → a ≠ b) ∧
    windowModes (Reopen.main reopenSecondWindowFails).log = [true, false] := by
  have hA : Alternates (windowModes (Reopen.main script).log) := by
    unfold Reopen.main
    rcases script with _ | ⟨i, script⟩
    · intro n fs hn
      simp [init_then, windowModes] at hn
    · rw [init_then]
      have hm : windowModes ([] ++ [Event.setErrorCallback] ++ glfwCall GlfwFn.init i) = [] := by
        rw [windowModes_other _ _ _ (by simp)]
        rfl
      by_cases hi : i.ok = false
      · rw [if_pos hi]
        simp only [hm]
        intro n fs hn
        simp at hn
      · rw [if_neg hi]
        apply alternates_reopen_run
        rw [hm]
        refine ⟨?_, ?_⟩
        · intro n fs hn
          simp at hn
        · rw [loopHead_even 0 (by decide)]
          exact ⟨by decide, by decide⟩
  refine ⟨hA, ?_, ?_, by decide⟩
  · intro fs h0
    exact (hA 0 fs h0).mpr rfl
  · intro n a b ha hb hab
    subst hab
    have h1 := hA n a ha
    have h2 := hA (n + 1) a hb
    cases a with
    | true =>
      have := h1.mp rfl
      have := h2.mp rfl
      omega
    | false =>
      by_cases he : n % 2 = 0
      · have := h1.mpr he
        cases this
      · have := h2.mpr (by omega)
        cases this

/-! # The joysticks demo (C15) -/

namespace Joysticks

theorem memcpy_full {α : Type} (dst src : List α) (h : dst.length = src.length) :
    memcpy dst src src.length = some src := by
  unfold memcpy
  rw [if_pos (by omega)]
  simp [List.drop_eq_nil_of_le (Nat.le_of_eq h)]

/-- The `realloc`-then-`memcpy` step of `refresh_joysticks` for one buffer: when it goes
through, the buffer holds exactly the reported array. -/
theorem block_copy_eq {α : Type} (ok : Bool) (old src : List α) (cnt : Int) (fill : α)
    (out : List α) (hcap : (old.length : Int) = cnt)
    (h : (if (src.length : Int) ≠ cnt then realloc ok old src.length fill
          else some old).bind (fun b => memcpy b src src.length) = some out) :
    out = src := by
  by_cases hne : (src.length : Int) ≠ cnt
  · rw [if_pos hne] at h
    unfold realloc at h
    by_cases h0 : src.length = 0
    · rw [if_pos h0] at h
      have hs : src = [] := List.length_eq_zero.mp h0
      subst hs
      simp [memcpy] at h
      exact h
    · rw [if_neg h0] at h
      by_cases hok : ok = true
      · rw [if_pos hok] at h
        simp only [Option.some_bind] at h
        rw [memcpy_full _ _ (by simp; omega)] at h
        exact (Option.some.inj h).symm
      · rw [if_neg hok] at h
        cases h
  · rw [if_neg hne] at h
    simp only [Option.some_bind] at h
    rw [memcpy_full _ _ (by omega)] at h
    exact (Option.some.inj h).symm

/-- The `realloc`-then-`memcpy` step goes through when the allocation succeeds. -/
theorem block_copy_ok {α : Type} (old src : List α) (cnt : Int) (fill : α)
    (hcap : (old.length : Int) = cnt) :
    (if (src.length : Int) ≠ cnt then realloc true old src.length fill
      else some old).bind (fun b => memcpy b src src.length) = some src := by
  by_cases hne : (src.length : Int) ≠ cnt
  · rw [if_pos hne]
    unfold realloc
    by_cases h0 : src.length = 0
    · rw [if_pos h0]
      have hs : src = [] := List.length_eq_zero.mp h0
      subst hs
      simp [memcpy]
    · rw [if_neg h0, if_pos rfl]
      simp only [Option.some_bind]
      exact memcpy_full _ _ (by simp; omega)
  · rw [if_neg hne]
    simp only [Option.some_bind]
    exact memcpy_full _ _ (by omega)

theorem slotInv_zero : SlotInv zeroJoystick :=
  ⟨fun _ => rfl, rfl, rfl⟩

/-- One slot of `refresh_joysticks`: the slot afterwards matches the library's answer
and keeps the slot invariant, and `joystick_count` moves with the `present` flag. -/
theorem refresh_slot_spec (r : Report) (j j1 : Joystick) (c c1 : Int) (hj : SlotInv j)
    (hc : -1000 ≤ c ∧ c ≤ 1000) (h : refresh_slot r j c = some (j1, c1)) :
    SlotInv j1 ∧ SlotMatches r j1 ∧
    c1 - (if j1.present = true then 1 else 0) = c - (if j.present = true then 1 else 0) := by
  unfold refresh_slot at h
  by_cases hp : r.present = true
  · rw [if_pos hp] at h
    dsimp only at h
    split at h
    · rename_i axes buttons hax hbu
      have ha := block_copy_eq _ _ _ _ _ _ hj.2.1 hax
      have hb := block_copy_eq _ _ _ _ _ _ hj.2.2 hbu
      simp only [Option.some.injEq, Prod.mk.injEq] at h
      obtain ⟨hj1, hc1⟩ := h
      subst hj1
      subst ha
      subst hb
      have hac : (if (r.axes.length : Int) ≠ j.axis_count then (r.axes.length : Int)
          else j.axis_count) = r.axes.length := by
        split_ifs with hx
        · rfl
        · exact (not_not.mp hx).symm
      have hbc : (if (r.buttons.length : Int) ≠ j.button_count then (r.buttons.length : Int)
          else j.button_count) = r.buttons.length := by
        split_ifs with hx
        · rfl
        · exact (not_not.mp hx).symm
      refine ⟨⟨fun hf => (by cases hf), ?_, ?_⟩, ⟨hp.symm, ?_, ?_⟩, ?_⟩
      · exact hac.symm
      · exact hbc.symm
      · intro _
        exact ⟨hac, hbc, rfl, rfl⟩
      · intro hf
        rw [hp] at hf
        cases hf
      · rw [← hc1]
        by_cases hjp : j.present = true
        · simp [hjp]
        · simp only [Bool.not_eq_true] at hjp
          simp only [hjp, if_true]
          unfold wrapInt32
          simp
          omega
    · cases h
  · rw [if_neg hp] at h
    simp only [Bool.not_eq_true] at hp
    by_cases hjp : j.present = true
    · rw [if_pos hjp] at h
      simp only [Option.some.injEq, Prod.mk.injEq] at h
      obtain ⟨hj1, hc1⟩ := h
      subst hj1
      refine ⟨slotInv_zero, ⟨hp.symm, ?_, fun _ => rfl⟩, ?_⟩
      · intro hf
        rw [hp] at hf
        cases hf
      · rw [← hc1]
        unfold wrapInt32
        simp [hjp, zeroJoystick]
        omega
    · rw [if_neg hjp] at h
      simp only [Option.some.injEq, Prod.mk.injEq] at h
      obtain ⟨hj1, hc1⟩ := h
      subst hj1
      simp only [Bool.not_eq_true] at hjp
      refine ⟨hj, ⟨hjp.trans hp.symm, ?_, fun _ => hj.1 hjp⟩, ?_⟩
      · intro hf
        rw [hp] at hf
        cases hf
      · rw [hc1]

theorem presentCount_cons (j : Joystick) (js : List Joystick) :
    presentCount (j :: js) = (if j.present = true then 1 else 0) + presentCount js := by
  unfold presentCount
  by_cases h : j.present = true
  · simp [List.filter, h]
    omega
  · simp [List.filter, h]

theorem presentCount_le (js : List Joystick) : presentCount js ≤ js.length := by
  unfold presentCount
  exact List.length_filter_le _ _

/-- The loop of `refresh_joysticks`: every slot afterwards matches the library's answer
for its index, and `joystick_count` moves with the number of present slots. -/
theorem refresh_from_spec (env : Nat → Report) : ∀ (js : List Joystick) (i : Nat) (c : Int)
    (js1 : List Joystick) (c1 : Int), (∀ j ∈ js, SlotInv j) →
    (-(1000 - (js.length : Int)) ≤ c ∧ c ≤ 1000 - (js.length : Int)) →
    refresh_from env i js c = some (js1, c1) →
    js1.length = js.length ∧
    c1 - (presentCount js1 : Int) = c - (presentCount js : Int) ∧
    (∀ k j1, js1[k]? = some j1 → SlotInv j1 ∧ SlotMatches (env (i + k)) j1) := by
  intro js
  induction js with
  | nil =>
    intro i c js1 c1 _ _ h
    simp only [refresh_from, Option.some.injEq, Prod.mk.injEq] at h
    obtain ⟨h1, h2⟩ := h
    subst h1
    subst h2
    refine ⟨rfl, rfl, ?_⟩
    intro k j1 hk
    simp at hk
  | cons j rest ih =>
    intro i c js1 c1 hinv hc h
    rw [refresh_from] at h
    simp only [List.length_cons, Nat.cast_add, Nat.cast_one] at hc
    cases hs : refresh_slot (env i) j c with
    | none => rw [hs] at h; cases h
    | some res =>
      obtain ⟨j1, c'⟩ := res
      rw [hs] at h
      dsimp only at h
      have hslot := refresh_slot_spec (env i) j j1 c c' (hinv j (List.mem_cons_self _ _))
        (by omega) hs
      have hc' : -(1000 - (rest.length : Int)) ≤ c' ∧ c' ≤ 1000 - (rest.length : Int) := by
        have := hslot.2.2
        split_ifs at this <;> omega
      cases hr : refresh_from env (i + 1) rest c' with
      | none => rw [hr] at h; cases h
      | some res2 =>
        obtain ⟨rest1, c2⟩ := res2
        rw [hr] at h
        simp only [Option.some.injEq, Prod.mk.injEq] at h
        obtain ⟨h1, h2⟩ := h
        subst h1
        subst h2
        have hrest := ih (i + 1) c' rest1 c2
          (fun x hx => hinv x (List.mem_cons_of_mem _ hx)) hc' hr
        refine ⟨by simp [hrest.1], ?_, ?_⟩
        · rw [presentCount_cons, presentCount_cons]
          have h3 := hslot.2.2
          have h4 := hrest.2.1
          push_cast
          split_ifs at h3 ⊢ <;> omega
        · intro k x hk
          cases k with
          | zero =>
            simp only [List.getElem?_cons_zero, Option.some.injEq] at hk
            subst hk
            exact ⟨hslot.1, hslot.2.1⟩
          | succ k =>
            simp only [List.getElem?_cons_succ] at hk
            have := hrest.2.2 k x hk
            rw [show i + (k + 1) = i + 1 + k by omega]
            exact this

/-- The loop of `refresh_joysticks` runs to its end when the allocations succeed. -/
theorem refresh_from_ok (env : Nat → Report) : ∀ (js : List Joystick) (i : Nat) (c : Int),
    (∀ j ∈ js, SlotInv j) →
    (∀ k, k < js.length → (env (i + k)).axesAlloc = true ∧ (env (i + k)).buttonsAlloc = true) →
    ∃ res, refresh_from env i js c = some res := by
  intro js
  induction js with
  | nil =>
    intro i c _ _
    exact ⟨_, rfl⟩
  | cons j rest ih =>
    intro i c hinv hok
    have hj := hinv j (List.mem_cons_self _ _)
    have h0 := hok 0 (by simp)
    rw [Nat.add_zero] at h0
    have hslot : ∃ res, refresh_slot (env i) j c = some res := by
      unfold refresh_slot
      by_cases hp : (env i).present = true
      · rw [if_pos hp]
        dsimp only
        rw [h0.1, h0.2, block_copy_ok _ _ _ _ hj.2.1, block_copy_ok _ _ _ _ hj.2.2]
        exact ⟨_, rfl⟩
      · rw [if_neg hp]
        by_cases hjp : j.present = true
        · rw [if_pos hjp]
          exact ⟨_, rfl⟩
        · rw [if_neg hjp]
          exact ⟨_, rfl⟩
    obtain ⟨⟨j1, c'⟩, hs⟩ := hslot
    obtain ⟨⟨rest1, c2⟩, hr⟩ := ih (i + 1) c' (fun x hx => hinv x (List.mem_cons_of_mem _ hx))
      (fun k hk => by
        have := hok (k + 1) (by simp only [List.length_cons]; omega)
        rw [show i + 1 + k = i + (k + 1) by omega]
        exact this)
    exact ⟨(j1 :: rest1, c2), by rw [refresh_from, hs]; dsimp only; rw [hr]⟩

theorem stateInv_initial : StateInv initial := by
  refine ⟨by decide, ?_, by decide⟩
  intro j hj
  have : j = zeroJoystick := List.eq_of_mem_replicate hj
  rw [this]
  exact slotInv_zero

/-- A call of `refresh_joysticks` keeps the state invariant and makes every slot match
the library's answer. -/
theorem refresh_joysticks_spec (env : Nat → Report) (s s1 : State) (hs : StateInv s)
    (h : refresh_joysticks env s = some s1) :
    StateInv s1 ∧ ∀ i j1, s1.joysticks[i]? = some j1 → SlotMatches (env i) j1 := by
  unfold refresh_joysticks at h
  cases hr : refresh_from env 0 s.joysticks s.joystick_count with
  | none => rw [hr] at h; cases h
  | some res =>
    obtain ⟨js1, c1⟩ := res
    rw [hr] at h
    simp only [Option.some.injEq] at h
    subst h
    have hle := presentCount_le s.joysticks
    have hlen : s.joysticks.length = 16 := hs.1
    have hspec := refresh_from_spec env s.joysticks 0 s.joystick_count js1 c1 hs.2.1
      (by rw [hs.2.2, hlen]; omega) hr
    refine ⟨⟨hspec.1.trans hs.1, ?_, ?_⟩, ?_⟩
    · intro j hj
      obtain ⟨k, hk⟩ := List.getElem?_of_mem hj
      exact (hspec.2.2 k j hk).1
    · have := hspec.2.1
      rw [hs.2.2] at this
      show c1 = (presentCount js1 : Int)
      omega
    · intro i j1 hi
      have := (hspec.2.2 i j1 hi).2
      rwa [Nat.zero_add] at this

theorem stateInv_of_reachable (s : State) (h : Reachable s) : StateInv s := by
  induction h with
  | start => exact stateInv_initial
  | refresh env s s1 _ hr ih => exact (refresh_joysticks_spec env s s1 ih hr).1

/-- C15: after every call of `refresh_joysticks` (from a state the demo can be in), for
every slot `i`: the `present` flag is true exactly when `glfwJoystickPresent` reported
the slot as present during the call; for a present slot `axis_count` and `button_count`
are the counts just reported and the `axes` and `buttons` buffers are the reported
arrays, element for element, in buffers of exactly that capacity; a slot that is not
present is all zero.  The call returns whenever its two `realloc` calls per slot
succeed. -/
theorem C15_refresh_matches_reports (s : State) (env : Nat → Report) (hs : Reachable s) :
    (∀ s1, refresh_joysticks env s = some s1 →
      s1.joysticks.length = slotCount ∧
      ∀ i j1, s1.joysticks[i]? = some j1 →
        j1.present = (env i).present ∧
        ((env i).present = true →
          j1.axis_count = ((env i).axes.length : Int) ∧
          j1.button_count = ((env i).buttons.length : Int) ∧
          j1.axes = (env i).axes ∧ j1.buttons = (env i).buttons) ∧
        ((env i).present = false → j1 = zeroJoystick)) ∧
    ((∀ i, i < slotCount → (env i).axesAlloc = true ∧ (env i).buttonsAlloc = true) →
      ∃ s1, refresh_joysticks env s = some s1) := by
  have hinv := stateInv_of_reachable s hs
  constructor
  · intro s1 h
    have := refresh_joysticks_spec env s s1 hinv h
    exact ⟨this.1.1, this.2⟩
  · intro hok
    obtain ⟨⟨js1, c1⟩, hr⟩ := refresh_from_ok env s.joysticks 0 s.joystick_count hinv.2.1
      (fun k hk => by
        rw [Nat.zero_add]
        exact hok k (by rw [← hinv.1]; exact hk))
    exact ⟨_, by unfold refresh_joysticks; rw [hr]⟩

/-- C15 at a concrete input: the initial state and the answers `oneJoystick`. -/
theorem C15_refresh_matches_reports_witness :
    Reachable initial ∧
    (∀ s1, refresh_joysticks oneJoystick initial = some s1 →
      s1.joysticks.length = slotCount ∧
      ∀ i j1, s1.joysticks[i]? = some j1 →
        j1.present = (oneJoystick i).present ∧
        ((oneJoystick i).present = true →
          j1.axis_count = ((oneJoystick i).axes.length : Int) ∧
          j1.button_count = ((oneJoystick i).buttons.length : Int) ∧
          j1.axes = (oneJoystick i).axes ∧ j1.buttons = (oneJoystick i).buttons) ∧
        ((oneJoystick i).present = false → j1 = zeroJoystick)) ∧
    ((∀ i, i < slotCount →
        (oneJoystick i).axesAlloc = true ∧ (oneJoystick i).buttonsAlloc = true) →
      ∃ s1, refresh_joysticks oneJoystick initial = some s1) :=
  ⟨Reachable.start, C15_refresh_matches_reports initial oneJoystick Reachable.start⟩

/-- C17: `joystick_count` always equals the number of slots whose `present` flag is set.
The equality holds in the initial all-zero state and in every state the demo can be in,
and every call of `refresh_joysticks` that returns keeps it, whatever joysticks appear
and disappear; so `0 ≤ joystick_count ≤` the number of slots. -/
theorem C17_joystick_count_is_present_count (s s1 : State) (env : Nat → Report)
    (hs : Reachable s) (h : refresh_joysticks env s = some s1) :
    initial.joystick_count = presentCount initial.joysticks ∧
    s.joystick_count = presentCount s.joysticks ∧
    s1.joystick_count = presentCount s1.joysticks ∧
    0 ≤ s1.joystick_count ∧ s1.joystick_count ≤ slotCount ∧
    s1.joysticks.length = slotCount := by
  have hinv := stateInv_of_reachable s hs
  have hinv1 := (refresh_joysticks_spec env s s1 hinv h).1
  have hle := presentCount_le s1.joysticks
  have hlen : s1.joysticks.length = slotCount := hinv1.1
  refine ⟨by decide, hinv.2.2, hinv1.2.2, ?_, ?_, hlen⟩
  · rw [hinv1.2.2]
    omega
  · rw [hinv1.2.2]
    have : presentCount s1.joysticks ≤ slotCount := by omega
    exact_mod_cast this

/-- C17 at a concrete input: the initial state, a joystick appearing in slot 0. -/
theorem C17_joystick_count_is_present_count_witness :
    (Reachable initial ∧ refresh_joysticks oneJoystick initial = some afterOneJoystick) ∧
    (initial.joystick_count = presentCount initial.joysticks ∧
      initial.joystick_count = presentCount initial.joysticks ∧
      afterOneJoystick.joystick_count = presentCount afterOneJoystick.joysticks ∧
      0 ≤ afterOneJoystick.joystick_count ∧ afterOneJoystick.joystick_count ≤ slotCount ∧
      afterOneJoystick.joysticks.length = slotCount) :=
  ⟨⟨Reachable.start, by decide⟩,
    C17_joystick_count_is_present_count initial afterOneJoystick oneJoystick Reachable.start
      (by decide)⟩

/-- C18: in every state the demo can be in, no integer division of the drawing code has a
zero divisor: `draw_joysticks` evaluates `height / joystick_count` only for a slot whose
`present` flag is set, in which case `joystick_count ≥ 1`, and `draw_joystick` evaluates
`width / axis_count` and `width / button_count` only when that count is not zero (its
two other divisions are by 4). -/
theorem C18_no_division_by_zero (s : State) (width height : Int) (hs : Reachable s) :
    (∀ p ∈ draw_joysticks s width height, p.2 ≠ 0) ∧
    ((∃ j ∈ s.joysticks, j.present = true) → 1 ≤ s.joystick_count) ∧
    (∀ j w h, ∀ p ∈ draw_joystick j w h, p.2 ≠ 0) := by
  have hinv := stateInv_of_reachable s hs
  have hdj : ∀ (j : Joystick) (w h : Int), ∀ p ∈ draw_joystick j w h, p.2 ≠ 0 := by
    intro j w h p hp
    unfold draw_joystick at hp
    simp only [List.mem_append, List.mem_cons, List.mem_singleton, List.not_mem_nil,
      or_false] at hp
    rcases hp with ((hp | hp) | hp) | hp
    · rw [hp]; exact (by decide : (4 : Int) ≠ 0)
    · rw [hp]; exact (by decide : (4 : Int) ≠ 0)
    · split_ifs at hp with hz
      · simp only [List.mem_singleton] at hp
        rw [hp]; exact hz
      · cases hp
    · split_ifs at hp with hz
      · simp only [List.mem_singleton] at hp
        rw [hp]; exact hz
      · cases hp
  have hpos : (∃ j ∈ s.joysticks, j.present = true) → 1 ≤ s.joystick_count := by
    rintro ⟨j, hj, hp⟩
    rw [hinv.2.2]
    have : 0 < presentCount s.joysticks := by
      unfold presentCount
      exact List.length_pos_of_mem (List.mem_filter.mpr ⟨hj, hp⟩)
    omega
  refine ⟨?_, hpos, hdj⟩
  intro p hp
  unfold draw_joysticks at hp
  rw [List.mem_flatMap] at hp
  obtain ⟨j, hj, hp⟩ := hp
  by_cases hpr : j.present = true
  · rw [if_pos hpr] at hp
    have h1 := hpos ⟨j, hj, hpr⟩
    simp only [List.mem_append, List.mem_singleton] at hp
    rcases hp with (hp | hp) | hp
    · rw [hp]; show s.joystick_count ≠ 0; omega
    · exact hdj _ _ _ p hp
    · rw [hp]; show s.joystick_count ≠ 0; omega
  · rw [if_neg hpr] at hp
    cases hp

/-- C18 at a concrete input: the state with one joystick in slot 0, a 640 by 480
framebuffer. -/
theorem C18_no_division_by_zero_witness :
    Reachable afterOneJoystick ∧
    ((∀ p ∈ draw_joysticks afterOneJoystick 640 480, p.2 ≠ 0) ∧
      ((∃ j ∈ afterOneJoystick.joysticks, j.present = true) →
        1 ≤ afterOneJoystick.joystick_count) ∧
      (∀ j w h, ∀ p ∈ draw_joystick j w h, p.2 ≠ 0)) :=
  ⟨Reachable.refresh oneJoystick initial afterOneJoystick Reachable.start (by decide),
    C18_no_division_by_zero afterOneJoystick 640 480
      (Reachable.refresh oneJoystick initial afterOneJoystick Reachable.start (by decide))⟩

end Joysticks

/-! # Key callbacks (C16, C19, C20) -/

theorem wrap_toggle (x : Int) (h : x = 0 ∨ x = 1) :
    wrapInt32 (1 - x) = 1 - x ∧ (wrapInt32 (1 - x) = 0 ∨ wrapInt32 (1 - x) = 1) := by
  unfold wrapInt32
  omega

theorem accuracy_key_step (s : Accuracy.State) (key : Key) (action : Action)
    (h : s.swap_interval = 0 ∨ s.swap_interval = 1) :
    (Accuracy.key_callback s key action).swap_interval = 0 ∨
    (Accuracy.key_callback s key action).swap_interval = 1 := by
  unfold Accuracy.key_callback
  split_ifs
  · exact (wrap_toggle _ h).2
  · exact h

theorem accuracy_keys_range (events : List (Key × Action)) : ∀ (s : Accuracy.State),
    (s.swap_interval = 0 ∨ s.swap_interval = 1) →
    ((events.foldl (fun s e => Accuracy.key_callback s e.1 e.2) s).swap_interval = 0 ∨
     (events.foldl (fun s e => Accuracy.key_callback s e.1 e.2) s).swap_interval = 1) := by
  induction events with
  | nil => intro s h; exact h
  | cons e t ih =>
    intro s h
    exact ih _ (accuracy_key_step s e.1 e.2 h)

theorem cursor_key_step (s : Cursor.State) (key : Key) (action : Action)
    (h : s.swap_interval = 0 ∨ s.swap_interval = 1) :
    (Cursor.key_callback s key action).swap_interval = 0 ∨
    (Cursor.key_callback s key action).swap_interval = 1 := by
  unfold Cursor.key_callback
  by_cases ha : action ≠ Action.press
  · rw [if_pos ha]
    exact h
  · rw [if_neg ha]
    cases key <;> simp only [Cursor.caseN] <;> (try split_ifs) <;>
      first
      | exact h
      | exact (wrap_toggle _ h).2

theorem cursor_keys_range (events : List (Key × Action)) : ∀ (s : Cursor.State),
    (s.swap_interval = 0 ∨ s.swap_interval = 1) →
    ((events.foldl (fun s e => Cursor.key_callback s e.1 e.2) s).swap_interval = 0 ∨
     (events.foldl (fun s e => Cursor.key_callback s e.1 e.2) s).swap_interval = 1) := by
  induction events with
  | nil => intro s h; exact h
  | cons e t ih =>
    intro s h
    exact ih _ (cursor_key_step s e.1 e.2 h)

/-- What a key event does to `swap_interval` in accuracy, in a state where it is 0 or 1. -/
theorem accuracy_key_effect (s : Accuracy.State) (key : Key) (action : Action)
    (h : s.swap_interval = 0 ∨ s.swap_interval = 1) :
    ((Accuracy.key_callback s key action).swap_interval ≠ s.swap_interval ↔
      (key = Key.space ∧ action = Action.press)) ∧
    ((key = Key.space ∧ action = Action.press) →
      (Accuracy.key_callback s key action).swap_interval = 1 - s.swap_interval ∧
      (Accuracy.key_callback s key action).swapIntervalCalls
        = s.swapIntervalCalls ++ [1 - s.swap_interval]) ∧
    (¬ (key = Key.space ∧ action = Action.press) → Accuracy.key_callback s key action = s) ∧
    (Accuracy.key_callback (Accuracy.key_callback s Key.space Action.press)
      Key.space Action.press).swap_interval = s.swap_interval := by
  have hw := (wrap_toggle _ h).1
  have hw2 : wrapInt32 (1 - (1 - s.swap_interval)) = s.swap_interval := by
    unfold wrapInt32
    omega
  refine ⟨?_, ?_, ?_, ?_⟩
  · unfold Accuracy.key_callback
    by_cases hk : key = Key.space ∧ action = Action.press
    · rw [if_pos hk]
      simp only [Accuracy.set_swap_interval, hw, hk, and_self, iff_true]
      omega
    · rw [if_neg hk]
      simp [hk]
  · intro hk
    unfold Accuracy.key_callback
    rw [if_pos hk]
    simp only [Accuracy.set_swap_interval, hw]
    exact ⟨trivial, trivial⟩
  · intro hk
    unfold Accuracy.key_callback
    rw [if_neg hk]
  · simp only [Accuracy.key_callback, and_self, if_true, Accuracy.set_swap_interval, hw, hw2]

/-- What a key event does to `swap_interval` in cursor, in a state where it is 0 or 1. -/
theorem cursor_key_effect (s : Cursor.State) (key : Key) (action : Action)
    (h : s.swap_interval = 0 ∨ s.swap_interval = 1) :
    ((Cursor.key_callback s key action).swap_interval ≠ s.swap_interval ↔
      (key = Key.space ∧ action = Action.press)) ∧
    ((key = Key.space ∧ action = Action.press) →
      (Cursor.key_callback s key action).swap_interval = 1 - s.swap_interval ∧
      (Cursor.key_callback s key action).swapIntervalCalls
        = s.swapIntervalCalls ++ [1 - s.swap_interval]) ∧
    (¬ (key = Key.space ∧ action = Action.press) →
      (Cursor.key_callback s key action).swapIntervalCalls = s.swapIntervalCalls) ∧
    (Cursor.key_callback (Cursor.key_callback s Key.space Action.press)
      Key.space Action.press).swap_interval = s.swap_interval := by
  have hw := (wrap_toggle _ h).1
  have hw2 : wrapInt32 (1 - (1 - s.swap_interval)) = s.swap_interval := by
    unfold wrapInt32
    omega
  have hne : 1 - s.swap_interval ≠ s.swap_interval := by omega
  refine ⟨?_, ?_, ?_, ?_⟩
  · unfold Cursor.key_callback
    by_cases ha : action ≠ Action.press
    · rw [if_pos ha]
      simp [ha]
    · rw [if_neg ha]
      simp only [ne_eq, not_not] at ha
      cases key <;> simp only [Cursor.caseN, ha] <;> (try split_ifs) <;> simp [hw, hne]
  · rintro ⟨hk, ha⟩
    subst hk
    subst ha
    simp only [Cursor.key_callback, ne_eq, not_true_eq_false, if_false, hw]
    exact ⟨trivial, trivial⟩
  · intro hk
    unfold Cursor.key_callback
    by_cases ha : action ≠ Action.press
    · rw [if_pos ha]
    · rw [if_neg ha]
      simp only [ne_eq, not_not] at ha
      cases key <;> simp only [Cursor.caseN] <;> (try split_ifs) <;>
        first
        | rfl
        | exact absurd ⟨rfl, ha⟩ hk
  · simp only [Cursor.key_callback, ne_eq, not_true_eq_false, if_false, hw, hw2]

/-- C16: in accuracy and in cursor, `swap_interval` is a two-valued toggle.  It starts
at 1 and after every sequence of key events it is 0 or 1; a further key event changes it
exactly when the key is SPACE and the action is PRESS, the new value is then 1 minus the
old one and is the value passed to `glfwSwapInterval` (no other key event calls it), and
two SPACE presses in a row restore the value. -/
theorem C16_swap_interval_toggles (events : List (Key × Action)) (key : Key)
    (action : Action) :
    (Accuracy.initial.swap_interval = 1 ∧
      ((Accuracy.afterKeys events).swap_interval = 0 ∨
        (Accuracy.afterKeys events).swap_interval = 1) ∧
      ((Accuracy.key_callback (Accuracy.afterKeys events) key action).swap_interval
          ≠ (Accuracy.afterKeys events).swap_interval ↔
        (key = Key.space ∧ action = Action.press)) ∧
      ((key = Key.space ∧ action = Action.press) →
        (Accuracy.key_callback (Accuracy.afterKeys events) key action).swap_interval
          = 1 - (Accuracy.afterKeys events).swap_interval ∧
        (Accuracy.key_callback (Accuracy.afterKeys events) key action).swapIntervalCalls
          = (Accuracy.afterKeys events).swapIntervalCalls
            ++ [1 - (Accuracy.afterKeys events).swap_interval]) ∧
      (¬ (key = Key.space ∧ action = Action.press) →
        Accuracy.key_callback (Accuracy.afterKeys events) key action
          = Accuracy.afterKeys events) ∧
      (Accuracy.key_callback (Accuracy.key_callback (Accuracy.afterKeys events)
          Key.space Action.press) Key.space Action.press).swap_interval
        = (Accuracy.afterKeys events).swap_interval) ∧
    (Cursor.initial.swap_interval = 1 ∧
      ((Cursor.afterKeys events).swap_interval = 0 ∨
        (Cursor.afterKeys events).swap_interval = 1) ∧
      ((Cursor.key_callback (Cursor.afterKeys events) key action).swap_interval
          ≠ (Cursor.afterKeys events).swap_interval ↔
        (key = Key.space ∧ action = Action.press)) ∧
      ((key = Key.space ∧ action = Action.press) →
        (Cursor.key_callback (Cursor.afterKeys events) key action).swap_interval
          = 1 - (Cursor.afterKeys events).swap_interval ∧
        (Cursor.key_callback (Cursor.afterKeys events) key action).swapIntervalCalls
          = (Cursor.afterKeys events).swapIntervalCalls
            ++ [1 - (Cursor.afterKeys events).swap_interval]) ∧
      (¬ (key = Key.space ∧ action = Action.press) →
        (Cursor.key_callback (Cursor.afterKeys events) key action).swapIntervalCalls
          = (Cursor.afterKeys events).swapIntervalCalls) ∧
      (Cursor.key_callback (Cursor.key_callback (Cursor.afterKeys events)
          Key.space Action.press) Key.space Action.press).swap_interval
        = (Cursor.afterKeys events).swap_interval) := by
  have ha := accuracy_keys_range events Accuracy.initial (Or.inr rfl)
  have hc := cursor_keys_range events Cursor.initial (Or.inr rfl)
  exact ⟨⟨rfl, ha, accuracy_key_effect _ key action ha⟩,
    ⟨rfl, hc, cursor_key_effect _ key action hc⟩⟩

/-- C19: in cursor, an ESCAPE press closes the window only when the cursor is not
disabled.  With a cursor mode other than `GLFW_CURSOR_DISABLED` the should-close flag is
set and nothing else changes, the cursor mode included; with `GLFW_CURSOR_DISABLED` the
press does exactly what an N press does: the should-close flag is left as it was and the
cursor mode becomes `GLFW_CURSOR_NORMAL`.  A key event whose action is not PRESS changes
nothing. -/
theorem C19_escape_closes_unless_disabled (s : Cursor.State) :
    (s.cursorMode ≠ Cursor.CursorMode.disabled →
      Cursor.key_callback s Key.escape Action.press = { s with shouldClose := true }) ∧
    (s.cursorMode = Cursor.CursorMode.disabled →
      Cursor.key_callback s Key.escape Action.press = Cursor.key_callback s Key.n Action.press ∧
      (Cursor.key_callback s Key.escape Action.press).shouldClose = s.shouldClose ∧
      (Cursor.key_callback s Key.escape Action.press).cursorMode = Cursor.CursorMode.normal) ∧
    (∀ key action, action ≠ Action.press → Cursor.key_callback s key action = s) ∧
    (Cursor.key_callback Cursor.initial Key.escape Action.press).shouldClose = true ∧
    (Cursor.key_callback (Cursor.key_callback Cursor.initial Key.d Action.press)
      Key.escape Action.press).shouldClose = false := by
  refine ⟨?_, ?_, ?_, by decide, by decide⟩
  · intro h
    simp only [Cursor.key_callback, ne_eq, not_true_eq_false, if_false, h, not_false_eq_true,
      if_true]
  · intro h
    simp only [Cursor.key_callback, ne_eq, not_true_eq_false, if_false, h, Cursor.caseN,
      and_self]
  · intro key action h
    simp only [Cursor.key_callback, ne_eq, h, not_false_eq_true, if_true]

/-- C20 fails on the code: after a W press the printed message names the mode the main
loop does not use.  When `wait_events` has become true, and the loop calls
`glfwWaitEvents`, the message is "(( polling for events ))"; when it has become false,
and the loop calls `glfwPollEvents`, the message is "(( waiting for events ))".  The
first W press of a run is an instance. -/
theorem C20_w_message_names_the_other_mode (s : Cursor.State) :
    (Cursor.key_callback s Key.w Action.press).wait_events = (!s.wait_events) ∧
    ((Cursor.key_callback s Key.w Action.press).wait_events = true →
      (Cursor.key_callback s Key.w Action.press).stdout
        = s.stdout ++ ["(( polling for events ))\n"] ∧
      Cursor.event_call (Cursor.key_callback s Key.w Action.press)
        = Cursor.EventCall.glfwWaitEvents) ∧
    ((Cursor.key_callback s Key.w Action.press).wait_events = false →
      (Cursor.key_callback s Key.w Action.press).stdout
        = s.stdout ++ ["(( waiting for events ))\n"] ∧
      Cursor.event_call (Cursor.key_callback s Key.w Action.press)
        = Cursor.EventCall.glfwPollEvents) ∧
    (Cursor.key_callback Cursor.initial Key.w Action.press).wait_events = true ∧
    (Cursor.key_callback Cursor.initial Key.w Action.press).stdout
      = ["(( polling for events ))\n"] ∧
    Cursor.event_call (Cursor.key_callback Cursor.initial Key.w Action.press)
      = Cursor.EventCall.glfwWaitEvents := by
  have e1 : "(( " ++ "poll" ++ "ing for events ))\n" = "(( polling for events ))\n" := by
    decide
  have e2 : "(( " ++ "wait" ++ "ing for events ))\n" = "(( waiting for events ))\n" := by
    decide
  refine ⟨?_, ?_, ?_, by decide, by decide, by decide⟩
  · simp [Cursor.key_callback]
  · intro h
    simp only [Cursor.key_callback, ne_eq, not_true_eq_false, if_false] at h ⊢
    simp only [Cursor.event_call, h, if_true, e1]
    exact ⟨trivial, trivial⟩
  · intro h
    simp only [Cursor.key_callback, ne_eq, not_true_eq_false, if_false] at h ⊢
    simp only [Cursor.event_call, h, Bool.false_eq_true, if_false, e2]
    exact ⟨trivial, trivial⟩

/-! # The gamma demo (C21) -/

namespace GLfloat

theorem two_pow_excessBits_le : ∀ (fuel m : Nat), 0 < m → 2 ^ excessBits fuel m ≤ m := by
  intro fuel
  induction fuel with
  | zero =>
    intro m hm
    simpa [excessBits] using hm
  | succ n ih =>
    intro m hm
    rw [excessBits]
    split_ifs with h
    · simpa using hm
    · have h24 : (2 : Nat) ^ 24 = 16777216 := by norm_num
      have := ih (m / 2) (by omega)
      rw [pow_succ]
      omega

/-- The halving loop of `excessBits m m` stops before its fuel is used up: what is left
of `m` fits in 24 binary digits. -/
theorem div_excessBits_lt : ∀ (fuel m : Nat), m < 2 ^ 24 * 2 ^ fuel →
    m / 2 ^ excessBits fuel m < 2 ^ 24 := by
  intro fuel
  induction fuel with
  | zero =>
    intro m hm
    simpa [excessBits] using hm
  | succ n ih =>
    intro m hm
    rw [excessBits]
    split_ifs with h
    · simpa using h
    · have := ih (m / 2) (by
        rw [pow_succ] at hm
        omega)
      rw [pow_succ, Nat.mul_comm, ← Nat.div_div_eq_div_mul]
      exact this

theorem div_excessBits_self_lt (m : Nat) : m / 2 ^ excessBits m m < 2 ^ 24 := by
  apply div_excessBits_lt
  have h1 : m < 2 ^ m := Nat.lt_two_pow m
  have h2 : 0 < (2 : Nat) ^ m := by positivity
  have h24 : (2 : Nat) ^ 24 = 16777216 := by norm_num
  rw [h24]
  omega

/-- A magnitude below 2^24 units (a subnormal number or one of the lowest normal binade)
is not changed by the rounding. -/
theorem roundMagnitude_of_lt (m : Nat) (h : m < 2 ^ 24) : roundMagnitude m = m := by
  have he : excessBits m m = 0 := by
    cases m with
    | zero => rfl
    | succ n => rw [excessBits, if_pos h]
  simp [roundMagnitude, he, Nat.mod_one]

/-- The rounded magnitude is a significand of at most 24 binary digits (2^24 itself when
the rounding carries into the next binade) times a power of two, and it is within half a
unit of the last place of the exact magnitude. -/
theorem roundMagnitude_spec (m : Nat) :
    (roundMagnitude m = m / 2 ^ excessBits m m * 2 ^ excessBits m m ∧
        2 * (m - roundMagnitude m) ≤ 2 ^ excessBits m m) ∨
    (roundMagnitude m = (m / 2 ^ excessBits m m + 1) * 2 ^ excessBits m m ∧
        m / 2 ^ excessBits m m + 1 ≤ 2 ^ 24 ∧
        2 * (roundMagnitude m - m) ≤ 2 ^ excessBits m m) := by
  have hdm := Nat.div_add_mod m (2 ^ excessBits m m)
  have hq := div_excessBits_self_lt m
  have hr : m % 2 ^ excessBits m m < 2 ^ excessBits m m := Nat.mod_lt _ (by positivity)
  unfold roundMagnitude
  generalize 2 ^ excessBits m m = p at *
  generalize m / p = q at *
  generalize m % p = r at *
  have hm : m = q * p + r := by rw [Nat.mul_comm]; omega
  have hs : (q + 1) * p = q * p + p := by rw [Nat.add_mul, Nat.one_mul]
  split_ifs with h1 h2
  · left
    exact ⟨rfl, by omega⟩
  · left
    exact ⟨rfl, by omega⟩
  · right
    refine ⟨rfl, by omega, ?_⟩
    rw [hs]
    omega

theorem roundMagnitude_pos (m : Nat) (h : 0 < m) : 0 < roundMagnitude m := by
  have hle := two_pow_excessBits_le m m h
  have hp : 0 < 2 ^ excessBits m m := by positivity
  have hq : 0 < m / 2 ^ excessBits m m := Nat.div_pos hle hp
  unfold roundMagnitude
  split_ifs
  · exact Nat.mul_pos hq hp
  · exact Nat.mul_pos hq hp
  · exact Nat.mul_pos (by omega) hp

/-- A positive exact result rounds to a positive binary32 number (or to +infinity): the
rounding never takes a positive number to zero. -/
theorem round_pos (k : Int) (h : 0 < k) : gt (round k) zero = true := by
  have hk : 0 ≤ k := by omega
  have hm := roundMagnitude_pos k.natAbs (by omega)
  unfold round
  rw [if_pos hk, if_pos hk]
  split_ifs
  · rfl
  · simp only [gt, zero, decide_eq_true_eq]
    omega

theorem pos_cases (a : GLfloat) (h : gt a zero = true) :
    (∃ k : Int, a = finite k ∧ 0 < k) ∨ a = posInf := by
  cases a with
  | finite k =>
    left
    refine ⟨k, rfl, ?_⟩
    simpa [gt, zero] using h
  | posInf => right; rfl
  | negInf => simp [gt, zero] at h
  | nan => simp [gt, zero] at h

/-- The sum of two positive `float` values is positive. -/
theorem add_pos (a b : GLfloat) (ha : gt a zero = true) (hb : gt b zero = true) :
    gt (add a b) zero = true := by
  rcases pos_cases a ha with ⟨x, rfl, hx⟩ | rfl <;>
    rcases pos_cases b hb with ⟨y, rfl, hy⟩ | rfl
  · exact round_pos (x + y) (by omega)
  · rfl
  · rfl
  · rfl

/-- When the halving loop has run at all, what is left of `m` has exactly 24 binary
digits: the shift is the smallest one that makes the significand fit. -/
theorem excessBits_lower : ∀ (fuel m : Nat), 0 < excessBits fuel m →
    2 ^ 23 * 2 ^ excessBits fuel m ≤ m := by
  intro fuel
  induction fuel with
  | zero =>
    intro m h
    simp [excessBits] at h
  | succ n ih =>
    intro m
    rw [excessBits]
    split_ifs with h
    · intro h0
      omega
    · intro _
      rw [pow_succ]
      by_cases h0 : 0 < excessBits n (m / 2)
      · have := ih (m / 2) h0
        omega
      · have h1 : excessBits n (m / 2) = 0 := by omega
        rw [h1]
        omega

/-- In a tie the rounding takes the even significand. -/
theorem roundMagnitude_tie_even (m : Nat)
    (h : 2 * (m % 2 ^ excessBits m m) = 2 ^ excessBits m m) :
    roundMagnitude m / 2 ^ excessBits m m % 2 = 0 := by
  have hp : 0 < 2 ^ excessBits m m := by positivity
  unfold roundMagnitude
  rw [if_neg (by omega)]
  by_cases he : m / 2 ^ excessBits m m % 2 = 0
  · rw [if_pos ⟨h, he⟩, Nat.mul_div_cancel _ hp]
    exact he
  · rw [if_neg (fun hc => he hc.2), Nat.mul_div_cancel _ hp]
    omega

/-- Up to 2^21 + 0.1 (in units of 2^-149) the rounding stays at or below 2^21. -/
theorem roundMagnitude_le (m : Nat) (h : m ≤ 2 ^ 170 + 13421773 * 2 ^ 122) :
    roundMagnitude m ≤ 2 ^ 170 := by
  by_cases he : excessBits m m ≤ 146
  · have hp : 2 ^ excessBits m m ≤ 2 ^ 146 := Nat.pow_le_pow_right (by norm_num) he
    have hq := div_excessBits_self_lt m
    have h170 : (2 : Nat) ^ 170 = 2 ^ 24 * 2 ^ 146 := by norm_num
    rw [h170]
    rcases roundMagnitude_spec m with ⟨h1, _⟩ | ⟨h1, h2, _⟩
    · rw [h1]
      exact Nat.mul_le_mul (Nat.le_of_lt hq) hp
    · rw [h1]
      exact Nat.mul_le_mul h2 hp
  · have hlow := excessBits_lower m m (by omega)
    have h148 : ¬ 148 ≤ excessBits m m := by
      intro hc
      have hp : 2 ^ 148 ≤ 2 ^ excessBits m m := Nat.pow_le_pow_right (by norm_num) hc
      norm_num at h hp hlow
      omega
    have h147 : excessBits m m = 147 := by omega
    rw [h147] at hlow
    unfold roundMagnitude
    rw [h147]
    norm_num at h hlow ⊢
    split_ifs <;> omega

/-- The sum of a `float` in (0, 2^21] and `0.1f` is a finite `float` in (0, 2^21]. -/
theorem add_tenth_bounded (k : Int) (h0 : 0 < k) (h1 : k ≤ 2 ^ 170) :
    ∃ j : Int, add (finite k) tenth = finite j ∧ 0 < j ∧ j ≤ 2 ^ 170 := by
  have hs : (0 : Int) < 13421773 * 2 ^ 122 := by positivity
  have hk : 0 ≤ k + 13421773 * 2 ^ 122 := by omega
  have hm : (k + 13421773 * 2 ^ 122).natAbs ≤ 2 ^ 170 + 13421773 * 2 ^ 122 := by
    zify
    rw [abs_of_nonneg hk]
    omega
  have hle := roundMagnitude_le _ hm
  have hpos := roundMagnitude_pos (k + 13421773 * 2 ^ 122).natAbs (by omega)
  have hmax : ¬ maxUnits < roundMagnitude (k + 13421773 * 2 ^ 122).natAbs := by
    unfold maxUnits
    norm_num at hle ⊢
    omega
  refine ⟨(roundMagnitude (k + 13421773 * 2 ^ 122).natAbs : Int), ?_, ?_, ?_⟩
  · simp only [add, tenth, round]
    rw [if_neg hmax, if_pos hk]
  · exact_mod_cast hpos
  · exact_mod_cast hle

/-- The difference of a `float` in (0, 2^21] and `0.1f`, when it is greater than `0.f`,
is a finite `float` in (0, 2^21]. -/
theorem sub_tenth_bounded (k : Int) (h1 : k ≤ 2 ^ 170)
    (hg : gt (sub (finite k) tenth) zero = true) :
    ∃ j : Int, sub (finite k) tenth = finite j ∧ 0 < j ∧ j ≤ 2 ^ 170 := by
  have hs : (0 : Int) < 13421773 * 2 ^ 122 := by positivity
  by_cases hk : 0 < k - 13421773 * 2 ^ 122
  · have hk0 : 0 ≤ k - 13421773 * 2 ^ 122 := by omega
    have hm : (k - 13421773 * 2 ^ 122).natAbs ≤ 2 ^ 170 + 13421773 * 2 ^ 122 := by
      zify
      rw [abs_of_nonneg hk0]
      omega
    have hle := roundMagnitude_le _ hm
    have hpos := roundMagnitude_pos (k - 13421773 * 2 ^ 122).natAbs (by omega)
    have hmax : ¬ maxUnits < roundMagnitude (k - 13421773 * 2 ^ 122).natAbs := by
      unfold maxUnits
      norm_num at hle ⊢
      omega
    refine ⟨(roundMagnitude (k - 13421773 * 2 ^ 122).natAbs : Int), ?_, ?_, ?_⟩
    · simp only [sub, tenth, round]
      rw [if_neg hmax, if_pos hk0]
    · exact_mod_cast hpos
    · exact_mod_cast hle
  · exfalso
    simp only [sub, tenth, round] at hg
    by_cases hk0 : 0 ≤ k - 13421773 * 2 ^ 122
    · have hz : k - 13421773 * 2 ^ 122 = 0 := by omega
      rw [hz] at hg
      simp [roundMagnitude_of_lt, maxUnits, gt, zero] at hg
    · rw [if_neg hk0, if_neg hk0] at hg
      split_ifs at hg
      · simp [gt, zero] at hg
      · simp only [gt, zero, decide_eq_true_eq] at hg
        omega

/-- A finite value of at most 2^170 units stands for a number of at most 2^21. -/
theorem toRat_bounded (k : Int) (h0 : 0 < k) (h1 : k ≤ 2 ^ 170) :
    ∃ q : ℚ, toRat (finite k) = some q ∧ 0 < q ∧ q ≤ 2 ^ 21 := by
  refine ⟨(k : ℚ) / 2 ^ 149, rfl, ?_, ?_⟩
  · have : (0 : ℚ) < (k : ℚ) := by exact_mod_cast h0
    positivity
  · rw [div_le_iff₀ (by positivity)]
    have : (k : ℚ) ≤ 2 ^ 170 := by exact_mod_cast h1
    calc (k : ℚ) ≤ 2 ^ 170 := this
      _ = 2 ^ 21 * 2 ^ 149 := by norm_num

theorem gt_zero_of_inRange (v : GLfloat) (h : inRange v) : gt v zero = true := by
  cases v with
  | finite k =>
    simp only [inRange] at h
    simp only [gt, zero, decide_eq_true_eq]
    exact h.1
  | posInf => exact h.elim
  | negInf => exact h.elim
  | nan => exact h.elim

theorem toRat_of_inRange (v : GLfloat) (h : inRange v) :
    ∃ q : ℚ, toRat v = some q ∧ 0 < q ∧ q ≤ 2 ^ 21 := by
  cases v with
  | finite k =>
    simp only [inRange] at h
    exact toRat_bounded k h.1 h.2
  | posInf => exact h.elim
  | negInf => exact h.elim
  | nan => exact h.elim

theorem add_tenth_inRange (v : GLfloat) (h : inRange v) : inRange (add v tenth) := by
  cases v with
  | finite k =>
    simp only [inRange] at h
    obtain ⟨j, hj, h0, h1⟩ := add_tenth_bounded k h.1 h.2
    rw [hj]
    exact ⟨h0, h1⟩
  | posInf => exact h.elim
  | negInf => exact h.elim
  | nan => exact h.elim

theorem sub_tenth_inRange (v : GLfloat) (h : inRange v)
    (hg : gt (sub v tenth) zero = true) : inRange (sub v tenth) := by
  cases v with
  | finite k =>
    simp only [inRange] at h
    obtain ⟨j, hj, h0, h1⟩ := sub_tenth_bounded k h.2 hg
    rw [hj]
    exact ⟨h0, h1⟩
  | posInf => exact h.elim
  | negInf => exact h.elim
  | nan => exact h.elim

end GLfloat

namespace Gamma

/-- The constant `0.1f` is the binary32 number 13421773 · 2^-27: it has 24 significant
binary digits (the rounding leaves it as it is), and it is the nearest to 1/10, at less
than half the spacing 2^-27 of the binary32 numbers around it.  It is not 1/10. -/
theorem STEP_SIZE_nearest_tenth :
    GLfloat.toRat STEP_SIZE = some (13421773 / 2 ^ 27) ∧
    (13421773 : Nat) < 2 ^ 24 ∧
    |(13421773 / 2 ^ 27 : ℚ) - 1 / 10| < 1 / 2 ^ 28 ∧
    (13421773 / 2 ^ 27 : ℚ) ≠ 1 / 10 := by
  refine ⟨?_, by norm_num, ?_, by norm_num⟩
  · simp only [STEP_SIZE, GLfloat.tenth, GLfloat.toRat]
    norm_num
  · rw [abs_lt]
    constructor <;> norm_num

/-- At `gamma_value` = 2^21 the spacing of the binary32 numbers is 1/4, and the sum with
`0.1f` rounds back to 2^21. -/
theorem add_absorbed_at_two_pow_21 :
    GLfloat.toRat (GLfloat.finite (2 ^ 170)) = some (2 ^ 21) ∧
    GLfloat.add (GLfloat.finite (2 ^ 170)) STEP_SIZE = GLfloat.finite (2 ^ 170) := by
  constructor
  · simp only [GLfloat.toRat]
    norm_num
  · set_option maxRecDepth 100000 in decide

/-- The invariant of the gamma demo: `gamma_value` and every value passed to
`glfwSetGamma` so far are finite, greater than 0 and at most 2^21. -/
theorem key_callback_inRange (s : State) (key : Key) (action : Action)
    (h : GLfloat.inRange s.gamma_value ∧ ∀ v ∈ s.setGammaCalls, GLfloat.inRange v) :
    GLfloat.inRange (key_callback s key action).gamma_value ∧
    ∀ v ∈ (key_callback s key action).setGammaCalls, GLfloat.inRange v := by
  have hset : ∀ value : GLfloat, GLfloat.inRange value →
      GLfloat.inRange (set_gamma s value).gamma_value ∧
      ∀ v ∈ (set_gamma s value).setGammaCalls, GLfloat.inRange v := by
    intro value hv
    refine ⟨hv, ?_⟩
    intro v hmem
    simp only [set_gamma, List.mem_append, List.mem_singleton] at hmem
    rcases hmem with hmem | hmem
    · exact h.2 v hmem
    · rw [hmem]; exact hv
  unfold key_callback
  by_cases ha : action ≠ Action.press
  · rw [if_pos ha]
    exact h
  · rw [if_neg ha]
    cases key with
    | escape => exact h
    | kpAdd => exact hset _ (GLfloat.add_tenth_inRange _ h.1)
    | q => exact hset _ (GLfloat.add_tenth_inRange _ h.1)
    | kpSubtract =>
      dsimp only
      split_ifs with hd
      · exact hset _ (GLfloat.sub_tenth_inRange _ h.1 hd)
      · exact h
    | w =>
      dsimp only
      split_ifs with hd
      · exact hset _ (GLfloat.sub_tenth_inRange _ h.1 hd)
      · exact h
    | space => exact h
    | a => exact h
    | d => exact h
    | h => exact h
    | n => exact h
    | other => exact h

theorem afterKeys_inRange_from (events : List (Key × Action)) : ∀ (s : State),
    (GLfloat.inRange s.gamma_value ∧ ∀ v ∈ s.setGammaCalls, GLfloat.inRange v) →
    (GLfloat.inRange (events.foldl (fun s e => key_callback s e.1 e.2) s).gamma_value ∧
      ∀ v ∈ (events.foldl (fun s e => key_callback s e.1 e.2) s).setGammaCalls,
        GLfloat.inRange v) := by
  induction events with
  | nil => intro s h; exact h
  | cons e t ih =>
    intro s h
    exact ih _ (key_callback_inRange s e.1 e.2 h)

theorem started_inRange :
    GLfloat.inRange started.gamma_value ∧ ∀ v ∈ started.setGammaCalls, GLfloat.inRange v := by
  have h1 : GLfloat.inRange GLfloat.one := by
    simp only [GLfloat.one, GLfloat.inRange]
    constructor
    · positivity
    · norm_num
  refine ⟨h1, ?_⟩
  intro v hv
  simp only [started, set_gamma, initial, List.nil_append, List.mem_singleton] at hv
  rw [hv]
  exact h1

end Gamma

/-- C21, the claim as stated fails: the program computes in binary32, where `STEP_SIZE`
is 13421773 · 2^-27 and every sum and difference is rounded to 24 significant binary
digits.  The first press of Q takes `gamma_value` from 1 to 9227469 · 2^-23, which is
not 1 + 1/10.  After 31 presses of Q and 40 of W `gamma_value` is 13421791 · 2^-27, just
above `0.1f`, and one more press of W subtracts again and passes 9 · 2^-26 to
`glfwSetGamma` (its 73rd call), where exact arithmetic with step 1/10 would stand at
1/10, find 1/10 - 1/10 not greater than 0 and make no call. -/
theorem C21_binary32_step_is_not_a_tenth :
    Gamma.isIncrease Key.q Action.press ∧
    GLfloat.toRat Gamma.started.gamma_value = some 1 ∧
    GLfloat.toRat (Gamma.key_callback Gamma.started Key.q Action.press).gamma_value
      = some (9227469 / 2 ^ 23) ∧
    (9227469 / 2 ^ 23 : ℚ) ≠ 1 + 1 / 10 ∧
    Gamma.isDecrease Key.w Action.press ∧
    GLfloat.toRat (Gamma.afterKeys (List.replicate 31 (Key.q, Action.press)
      ++ List.replicate 40 (Key.w, Action.press))).gamma_value
      = some (13421791 / 2 ^ 27) ∧
    (Gamma.key_callback (Gamma.afterKeys (List.replicate 31 (Key.q, Action.press)
      ++ List.replicate 40 (Key.w, Action.press))) Key.w Action.press).setGammaCalls
      = (Gamma.afterKeys (List.replicate 31 (Key.q, Action.press)
          ++ List.replicate 40 (Key.w, Action.press))).setGammaCalls
        ++ [GLfloat.finite (9 * 2 ^ 123)] ∧
    (Gamma.key_callback (Gamma.afterKeys (List.replicate 31 (Key.q, Action.press)
      ++ List.replicate 40 (Key.w, Action.press))) Key.w Action.press).setGammaCalls.length
      = 73 ∧
    GLfloat.toRat (GLfloat.finite (9 * 2 ^ 123)) = some (9 / 2 ^ 26) ∧
    ¬ (0 : ℚ) < 1 + 31 * (1 / 10) - 40 * (1 / 10) - 1 / 10 := by
  have hq : (Gamma.key_callback Gamma.started Key.q Action.press).gamma_value
      = GLfloat.finite (9227469 * 2 ^ 126) := by
    set_option maxRecDepth 100000 in decide
  have h40 : (Gamma.afterKeys (List.replicate 31 (Key.q, Action.press)
      ++ List.replicate 40 (Key.w, Action.press))).gamma_value
      = GLfloat.finite (13421791 * 2 ^ 122) := by
    set_option maxRecDepth 100000 in decide
  have h41 : (Gamma.key_callback (Gamma.afterKeys (List.replicate 31 (Key.q, Action.press)
      ++ List.replicate 40 (Key.w, Action.press))) Key.w Action.press).setGammaCalls
      = (Gamma.afterKeys (List.replicate 31 (Key.q, Action.press)
          ++ List.replicate 40 (Key.w, Action.press))).setGammaCalls
        ++ [GLfloat.finite (9 * 2 ^ 123)] := by
    set_option maxRecDepth 100000 in decide
  have hlen : (Gamma.key_callback (Gamma.afterKeys (List.replicate 31 (Key.q, Action.press)
      ++ List.replicate 40 (Key.w, Action.press))) Key.w Action.press).setGammaCalls.length
      = 73 := by
    set_option maxRecDepth 100000 in decide
  refine ⟨⟨rfl, Or.inr rfl⟩, ?_, ?_, by norm_num, ⟨rfl, Or.inr rfl⟩, ?_, h41, hlen, ?_,
    by norm_num⟩
  · simp only [Gamma.started, Gamma.set_gamma, Gamma.initial, GLfloat.one, GLfloat.toRat]
    norm_num
  · rw [hq]
    simp only [GLfloat.toRat]
    norm_num
  · rw [h40]
    simp only [GLfloat.toRat]
    norm_num
  · simp only [GLfloat.toRat]
    norm_num

/-- C21, amended: in the gamma demo, with the `float` arithmetic of the program (binary32,
round to nearest, `STEP_SIZE` the binary32 number `0.1f`), `gamma_value` is strictly
positive (and finite, at most 2^21) after every sequence of key events from the initial
value 1.0, and so is every value passed to `glfwSetGamma`.  An increase key always
stores the binary32 sum `gamma_value + STEP_SIZE` and passes it to `glfwSetGamma`; a
decrease key stores and passes the binary32 difference `gamma_value - STEP_SIZE` when
that difference is greater than `0.f`, and otherwise leaves `gamma_value` unchanged and
makes no call of `glfwSetGamma`: twelve decrease presses from the start bring
`gamma_value` to 13421763 · 2^-27 with nine calls after the one `main` makes. -/
theorem C21_gamma_value_stays_positive (events : List (Key × Action)) (key : Key)
    (action : Action) :
    Gamma.initial.gamma_value = GLfloat.one ∧ Gamma.STEP_SIZE = GLfloat.tenth ∧
    GLfloat.gt (Gamma.afterKeys events).gamma_value GLfloat.zero = true ∧
    (∃ q : ℚ, GLfloat.toRat (Gamma.afterKeys events).gamma_value = some q ∧
      0 < q ∧ q ≤ 2 ^ 21) ∧
    (∀ v ∈ (Gamma.afterKeys events).setGammaCalls,
      GLfloat.gt v GLfloat.zero = true ∧
      ∃ q : ℚ, GLfloat.toRat v = some q ∧ 0 < q ∧ q ≤ 2 ^ 21) ∧
    (Gamma.isIncrease key action →
      (Gamma.key_callback (Gamma.afterKeys events) key action).gamma_value
        = GLfloat.add (Gamma.afterKeys events).gamma_value Gamma.STEP_SIZE ∧
      (Gamma.key_callback (Gamma.afterKeys events) key action).setGammaCalls
        = (Gamma.afterKeys events).setGammaCalls
          ++ [GLfloat.add (Gamma.afterKeys events).gamma_value Gamma.STEP_SIZE]) ∧
    (Gamma.isDecrease key action →
      GLfloat.gt (GLfloat.sub (Gamma.afterKeys events).gamma_value Gamma.STEP_SIZE)
        GLfloat.zero = true →
      (Gamma.key_callback (Gamma.afterKeys events) key action).gamma_value
        = GLfloat.sub (Gamma.afterKeys events).gamma_value Gamma.STEP_SIZE ∧
      (Gamma.key_callback (Gamma.afterKeys events) key action).setGammaCalls
        = (Gamma.afterKeys events).setGammaCalls
          ++ [GLfloat.sub (Gamma.afterKeys events).gamma_value Gamma.STEP_SIZE]) ∧
    (Gamma.isDecrease key action →
      ¬ GLfloat.gt (GLfloat.sub (Gamma.afterKeys events).gamma_value Gamma.STEP_SIZE)
        GLfloat.zero = true →
      Gamma.key_callback (Gamma.afterKeys events) key action = Gamma.afterKeys events) ∧
    (Gamma.afterKeys (List.replicate 12 (Key.w, Action.press))).gamma_value
      = GLfloat.finite (13421763 * 2 ^ 122) ∧
    (Gamma.afterKeys (List.replicate 12 (Key.w, Action.press))).setGammaCalls.length
      = 10 := by
  have hpos := Gamma.afterKeys_inRange_from events Gamma.started Gamma.started_inRange
  refine ⟨rfl, rfl, GLfloat.gt_zero_of_inRange _ hpos.1, GLfloat.toRat_of_inRange _ hpos.1,
    fun v hv => ⟨GLfloat.gt_zero_of_inRange _ (hpos.2 v hv),
      GLfloat.toRat_of_inRange _ (hpos.2 v hv)⟩, ?_, ?_, ?_, ?_, ?_⟩
  · rintro ⟨ha, hk | hk⟩ <;> subst ha <;> subst hk <;>
      simp [Gamma.key_callback, Gamma.set_gamma]
  · rintro ⟨ha, hk | hk⟩ hd <;> subst ha <;> subst hk <;>
      simp [Gamma.key_callback, Gamma.set_gamma, hd]
  · rintro ⟨ha, hk | hk⟩ hd <;> subst ha <;> subst hk <;>
      simp [Gamma.key_callback, hd]
  · set_option maxRecDepth 100000 in decide
  · set_option maxRecDepth 100000 in decide

/-! # The cursor frames (C22) -/

namespace Cursor

theorem range_add_four (n : Nat) :
    List.range (n + 4) = List.range n ++ [n, n + 1, n + 2, n + 3] := by
  rw [show n + 4 = n + 1 + 1 + 1 + 1 by omega, List.range_succ, List.range_succ,
    List.range_succ, List.range_succ]
  simp [List.append_assoc]

theorem frameByte_rgb (alpha : Nat → Nat → Byte) (height k : Nat) (h : k % 4 ≠ 3) :
    frameByte alpha height k = 255 := by
  unfold frameByte
  rw [if_neg h]

/-- One pixel: the four stores go to the next four indices and leave the bytes of the
pixel. -/
theorem frameInv_pixel (alpha : Nat → Nat → Byte) (height : Nat) (buffer0 : Mem) (p : Nat)
    (s : Frame) (a : Byte) (ha : a = alpha (p % height) (p / height))
    (hfit : 4 * (p + 1) ≤ buffer0.length) (h : FrameInv alpha height buffer0 p s) :
    FrameInv alpha height buffer0 (p + 1) (pixel s a) := by
  obtain ⟨hi, hw, hlen, hdone, hrest⟩ := h
  have hload : ∀ k, load (pixel s a).buffer k =
      if k = 4 * p + 3 then a
      else if k = 4 * p + 2 ∨ k = 4 * p + 1 ∨ k = 4 * p then 255
      else load s.buffer k := by
    intro k
    simp only [pixel, put, load_store, length_store, hi, hlen]
    by_cases h3 : k = 4 * p + 3
    · rw [if_pos ⟨by omega, by omega⟩, if_pos h3]
    · rw [if_neg (by omega), if_neg h3]
      by_cases h2 : k = 4 * p + 2
      · rw [if_pos ⟨by omega, by omega⟩, if_pos (Or.inl h2)]
      · rw [if_neg (by omega)]
        by_cases h1 : k = 4 * p + 1
        · rw [if_pos ⟨by omega, by omega⟩, if_pos (Or.inr (Or.inl h1))]
        · rw [if_neg (by omega)]
          by_cases h0 : k = 4 * p
          · rw [if_pos ⟨by omega, by omega⟩, if_pos (Or.inr (Or.inr h0))]
          · rw [if_neg (by omega), if_neg (by omega)]
  refine ⟨?_, ?_, ?_, ?_, ?_⟩
  · simp only [pixel, put, hi]
    omega
  · simp only [pixel, put, hi, hw]
    rw [show 4 * (p + 1) = 4 * p + 4 by omega, range_add_four]
    simp [List.append_assoc, Nat.add_assoc]
  · simp only [pixel, put, length_store, hlen]
  · intro k hk
    rw [hload]
    by_cases h3 : k = 4 * p + 3
    · rw [if_pos h3, ha]
      unfold frameByte
      have h4 : k % 4 = 3 := by omega
      have hq : k / 4 = p := by omega
      rw [if_pos h4, hq]
    · rw [if_neg h3]
      by_cases hc : k = 4 * p + 2 ∨ k = 4 * p + 1 ∨ k = 4 * p
      · rw [if_pos hc]
        exact (frameByte_rgb alpha height k (by omega)).symm
      · rw [if_neg hc]
        exact hdone k (by omega)
  · intro k hk
    rw [hload, if_neg (by omega), if_neg (by omega)]
    exact hrest k (by omega)

/-- The column loop for row `y`: `n` pixels more. -/
theorem frameInv_columns (alpha : Nat → Nat → Byte) (height : Nat) (buffer0 : Mem) (y : Nat) :
    ∀ (n : Nat) (s : Frame), n ≤ height → 4 * (y * height + n) ≤ buffer0.length →
    FrameInv alpha height buffer0 (y * height) s →
    FrameInv alpha height buffer0 (y * height + n)
      ((List.range n).foldl (fun s x => pixel s (alpha x y)) s) := by
  intro n
  induction n with
  | zero => intro s _ _ h; exact h
  | succ n ih =>
    intro s hn hfit h
    rw [List.range_succ, List.foldl_append]
    have hprev := ih s (by omega) (by omega) h
    simp only [List.foldl_cons, List.foldl_nil]
    have hx : (y * height + n) % height = n := by
      rw [Nat.add_comm, Nat.add_mul_mod_self_right]
      exact Nat.mod_eq_of_lt (by omega)
    have hy : (y * height + n) / height = y := by
      rw [Nat.add_comm, Nat.add_mul_div_right _ _ (by omega), Nat.div_eq_of_lt (by omega)]
      omega
    have := frameInv_pixel alpha height buffer0 (y * height + n) _ (alpha n y)
      (by rw [hx, hy]) (by omega) hprev
    exact this

/-- The row loop: `m` rows of `height` pixels. -/
theorem frameInv_rows (alpha : Nat → Nat → Byte) (height : Nat) (buffer0 : Mem) :
    ∀ (m : Nat) (s : Frame), 4 * (m * height) ≤ buffer0.length →
    FrameInv alpha height buffer0 0 s →
    FrameInv alpha height buffer0 (m * height)
      ((List.range m).foldl
        (fun s y => (List.range height).foldl (fun s x => pixel s (alpha x y)) s) s) := by
  intro m
  induction m with
  | zero =>
    intro s _ h
    simpa using h
  | succ m ih =>
    intro s hfit h
    rw [List.range_succ, List.foldl_append]
    have hm : (m + 1) * height = m * height + height := by ring
    have hprev := ih s (by rw [hm] at hfit; omega) h
    simp only [List.foldl_cons, List.foldl_nil]
    rw [hm]
    exact frameInv_columns alpha height buffer0 m height _ (Nat.le_refl _)
      (by rw [hm] at hfit; exact hfit) hprev

end Cursor

/-- C22: for every frame time (every choice of the alpha bytes) and every content of the
uninitialised buffer, `create_cursor_frame` stores to the indices 0, 1, …, 16383 of its
buffer of `64 * 64 * 4 = 16384` bytes in this order, so to each byte exactly once and
never outside the buffer, although the row loop is bounded by `image.width` and the
column loop by `image.height`; afterwards every byte at an index not congruent to 3
modulo 4 is 255, and the byte at index `4 * (64 * y + x) + 3` is the alpha byte of the
pixel `(x, y)`. -/
theorem C22_cursor_frame_writes_each_byte_once (alpha : Nat → Nat → Byte) (buffer0 : Mem)
    (hsize : buffer0.length = Cursor.bufferSize) :
    Cursor.bufferSize = 16384 ∧
    (Cursor.create_cursor_frame alpha buffer0).writes = List.range 16384 ∧
    (∀ k, k < 16384 → (Cursor.create_cursor_frame alpha buffer0).writes.count k = 1) ∧
    (∀ k ∈ (Cursor.create_cursor_frame alpha buffer0).writes, k < 16384) ∧
    (Cursor.create_cursor_frame alpha buffer0).i = 16384 ∧
    (Cursor.create_cursor_frame alpha buffer0).buffer.length = 16384 ∧
    (∀ k, k < 16384 → k % 4 ≠ 3 →
      load (Cursor.create_cursor_frame alpha buffer0).buffer k = 255) ∧
    (∀ x y, x < 64 → y < 64 →
      load (Cursor.create_cursor_frame alpha buffer0).buffer (4 * (64 * y + x) + 3)
        = alpha x y) := by
  have hsz : buffer0.length = 16384 := hsize
  have h0 : Cursor.FrameInv alpha 64 buffer0 0 { i := 0, buffer := buffer0, writes := [] } :=
    ⟨rfl, rfl, rfl, fun k hk => absurd hk (by omega), fun _ _ => rfl⟩
  have hinv := Cursor.frameInv_rows alpha 64 buffer0 64 _ (by rw [hsz]) h0
  obtain ⟨hi, hw, hlen, hdone, _⟩ := hinv
  have hw2 : (Cursor.create_cursor_frame alpha buffer0).writes = List.range 16384 := hw
  refine ⟨rfl, hw2, ?_, ?_, hi, hlen.trans hsz, ?_, ?_⟩
  · intro k hk
    rw [hw2]
    exact List.count_eq_one_of_mem (List.nodup_range 16384) (List.mem_range.mpr hk)
  · intro k hk
    rw [hw2] at hk
    exact List.mem_range.mp hk
  · intro k hk h3
    have := hdone k hk
    rw [Cursor.frameByte_rgb alpha 64 k h3] at this
    exact this
  · intro x y hx hy
    have := hdone (4 * (64 * y + x) + 3) (by omega)
    refine this.trans ?_
    unfold Cursor.frameByte
    have h4 : (4 * (64 * y + x) + 3) % 4 = 3 := by omega
    have hq : (4 * (64 * y + x) + 3) / 4 = 64 * y + x := by omega
    have hxm : (64 * y + x) % 64 = x := by omega
    have hym : (64 * y + x) / 64 = y := by omega
    rw [if_pos h4, hq, hxm, hym]

/-- C22 at a concrete input: a buffer of zero bytes and the alpha byte 128 for every
pixel. -/
theorem C22_cursor_frame_writes_each_byte_once_witness :
    (List.replicate Cursor.bufferSize (0 : Byte)).length = Cursor.bufferSize ∧
    (Cursor.bufferSize = 16384 ∧
      (Cursor.create_cursor_frame (fun _ _ => 128)
        (List.replicate Cursor.bufferSize 0)).writes = List.range 16384 ∧
      (∀ k, k < 16384 → (Cursor.create_cursor_frame (fun _ _ => 128)
        (List.replicate Cursor.bufferSize 0)).writes.count k = 1) ∧
      (∀ k ∈ (Cursor.create_cursor_frame (fun _ _ => 128)
        (List.replicate Cursor.bufferSize 0)).writes, k < 16384) ∧
      (Cursor.create_cursor_frame (fun _ _ => 128)
        (List.replicate Cursor.bufferSize 0)).i = 16384 ∧
      (Cursor.create_cursor_frame (fun _ _ => 128)
        (List.replicate Cursor.bufferSize 0)).buffer.length = 16384 ∧
      (∀ k, k < 16384 → k % 4 ≠ 3 →
        load (Cursor.create_cursor_frame (fun _ _ => 128)
          (List.replicate Cursor.bufferSize 0)).buffer k = 255) ∧
      (∀ x y, x < 64 → y < 64 →
        load (Cursor.create_cursor_frame (fun _ _ => 128)
          (List.replicate Cursor.bufferSize 0)).buffer (4 * (64 * y + x) + 3)
          = (fun _ _ => (128 : Byte)) x y)) :=
  ⟨List.length_replicate _ _,
    C22_cursor_frame_writes_each_byte_once (fun _ _ => 128)
      (List.replicate Cursor.bufferSize 0) (List.length_replicate _ _)⟩

end GlfwShim
